import Mathlib

/-!
# Verification development for the Elasticsearch migrator (`learning_ESM`)

Shallow embedding of the Go sources (`bulk.go`, `file.go`, `http.go`, `v0.go`,
`scroll.go`, `main.go`, `domain.go`) and theorems about them.

Conventions of the embedding

* A Go `interface{}` holding decoded JSON is a `GoValue`; a
  `map[string]interface{}` is an association list `GoMap` read with first-match
  lookup (Go maps are unordered, so association order carries no meaning).
* A run-time panic (failed single-value type assertion, index out of range,
  explicit `panic(err)`) is `Except.error msg`; normal completion is `Except.ok`.
* Goroutine bodies are step functions over explicit state; what they do to the
  outside world is recorded as a list of `Effect`s, oldest first.
* A `bytes.Buffer` is the list of characters written to it; `Len()` is the
  number of UTF-8 bytes of that text.
* A Go `int` is an `Int`; where a product of configuration values can leave the
  64-bit range (the bulk size threshold) it is wrapped around explicitly
  (`wrapInt`), as Go does on the 64-bit platforms.
-/

namespace Esm

/-! ## Dynamic values -/

/-- Dynamic Go value stored in an `interface{}`. `number` is `json.Number` (what
`DecodeJson` produces for every JSON number because of `UseNumber`), `int` is a
Go `int` (only ever stored by Go code, never by the JSON decoder). -/
inductive GoValue where
  | nil
  | bool (b : Bool)
  | number (lit : String)
  | int (n : Int)
  | str (s : String)
  | arr (vs : List GoValue)
  | obj (kvs : List (String × GoValue))

/-- Go `map[string]interface{}`. -/
abbrev GoMap := List (String × GoValue)

namespace GoMap

/-- Map read `v, ok := m[k]`: `none` when `ok` is false. -/
def get (m : GoMap) (k : String) : Option GoValue :=
  match m with
  | [] => none
  | (k', v) :: rest => if k' = k then some v else get rest k

/-- Test `_, ok := m[k]`. -/
def hasKey (m : GoMap) (k : String) : Bool :=
  (get m k).isSome

/-- Statement `delete(m, k)`. -/
def delete (m : GoMap) (k : String) : GoMap :=
  m.filter (fun kv => decide (kv.1 ≠ k))

/-- Assignment `m[k] = v`. -/
def set (m : GoMap) (k : String) (v : GoValue) : GoMap :=
  (k, v) :: delete m k

/-- Single-value map read `m[k]`: the zero value `nil` when the key is absent. -/
def getD (m : GoMap) (k : String) : GoValue :=
  (get m k).getD GoValue.nil

end GoMap

/-- Decimal digit test. -/
def isDigit (c : Char) : Bool :=
  48 ≤ c.toNat && c.toNat ≤ 57

/-- Function `isValidNumber` of `encoding/json`: the literals the encoder
accepts in a `json.Number` (the JSON number grammar). -/
def isValidNumber (s : List Char) : Bool :=
  let s1 := match s with
    | '-' :: r => r
    | _ => s
  let afterInt : Option (List Char) := match s1 with
    | [] => none
    | c :: r =>
      if c = '0' then some r
      else if 49 ≤ c.toNat && c.toNat ≤ 57 then some (r.dropWhile isDigit)
      else none
  match afterInt with
  | none => false
  | some s2 =>
    let s3 := match s2 with
      | '.' :: d :: r => if isDigit d then r.dropWhile isDigit else s2
      | _ => s2
    match s3 with
    | e :: x :: r =>
      if e = 'e' ∨ e = 'E' then
        if x = '+' ∨ x = '-' then
          match r with
          | [] => false
          | _ => (r.dropWhile isDigit).isEmpty
        else ((x :: r).dropWhile isDigit).isEmpty
      else false
    | [_] => false
    | [] => true

/-- Characters that can occur in a JSON number. -/
def isNumberChar (c : Char) : Bool :=
  isDigit c || c = '+' || c = '-' || c = '.' || c = 'e' || c = 'E'

mutual
/-- Values in the image of `DecodeJson` (decoder with `UseNumber`): no Go `int`
anywhere and every `json.Number` literal a JSON number (a valid literal made of
number characters). -/
def jsonDecoded : GoValue → Bool
  | .nil => true
  | .bool _ => true
  | .number lit => isValidNumber lit.toList && lit.toList.all isNumberChar
  | .int _ => false
  | .str _ => true
  | .arr vs => jsonDecodedList vs
  | .obj kvs => jsonDecodedFields kvs
/-- Pointwise `jsonDecoded` on array elements. -/
def jsonDecodedList : List GoValue → Bool
  | [] => true
  | v :: vs => jsonDecoded v && jsonDecodedList vs
/-- Pointwise `jsonDecoded` on object members. -/
def jsonDecodedFields : List (String × GoValue) → Bool
  | [] => true
  | (_, v) :: kvs => jsonDecoded v && jsonDecodedFields kvs
end

/-! ## Go string helpers -/

/-- Go `unicode.IsSpace`. -/
def isSpace (c : Char) : Bool :=
  let n := c.toNat
  n = 0x09 || n = 0x0A || n = 0x0B || n = 0x0C || n = 0x0D || n = 0x20 ||
  n = 0x85 || n = 0xA0 || n = 0x1680 || (0x2000 ≤ n && n ≤ 0x200A) ||
  n = 0x2028 || n = 0x2029 || n = 0x202F || n = 0x205F || n = 0x3000

/-- Go `strings.TrimSpace` on the characters of a string. -/
def TrimSpace (s : List Char) : List Char :=
  ((s.dropWhile isSpace).reverse.dropWhile isSpace).reverse

/-- Go `strings.Split(s, sep)` for a one-character separator: always at least
one piece, `n + 1` pieces when `sep` occurs `n` times. -/
def Split (sep : Char) : List Char → List (List Char)
  | [] => [[]]
  | c :: cs =>
    if c = sep then [] :: Split sep cs
    else
      match Split sep cs with
      | [] => [[c]]
      | p :: ps => (c :: p) :: ps

/-- Length in bytes of the UTF-8 encoding of a text (`bytes.Buffer.Len`). -/
def byteLen (s : List Char) : Nat :=
  (s.map Char.utf8Size).sum

/-! ## JSON encoding (`encoding/json` as used through `json.NewEncoder`) -/

/-- Lower-case hexadecimal digit. -/
def hexDigit (n : Nat) : Char :=
  "0123456789abcdef".toList.getD n '0'

/-- Escaping of one character inside a JSON string literal, as done by
`json.Encoder` with its default HTML escaping. -/
def escapeChar (c : Char) : List Char :=
  if c = '"' then ['\\', '"']
  else if c = '\\' then ['\\', '\\']
  else if c = '\n' then ['\\', 'n']
  else if c = '\r' then ['\\', 'r']
  else if c = '\t' then ['\\', 't']
  else if c.toNat < 0x20 ∨ c = '<' ∨ c = '>' ∨ c = '&' then
    ['\\', 'u', '0', '0', hexDigit (c.toNat / 16), hexDigit (c.toNat % 16)]
  else if c.toNat = 0x2028 then ['\\', 'u', '2', '0', '2', '8']
  else if c.toNat = 0x2029 then ['\\', 'u', '2', '0', '2', '9']
  else [c]

/-- JSON string literal for a Go string. -/
def quoteString (s : String) : List Char :=
  '"' :: (s.toList.flatMap escapeChar ++ ['"'])

/-- Order of Go strings (byte-wise on UTF-8, which is the order of code points). -/
def ltChars : List Char → List Char → Bool
  | [], [] => false
  | [], _ :: _ => true
  | _ :: _, [] => false
  | a :: as, b :: bs =>
    if a.toNat < b.toNat then true
    else if b.toNat < a.toNat then false
    else ltChars as bs

/-- Insertion of an encoded member into a key-sorted member list; an equal key
already present is replaced (the inserted member stands earlier in the
association list, hence is the one a map read returns). -/
def insertMember (k : String) (e : List Char) :
    List (String × List Char) → List (String × List Char)
  | [] => [(k, e)]
  | (k', e') :: rest =>
    if k = k' then (k, e) :: rest
    else if ltChars k.toList k'.toList then (k, e) :: (k', e') :: rest
    else (k', e') :: insertMember k e rest

/-- Members of a map in the order `encoding/json` writes them: sorted by key. -/
def sortMembers : List (String × List Char) → List (String × List Char)
  | [] => []
  | (k, e) :: rest => insertMember k e (sortMembers rest)

/-- Comma-separated `"key":value` members. -/
def joinMembers : List (String × List Char) → List Char
  | [] => []
  | [(k, e)] => quoteString k ++ ':' :: e
  | (k, e) :: rest => quoteString k ++ ':' :: e ++ ',' :: joinMembers rest

/-- Comma-separated array elements. -/
def joinElems : List (List Char) → List Char
  | [] => []
  | [e] => e
  | e :: rest => e ++ ',' :: joinElems rest

mutual
/-- Compact JSON text of a dynamic value (`json.Marshal`). A `json.Number` is
written as its literal, the empty literal as `0`; Go refuses the other literals
for which `isValidNumber` is false, which the decoder never produces
(`jsonDecoded`). -/
def encodeValue : GoValue → List Char
  | .nil => "null".toList
  | .bool b => if b then "true".toList else "false".toList
  | .number lit => if lit = "" then ['0'] else lit.toList
  | .int n => (toString n).toList
  | .str s => quoteString s
  | .arr vs => '[' :: (joinElems (encodeElems vs) ++ [']'])
  | .obj kvs => '\x7b' :: (joinMembers (sortMembers (encodeMembers kvs)) ++ ['\x7d'])
/-- Encoded array elements, in order. -/
def encodeElems : List GoValue → List (List Char)
  | [] => []
  | v :: vs => encodeValue v :: encodeElems vs
/-- Encoded map members, in association order. -/
def encodeMembers : List (String × GoValue) → List (String × List Char)
  | [] => []
  | (k, v) :: kvs => (k, encodeValue v) :: encodeMembers kvs
end

/-- What `docEnc.Encode(doc.source)` writes, without the final newline. -/
def encodeSource (source : GoMap) : List Char :=
  encodeValue (.obj source)

/-! ## Data model (`domain.go`) -/

/-- Go struct `Document`; `source` is unexported, so `encoding/json` never
writes it. Field `Type_` is Go field `Type`. -/
structure Document where
  Index : String
  Type_ : String
  Id : String
  source : GoMap
  Routing : String

/-- One `"name":"value"` member of a struct with `omitempty`: absent when the
string is empty. -/
def omitemptyMember (name : String) (value : String) : List (List Char) :=
  if value = "" then [] else [quoteString name ++ ':' :: quoteString value]

/-- JSON text of a `Document` struct: the exported fields in declaration order
(`_index`, `_type`, `_id`, `routing`), each omitted when empty. -/
def encodeDocument (d : Document) : List Char :=
  '\x7b' :: (joinElems (omitemptyMember "_index" d.Index ++ omitemptyMember "_type" d.Type_ ++
    omitemptyMember "_id" d.Id ++ omitemptyMember "routing" d.Routing) ++ ['\x7d'])

/-- What `docEnc.Encode(post)` writes for `post := map[string]Document` with the
single key `index`, without the final newline. -/
def encodeActionHeader (d : Document) : List Char :=
  "\x7b\"index\":".toList ++ encodeDocument d ++ ['\x7d']

/-- Fields of Go struct `Config` read by the embedded code. -/
structure Config where
  SourceEs : String
  TargetEs : String
  DumpInputFile : String
  DumpOutFile : String
  SourceIndexNames : String
  TargetIndexName : String
  OverrideTypeName : String
  RenameFields : String
  RegenerateID : Bool
  BulkSizeInMB : Int
  SleepSecondsAfterEachBulk : Int
  ScrollSliceSize : Int
  Workers : Int
  CopyAllIndexes : Bool
  CopyIndexSettings : Bool
  CopyIndexMappings : Bool
  ShardsCount : Int
  RecreateIndex : Bool
  WaitForGreen : Bool
  Refresh : Bool

/-- Go struct `ClusterHealth`. -/
structure ClusterHealth where
  Name : String
  Status : String

/-- Go struct `ClusterVersion`, reduced to `Version.Number`. -/
structure ClusterVersion where
  Number : String

/-! ## Effects and the HTTP layer (`http.go`) -/

/-- Request handed to an HTTP client. -/
structure HttpRequest where
  method : String
  url : String
  body : List Char

/-- What a goroutine does to the outside world. -/
inductive Effect where
  | http (req : HttpRequest)
  | logError (msg : String)
  | print (text : String)
  | pbAdd (n : Int)
  | sleep (seconds : Int)
  | wgDone
  | closeDocChan

/-- Server reply. `errors` is what `DecodeJson(body, &BulkResponse)` yields:
`none` when the body cannot be decoded, otherwise field `Errors`. -/
structure HttpReply where
  status : Nat
  body : String
  errors : Option Bool

/-- Outcome of `fastHttpClient.Do(req, resp)`. -/
inductive TransportResult where
  | failure (err : String)
  | response (reply : HttpReply)

/-- Function `DoRequest`: panics when the client reports an error; otherwise
returns the body with a nil error, whatever the status code (the status test at
lines 289-293 has two empty branches). The second component is the returned
`error`, `none` for nil. -/
def DoRequest (_method _url : String) (_body : List Char) (t : TransportResult) :
    Except String (HttpReply × Option String) :=
  match t with
  | .failure err => .error err
  | .response reply => .ok (reply, none)

/-! ## Bulk write (`v0.go`, shared by all dialects) -/

/-- Lines 103-112 of `Bulk`: what is printed once the reply is there. `DecodeJson`
prints the error when the body cannot be decoded; a decoded reply with
`errors = true` is printed verbatim. -/
def bulkReplyOutput (reply : HttpReply) : List Effect :=
  match reply.errors with
  | none => [.print "error:"]
  | some true => [.print reply.body]
  | some false => []

/-- Method `ESAPIV0.Bulk(data *bytes.Buffer)`. `data` is `none` for a nil
pointer. Returns the buffer as left by the call and the effects performed. -/
def Bulk (host : String) (data : Option (List Char)) (t : TransportResult) :
    Except String (Option (List Char) × List Effect) :=
  match data with
  | none => .ok (none, [])
  | some buf =>
    if byteLen buf = 0 then .ok (some buf, [])
    else
      let buf1 := buf ++ ['\n']
      let url := host ++ "/_bulk"
      match DoRequest "POST" url buf1 t with
      | .error msg => .error msg
      | .ok (_, some err) => .ok (some buf1, [.http ⟨"POST", url, buf1⟩, .logError err])
      | .ok (reply, none) =>
        .ok (some [], .http ⟨"POST", url, buf1⟩ :: bulkReplyOutput reply)

/-! ## Bulk worker (`bulk.go`) -/

/-- Type assertion `v.(int)`. -/
def assertInt : GoValue → Except String Int
  | .int n => .ok n
  | _ => .error "interface conversion: interface {} is not int"

/-- Type assertion `v.(string)`. -/
def assertString : GoValue → Except String String
  | .str s => .ok s
  | _ => .error "interface conversion: interface {} is not string"

/-- Type assertion `v.(map[string]interface{})`. -/
def assertMap : GoValue → Except String GoMap
  | .obj kvs => .ok kvs
  | _ => .error "interface conversion: interface {} is not map[string]interface {}"

/-- Lines 67-72 of `bulk.go` (143-150 of `file.go`): `true` when the envelope is
to be dropped as a 404 hit; panics when `status` is present and is not an `int`. -/
def is404 (docI : GoMap) : Except String Bool :=
  match docI.get "status" with
  | none => .ok false
  | some status =>
    match assertInt status with
    | .error msg => .error msg
    | .ok n => .ok (decide (n = 404))

/-- Keys tested at lines 80-84. -/
def requiredKeys : List String := ["_index", "_type", "_source", "_id"]

/-- Lines 132-136: `fvs := strings.Split(i, ":")`, then the trimmed `fvs[0]` and
`fvs[1]`; `none` when `fvs` has a single element, where `fvs[1]` panics. -/
def entryPair (i : List Char) : Option (String × String) :=
  match Split ':' i with
  | f0 :: f1 :: _ => some (String.mk (TrimSpace f0), String.mk (TrimSpace f1))
  | _ => none

/-- Lines 138-148: the effect of one pair `oldField:newField` on the payload. -/
def applyPair (docType : String) (source : GoMap) (p : String × String) : GoMap :=
  if p.1 = "_type" then source.set p.2 (.str docType)
  else (source.set p.2 (source.getD p.1)).delete p.1

/-- Body of the rename loop (lines 130-149) for one comma-separated entry `i`. -/
def renameOne (docType : String) (source : GoMap) (i : List Char) : Except String GoMap :=
  match entryPair i with
  | some p => .ok (applyPair docType source p)
  | none => .error "index out of range [1] with length 1"

/-- The rename loop over the entries `kvs`. -/
def renameLoop (docType : String) : GoMap → List (List Char) → Except String GoMap
  | source, [] => .ok source
  | source, i :: kvs =>
    match renameOne docType source i with
    | .error msg => .error msg
    | .ok source1 => renameLoop docType source1 kvs

/-- Lines 124-150: the rename step for configuration value `RenameFields`. -/
def renameFields (renameFieldsCfg : String) (docType : String) (source : GoMap) :
    Except String GoMap :=
  if renameFieldsCfg ≠ "" then renameLoop docType source (Split ',' renameFieldsCfg.toList)
  else .ok source

/-- Lines 156-161: the routing value copied to the document, `""` when none. -/
def routingOf (docI : GoMap) : String :=
  match docI.get "_routing" with
  | some (.str s) => s
  | _ => ""

/-- How the handling of one dequeued envelope ends before encoding. -/
inductive DocOutcome where
  | skip404
  | missingKey
  | chanClosed (doc : Document)
  | failedDecoding (doc : Document)
  | accepted (doc : Document)

/-- Lines 164-172: leave through `WORKER_DONE` when the queue is closed, drop a
document whose index or type name is empty, accept the others. -/
def classifyDoc (doc : Document) (isOpen : Bool) : DocOutcome :=
  if !isOpen then .chanClosed doc
  else if doc.Index.length = 0 ∨ doc.Type_.length = 0 then .failedDecoding doc
  else .accepted doc

/-- Lines 67-172 of `NewBulkWorker`: from the dequeued envelope to the
`Document` that is encoded. `skip404` is the `continue` of line 70,
`missingKey` the `break READ_DOCS` of line 82, `chanClosed` the
`goto WORKER_DONE` of line 165, `failedDecoding` the `continue` of line 171. -/
def handleDoc (c : Config) (docI : GoMap) (isOpen : Bool) : Except String DocOutcome :=
  match is404 docI with
  | .error msg => .error msg
  | .ok true => .ok .skip404
  | .ok false =>
    if requiredKeys.any (fun key => !docI.hasKey key) then .ok .missingKey
    else
      match assertString (docI.getD "_index"), assertString (docI.getD "_type") with
      | .error msg, _ => .error msg
      | _, .error msg => .error msg
      | .ok srcIndex, .ok srcType =>
        let tempDestIndexName := if c.TargetIndexName ≠ "" then c.TargetIndexName else srcIndex
        let tempTargetTypeName := if c.OverrideTypeName ≠ "" then c.OverrideTypeName else srcType
        match assertMap (docI.getD "_source"), assertString (docI.getD "_id") with
        | .error msg, _ => .error msg
        | _, .error msg => .error msg
        | .ok source, .ok id =>
          match renameFields c.RenameFields srcType source with
          | .error msg => .error msg
          | .ok source1 =>
            let doc : Document :=
              { Index := tempDestIndexName
                Type_ := tempTargetTypeName
                Id := if c.RegenerateID then "" else id
                source := source1
                Routing := routingOf docI }
            .ok (classifyDoc doc isOpen)

/-- Local variables of `NewBulkWorker` together with the effects performed so far. -/
structure WorkerState where
  mainBuf : List Char
  docBuf : List Char
  bulkItemSize : Int
  docCount : Int
  effects : List Effect

/-- Fresh worker (lines 38-41). -/
def WorkerState.init : WorkerState :=
  { mainBuf := [], docBuf := [], bulkItemSize := 0, docCount := 0, effects := [] }

/-- Branch taken by the `select` of line 57. A receive on the closed queue
delivers the nil map with `isOpen = false`. -/
inductive WorkerEvent where
  | recv (docI : GoMap) (isOpen : Bool)
  | idleTimeout
  | taskTimeout

/-- Result of one iteration of the `READ_DOCS` loop. -/
inductive StepResult where
  | panic (msg : String)
  | running (st : WorkerState)
  | done (st : WorkerState)

/-- Label `CLEAN_BUFFER` (lines 225-236), then back to the loop head. -/
def cleanBuffer (c : Config) (host : String) (t : TransportResult) (st : WorkerState) :
    StepResult :=
  match Bulk host (some st.mainBuf) t with
  | .error msg => .panic msg
  | .ok (buf, eff) =>
    .running { st with
      mainBuf := buf.getD []
      bulkItemSize := 0
      effects := st.effects ++ eff ++ [.pbAdd st.bulkItemSize] ++
        (if c.SleepSecondsAfterEachBulk > 0 then [.sleep c.SleepSecondsAfterEachBulk] else []) }

/-- Label `WORKER_DONE` (lines 239-261). -/
def workerDone (host : String) (t : TransportResult) (st : WorkerState) : StepResult :=
  let st1 : WorkerState :=
    if byteLen st.docBuf > 0 then
      { st with mainBuf := st.mainBuf ++ st.docBuf, bulkItemSize := st.bulkItemSize + 1 }
    else st
  match Bulk host (some st1.mainBuf) t with
  | .error msg => .panic msg
  | .ok (buf, eff) =>
    .done { st1 with
      mainBuf := buf.getD []
      bulkItemSize := 0
      effects := st1.effects ++ eff ++ [.pbAdd st1.bulkItemSize, .wgDone] }

/-- Value of a Go `int` expression whose exact result is `x`: `int` is 64 bits
wide on the 64-bit platforms, and its arithmetic wraps around silently. -/
def wrapInt (x : Int) : Int :=
  (x + 9223372036854775808) % 18446744073709551616 - 9223372036854775808

/-- The expression `c.Config.BulkSizeInMB * 1024 * 1024` of line 206 in Go `int`
arithmetic: each of the two products wraps around. -/
def bulkThreshold (c : Config) : Int :=
  wrapInt (wrapInt (c.BulkSizeInMB * 1024) * 1024)

/-- Value of a Go `int` expression whose exact result is `x` on a platform whose
`int` is 32 bits wide. -/
def wrapInt32 (x : Int) : Int :=
  (x + 2147483648) % 4294967296 - 2147483648

/-- The expression `c.Config.BulkSizeInMB * 1024 * 1024` of line 206 as a 32-bit
platform evaluates it; it agrees with `bulkThreshold` as long as the product
fits in 32 bits. -/
def bulkThreshold32 (c : Config) : Int :=
  wrapInt32 (wrapInt32 (c.BulkSizeInMB * 1024) * 1024)

/-- Lines 180-208: encode an accepted document, append it to the main buffer,
count it, and decide on the size trigger. The two lengths are below `2 ^ 63` in
every execution (a `bytes.Buffer` cannot hold more, and `docBuf` has just been
reset), so only the threshold can wrap around. -/
def appendDoc (c : Config) (host : String) (t : TransportResult) (st : WorkerState)
    (doc : Document) : StepResult :=
  let docBuf1 := st.docBuf ++ encodeActionHeader doc ++ ['\n'] ++ encodeSource doc.source ++ ['\n']
  let st1 : WorkerState :=
    { st with
      mainBuf := st.mainBuf ++ docBuf1
      docBuf := []
      bulkItemSize := st.bulkItemSize + 1
      docCount := st.docCount + 1 }
  if (byteLen st1.mainBuf : Int) + (byteLen st1.docBuf : Int) > bulkThreshold c then
    cleanBuffer c host t st1
  else .running st1

/-- One iteration of the `READ_DOCS` loop of `NewBulkWorker` (lines 52-237),
including the exit through `WORKER_DONE`. `t` is the transport outcome of the
`Bulk` request the iteration may issue. -/
def step (c : Config) (host : String) (t : TransportResult) (st : WorkerState) :
    WorkerEvent → StepResult
  | .recv docI isOpen =>
    match handleDoc c docI isOpen with
    | .error msg => .panic msg
    | .ok .skip404 => .running { st with effects := st.effects ++ [.logError "error: "] }
    | .ok .missingKey => workerDone host t st
    | .ok (.chanClosed _) => workerDone host t st
    | .ok (.failedDecoding _) =>
      .running { st with effects := st.effects ++ [.logError "failed decoding document"] }
    | .ok (.accepted doc) => appendDoc c host t st doc
  | .idleTimeout => cleanBuffer c host t st
  | .taskTimeout => workerDone host t st

/-- The worker run against a finite schedule of `select` outcomes, each paired
with the transport outcome of the request it may issue. `running` at the end
means the worker is waiting in `select`. -/
def NewBulkWorker (c : Config) (host : String) :
    WorkerState → List (WorkerEvent × TransportResult) → StepResult
  | st, [] => .running st
  | st, (ev, t) :: rest =>
    match step c host t st ev with
    | .running st1 => NewBulkWorker c host st1 rest
    | r => r

/-! ## Cluster readiness (`main.go`, `v0.go`) -/

/-- Outcome of the `Get` request of `ESAPIV0.ClusterHealth` followed by
`json.Unmarshal`. -/
inductive HealthReply where
  | requestFailed
  | undecodable
  | decoded (health : ClusterHealth)

/-- Method `ESAPIV0.ClusterHealth()`: the decoded health, or the synthesized
status `unreachable`. -/
def ESAPIV0.ClusterHealth (host : String) : HealthReply → ClusterHealth
  | .decoded health => health
  | _ => { Name := host, Status := "unreachable" }

/-- Method `Migrator.ClusterReady(api)` (lines 1096-1135), applied to the health
returned by `api.ClusterHealth()`. -/
def ClusterReady (c : Config) (health : ClusterHealth) : ClusterHealth × Bool :=
  if !c.WaitForGreen then (health, true)
  else if health.Status = "red" then (health, false)
  else if c.WaitForGreen = false ∧ health.Status = "yellow" then (health, true)
  else if health.Status = "green" then (health, true)
  else (health, false)

/-- The polling loop of lines 558-594. `polls` are the results of the successive
`ClusterHealth()` calls, in the order the loop makes them. `some rest` when the
loop leaves through `break` (with the polls not consumed), `none` when the loop
is still polling after the recorded results. -/
def readinessLoop (c : Config) : List ClusterHealth → Option (List ClusterHealth)
  | [] => if c.SourceEs.length > 0 ∨ c.TargetEs.length > 0 then none else some []
  | h :: rest =>
    if c.SourceEs.length > 0 then
      if !(ClusterReady c h).2 then readinessLoop c rest
      else if c.TargetEs.length > 0 then
        match rest with
        | [] => none
        | ht :: rest1 => if !(ClusterReady c ht).2 then readinessLoop c rest1 else some rest1
      else some rest
    else if c.TargetEs.length > 0 then
      if !(ClusterReady c h).2 then readinessLoop c rest else some rest
    else some (h :: rest)

/-! ## Cursor streams started by `main` (lines 230-328) -/

/-- First page of a cursor as seen through `ScrollAPI`: `docs = none` is a nil
`Hits.Docs` (no `hits.hits` member in the response). -/
structure ScrollPage where
  ScrollId : String
  hitsTotal : Int
  docs : Option (List GoValue)

/-- Result of `SourceESAPI.NewScroll` for one slice. -/
inductive NewScrollResult where
  | err (msg : String)
  | page (p : ScrollPage)

/-- Outcome of the slice loop. -/
inductive SliceLoopResult where
  | returned (line : Nat) (launched : List Nat)
  | completed (launched : List Nat) (totalSize : Int)

/-- The loop `for slice := 0; slice < c.ScrollSliceSize; slice++` (lines
240-328); `remaining` counts the iterations left, `launched` lists the slices
for which the goroutine has been started. -/
def sliceLoop (newScroll : Nat → NewScrollResult) :
    (remaining : Nat) → (slice : Nat) → (totalSize : Int) → (launched : List Nat) →
    SliceLoopResult
  | 0, _, totalSize, launched => .completed launched totalSize
  | remaining + 1, slice, totalSize, launched =>
    match newScroll slice with
    | .err _ => .returned 245 launched
    | .page p =>
      let totalSize1 := totalSize + p.hitsTotal
      if p.docs.isSome then
        if p.hitsTotal = 0 then .returned 275 launched
        else sliceLoop newScroll remaining (slice + 1) totalSize1 (launched ++ [slice])
      else sliceLoop newScroll remaining (slice + 1) totalSize1 launched

/-- Where a cursor goroutine stands in the statements after its last page
(lines 310-325): `streaming` is before `finishedSlice++`, `loaded tmp` is after
the read of `finishedSlice++` and before its write, `stored` is after the write
and before the test of line 317, `finished` is after that test. -/
inductive SlicePc where
  | streaming
  | loaded (tmp : Int)
  | stored
  | finished

/-- Variables shared by the cursor goroutines: the plain `int` counter
`finishedSlice`, the number of `close(migrator.DocChan)` calls executed so far,
and the position of every started goroutine. -/
structure SliceSched where
  finishedSlice : Int
  closeCalls : Nat
  pcs : List SlicePc

/-- State right after the slice loop has started `launched` goroutines. -/
def SliceSched.init (launched : Nat) : SliceSched :=
  { finishedSlice := 0, closeCalls := 0, pcs := List.replicate launched .streaming }

/-- Goroutine number `i` executes its next statement. -/
def sliceStep (scrollSliceSize : Int) (s : SliceSched) (i : Nat) : SliceSched :=
  match s.pcs.get? i with
  | none => s
  | some .streaming => { s with pcs := s.pcs.set i (.loaded s.finishedSlice) }
  | some (.loaded tmp) => { s with finishedSlice := tmp + 1, pcs := s.pcs.set i .stored }
  | some .stored =>
    { s with
      closeCalls := if s.finishedSlice = scrollSliceSize then s.closeCalls + 1 else s.closeCalls
      pcs := s.pcs.set i .finished }
  | some .finished => s

/-- The goroutines run under a schedule: the list of goroutine numbers in the
order in which they take a step. -/
def runSlices (scrollSliceSize : Int) (s : SliceSched) (schedule : List Nat) : SliceSched :=
  schedule.foldl (sliceStep scrollSliceSize) s

/-! ## Orchestrator (`main.go`), one round of the repeat loop -/

/-- Calls and goroutine starts made by `main` that the claims speak about. -/
inductive MainAction where
  | startScroll (slice : Nat)
  | startFileRead
  | deleteIndex (name : String)
  | createIndex (name : String) (settings : GoMap)
  | updateIndexSettings (name : String) (settings : GoMap)
  | updateIndexMapping (name : String) (mappings : GoMap)
  | deferRecovery (sourceIndexRefreshSettings : GoMap)
  | startBulkWorker
  | startFileDump

/-- How a round of `main` ends: a `return` (with its source line), a panic,
still polling cluster health, or blocked in `wg.Wait()`. -/
inductive MainExit where
  | returned (line : Nat)
  | panicked (msg : String)
  | polling
  | waiting

/-- Actions of a round in program order and the way the round ends. -/
structure MainResult where
  actions : List MainAction
  exit : MainExit

/-- Answers of the outside world to the calls `main` makes. -/
structure MainEnv where
  /-- Result of `migrator.ClusterVersion(c.SourceEs, …)`, `none` when `errs != nil`. -/
  srcVersion : Option ClusterVersion
  /-- Result of `migrator.ClusterVersion(c.TargetEs, …)`, `none` when `errs != nil`. -/
  dstVersion : Option ClusterVersion
  /-- Result of `SourceESAPI.NewScroll(…, slice, …)` per slice number. -/
  newScroll : Nat → NewScrollResult
  /-- Whether `os.Open(c.DumpInputFile)` succeeds. -/
  inputFileOpens : Bool
  /-- Results of the successive `ClusterHealth()` calls. -/
  healthPolls : List ClusterHealth
  /-- Result of `SourceESAPI.GetIndexMappings(…)`: index names, index count, mappings. -/
  indexMappings : Except String (String × Int × GoMap)
  /-- Result of `SourceESAPI.GetIndexSettings(c.SourceIndexNames)`. -/
  sourceIndexSettings : Except String GoMap
  /-- Result of `TargetESAPI.GetIndexSettings(c.TargetIndexName)`, `none` (nil) on error. -/
  targetIndexSettings : Option GoMap

/-- Function `getEmptyIndexSettings` (`v0.go`). -/
def getEmptyIndexSettings : GoMap :=
  [("settings", .obj [("index", .obj [])])]

/-- Leading byte of the UTF-8 encoding of a character. -/
def utf8Head (ch : Char) : Nat :=
  let n := ch.toNat
  if n < 0x80 then n
  else if n < 0x800 then 0xC0 + n / 0x40
  else if n < 0x10000 then 0xE0 + n / 0x1000
  else 0xF0 + n / 0x40000

/-- Go expression `s[0]` on a string: its first byte, a panic on the empty string. -/
def firstByte (s : String) : Except String Nat :=
  match s.toList with
  | [] => .error "index out of range [0] with length 0"
  | ch :: _ => .ok (utf8Head ch)

/-- The condition of line 507, `srcESVersion != nil && c.CopyIndexMappings &&
descESVersion.Version.Number[0] != srcESVersion.Version.Number[0]`, as a
function of the value of the variable `srcESVersion` it reads. -/
def crossMajorRefused (srcESVersion : Option ClusterVersion) (c : Config)
    (descESVersion : ClusterVersion) : Except String Bool :=
  match srcESVersion with
  | none => .ok false
  | some src =>
    if !c.CopyIndexMappings then .ok false
    else
      match firstByte descESVersion.Number, firstByte src.Number with
      | .error msg, _ => .error msg
      | _, .error msg => .error msg
      | .ok d, .ok s => .ok (decide (d ≠ s))

/-- Apply `f` to the map `temp["settings"]["index"]` in place; both type
assertions of the Go expression can panic. -/
def updateIndexMap (temp : GoMap) (f : GoMap → GoMap) : Except String GoMap :=
  match assertMap (temp.getD "settings") with
  | .error msg => .error msg
  | .ok settings =>
    match assertMap (settings.getD "index") with
    | .error msg => .error msg
    | .ok index => .ok (temp.set "settings" (.obj (settings.set "index" (.obj (f index)))))

/-- Lines 799-825: make sure `temp["settings"]` and `temp["settings"]["index"]` exist. -/
def ensureSettingsIndex (temp : GoMap) : Except String GoMap :=
  let temp1 := if !temp.hasKey "settings" then temp.set "settings" (.obj []) else temp
  match assertMap (temp1.getD "settings") with
  | .error msg => .error msg
  | .ok settings =>
    if !settings.hasKey "index" then
      .ok (temp1.set "settings" (.obj (settings.set "index" (.obj []))))
    else .ok temp1

/-- Line 831: `(*sourceIndexSettings)[name]["settings"]["index"]["refresh_interval"]`
with its three type assertions. -/
def readRefreshInterval (sourceIndexSettings : GoMap) (name : String) : Except String GoValue :=
  match assertMap (sourceIndexSettings.getD name) with
  | .error msg => .error msg
  | .ok idx =>
    match assertMap (idx.getD "settings") with
    | .error msg => .error msg
    | .ok settings =>
      match assertMap (settings.getD "index") with
      | .error msg => .error msg
      | .ok index => .ok (index.getD "refresh_interval")

/-- State threaded through the settings loop. `sourceIndexSettings` is the map
`*sourceIndexSettings`, whose entry for the current index is the very object
`tempIndexSettings` when settings are copied (line 795). -/
structure PrepareState where
  actions : List MainAction
  sourceIndexSettings : GoMap
  sourceIndexRefreshSettings : GoMap

/-- Lines 753-789: the initial `tempIndexSettings`, `targetIndexExist`, and the
`DeleteIndex` call when `RecreateIndex` is set. -/
def targetLookup (c : Config) (targetIndexSettings : Option GoMap) (name : String) :
    Except String (GoMap × Bool × List MainAction) :=
  match targetIndexSettings with
  | none => .ok (getEmptyIndexSettings, false, [])
  | some t =>
    match t.get name with
    | some val =>
      match assertMap val with
      | .error msg => .error msg
      | .ok m =>
        if c.RecreateIndex then .ok (m, false, [.deleteIndex name]) else .ok (m, true, [])
    | none =>
      if c.RecreateIndex then .ok (getEmptyIndexSettings, false, [.deleteIndex name])
      else .ok (getEmptyIndexSettings, false, [])

/-- One iteration of the settings loop (lines 746-902) for index `name`. -/
def prepareIndex (c : Config) (targetIndexSettings : Option GoMap) (st : PrepareState)
    (name : String) : Except String PrepareState := do
  let (temp0, targetIndexExist, acts0) ← targetLookup c targetIndexSettings name
  let temp1 ← if c.CopyIndexSettings then assertMap (st.sourceIndexSettings.getD name)
    else pure temp0
  let temp2 ← ensureSettingsIndex temp1
  let src1 := if c.CopyIndexSettings then st.sourceIndexSettings.set name (.obj temp2)
    else st.sourceIndexSettings
  let interval ← readRefreshInterval src1 name
  let temp3 ← updateIndexMap temp2 (fun index =>
    ((index.set "refresh_interval" (.int (-1))).set "number_of_replicas" (.int 0)).delete
      "number_of_shards")
  let temp4 ← if c.ShardsCount > 0 then
      updateIndexMap temp3 (fun index => index.set "number_of_shards" (.int c.ShardsCount))
    else pure temp3
  let call : MainAction :=
    if targetIndexExist then .updateIndexSettings name temp4 else .createIndex name temp4
  pure
    { actions := st.actions ++ acts0 ++ [call]
      sourceIndexSettings :=
        if c.CopyIndexSettings then src1.set name (.obj temp4) else src1
      sourceIndexRefreshSettings := st.sourceIndexRefreshSettings.set name interval }

/-- The settings loop over the index names `names`. -/
def prepareLoop (c : Config) (targetIndexSettings : Option GoMap) :
    PrepareState → List String → Except String PrepareState
  | st, [] => .ok st
  | st, name :: names =>
    match prepareIndex c targetIndexSettings st name with
    | .error msg => .error msg
    | .ok st1 => prepareLoop c targetIndexSettings st1 names

/-- Lines 722-740 and 914-919: move the single entry stored under the source
name to the target index name. -/
def rewriteIndexName (c : Config) (sourceIndexNames : String) (indexCount : Int)
    (m : GoMap) : GoMap :=
  if sourceIndexNames ≠ c.TargetIndexName ∧ c.TargetIndexName.length > 0 ∧ indexCount = 1 then
    (m.set c.TargetIndexName (m.getD sourceIndexNames)).delete sourceIndexNames
  else m

/-- Lines 924-936: one `UpdateIndexMapping` call per entry of the mappings. -/
def mappingCalls : GoMap → Except String (List MainAction)
  | [] => .ok []
  | (name, mapping) :: rest =>
    match assertMap mapping with
    | .error msg => .error msg
    | .ok m =>
      match assertMap (m.getD "mappings") with
      | .error msg => .error msg
      | .ok mappings =>
        match mappingCalls rest with
        | .error msg => .error msg
        | .ok calls => .ok (.updateIndexMapping name mappings :: calls)

/-- Lines 596-947: index preparation for a cluster source: the calls made, and
`some exit` when `main` ends inside the block. The deferred restore is the
last action when the block is left normally. -/
def prepareIndexes (c : Config) (env : MainEnv) : List MainAction × Option MainExit :=
  match env.indexMappings with
  | .error _ => ([], some (.returned 615))
  | .ok (indexNames, indexCount, sourceIndexMappings) =>
    if indexCount > 0 then
      if c.CopyIndexSettings ∨ c.ShardsCount > 0 then
        match env.sourceIndexSettings with
        | .error _ => ([], some (.returned 699))
        | .ok sourceIndexSettings =>
          let src := rewriteIndexName c indexNames indexCount sourceIndexSettings
          match prepareLoop c env.targetIndexSettings
              { actions := [], sourceIndexSettings := src, sourceIndexRefreshSettings := [] }
              (src.map Prod.fst) with
          | .error msg => ([], some (.panicked msg))
          | .ok st =>
            if c.CopyIndexMappings then
              match mappingCalls (rewriteIndexName c indexNames indexCount sourceIndexMappings) with
              | .error msg => (st.actions, some (.panicked msg))
              | .ok calls =>
                (st.actions ++ calls ++ [.deferRecovery st.sourceIndexRefreshSettings], none)
            else (st.actions ++ [.deferRecovery st.sourceIndexRefreshSettings], none)
      else ([.deferRecovery []], none)
    else ([], some (.returned 944))

/-- Lines 156-410: the source side of a round. The version stored by line 181
lives in a variable of the `if` block (declared there by `:=`) and is used only
to choose the dialect; nothing of it leaves the block. -/
def sourcePhase (c : Config) (env : MainEnv) : List MainAction × Option MainExit :=
  if c.SourceEs.length > 0 then
    match env.srcVersion with
    | none => ([], some (.returned 183))
    | some _ =>
      let scrollSliceSize : Int := if c.ScrollSliceSize < 1 then 1 else c.ScrollSliceSize
      match sliceLoop env.newScroll scrollSliceSize.toNat 0 0 [] with
      | .returned line launched => (launched.map .startScroll, some (.returned line))
      | .completed launched _ => (launched.map .startScroll, none)
  else if c.DumpInputFile.length > 0 then
    if env.inputFileOpens then ([.startFileRead], none) else ([], some (.returned 353))
  else ([], none)

/-- Lines 962-1009: start the writers and wait for them. -/
def startWriters (c : Config) : List MainAction :=
  if c.TargetEs.length > 0 then List.replicate c.Workers.toNat .startBulkWorker
  else if c.DumpOutFile.length > 0 then [.startFileDump]
  else []

/-- Lines 436-1009: the destination side of a round. `srcESVersion` is the
value of the variable declared at line 136 when line 507 reads it. -/
def targetPhase (c : Config) (env : MainEnv) (srcESVersion : Option ClusterVersion) :
    MainResult :=
  if c.TargetEs.length > 0 then
    match env.dstVersion with
    | none => ⟨[], .returned 459⟩
    | some descESVersion =>
      match crossMajorRefused srcESVersion c descESVersion with
      | .error msg => ⟨[], .panicked msg⟩
      | .ok true => ⟨[], .returned 510⟩
      | .ok false =>
        match readinessLoop c env.healthPolls with
        | none => ⟨[], .polling⟩
        | some _ =>
          if c.SourceEs.length > 0 then
            match prepareIndexes c env with
            | (acts, some exit) => ⟨acts, exit⟩
            | (acts, none) => ⟨acts ++ startWriters c, .waiting⟩
          else ⟨startWriters c, .waiting⟩
  else ⟨startWriters c, .waiting⟩

/-- One round of `main` (lines 86-1024). The variable `srcESVersion` of line
136 is declared without a value and is never assigned: line 181 declares a new
variable of the same name inside the `if` block, so line 507 reads nil. -/
def mainRound (c : Config) (env : MainEnv) : MainResult :=
  if c.SourceEs.length = 0 ∧ c.DumpInputFile.length = 0 then ⟨[], .returned 89⟩
  else if c.TargetEs.length = 0 ∧ c.DumpOutFile.length = 0 then ⟨[], .returned 93⟩
  else if c.SourceEs = c.TargetEs ∧ c.SourceIndexNames = c.TargetIndexName then
    ⟨[], .returned 98⟩
  else
    let srcESVersion : Option ClusterVersion := none
    match sourcePhase c env with
    | (acts, some exit) => ⟨acts, exit⟩
    | (acts, none) =>
      let r := targetPhase c env srcESVersion
      ⟨acts ++ r.actions, r.exit⟩

/-! ## File dump worker (`file.go`) -/

/-- Text written to the output file so far and the effects performed. -/
structure DumpState where
  written : List Char
  effects : List Effect

/-- Result of one iteration of the loop of `NewFileDumpWorker`. -/
inductive DumpResult where
  | panic (msg : String)
  | running (st : DumpState)
  | done (st : DumpState)

/-- One iteration of the `READ_DOCS` loop of `NewFileDumpWorker` (lines
131-193) for the dequeued envelope, with the exit through `WORKER_DONE`. -/
def dumpStep (st : DumpState) (docI : GoMap) (isOpen : Bool) : DumpResult :=
  match is404 docI with
  | .error msg => .panic msg
  | .ok true => .running { st with effects := st.effects ++ [.logError "error: "] }
  | .ok false =>
    if requiredKeys.any (fun key => !docI.hasKey key) then
      .done { st with effects := st.effects ++ [.wgDone] }
    else
      let st1 : DumpState :=
        { written := st.written ++ encodeValue (.obj docI) ++ ['\n']
          effects := st.effects ++ [.pbAdd 1] }
      if !isOpen then .done { st1 with effects := st1.effects ++ [.wgDone] }
      else .running st1

/-! ## Sample inputs used by witnesses and counterexamples -/

/-- A configuration without any transformation, writing to a cluster. -/
def plainConfig : Config :=
  { SourceEs := "http://src:9200", TargetEs := "http://dst:9200", DumpInputFile := "",
    DumpOutFile := "", SourceIndexNames := "logs", TargetIndexName := "",
    OverrideTypeName := "", RenameFields := "", RegenerateID := false, BulkSizeInMB := 5,
    SleepSecondsAfterEachBulk := -1, ScrollSliceSize := 1, Workers := 1,
    CopyAllIndexes := false, CopyIndexSettings := false, CopyIndexMappings := false,
    ShardsCount := 0, RecreateIndex := false, WaitForGreen := false, Refresh := false }

/-- A well-formed envelope as found in a scroll page. -/
def sampleHit : GoMap :=
  [("_index", .str "logs"), ("_type", .str "doc"), ("_id", .str "1"),
   ("_source", .obj [("name", .str "a")])]

/-- A stale hit as decoded by `DecodeJson`: the status is a `json.Number`. -/
def staleHit : GoMap :=
  [("status", .number "404"), ("response", .str "not found")]

/-- An envelope that carries a status other than 404 and lacks `_id`. -/
def statusHitWithoutId : GoMap :=
  [("_index", .str "logs"), ("_type", .str "doc"), ("_source", .obj [("name", .str "a")]),
   ("status", .number "200")]

/-- First pages of a run with two slices in which slice 1 answers without a hit
list (no `hits.hits` member, for instance an error body, which `DoRequest`
returns as a normal body). -/
def noHitListOnSliceOne (slice : Nat) : NewScrollResult :=
  if slice = 0 then .page ⟨"cursor-0", 3, some [.obj sampleHit]⟩
  else .page ⟨"", 0, none⟩

/-- Number of goroutines that have executed the write of `finishedSlice++`. -/
def storedCount : List SlicePc → Nat
  | [] => 0
  | .stored :: rest => storedCount rest + 1
  | .finished :: rest => storedCount rest + 1
  | _ :: rest => storedCount rest

/-- Cluster-to-cluster run with `copy_settings` and `copy_mappings`. -/
def crossMajorConfig : Config :=
  { plainConfig with CopyIndexSettings := true, CopyIndexMappings := true }

/-- A source of version 6.8.0 holding the index `logs`, a destination of version
7.10.0 without that index, both clusters green. -/
def crossMajorEnv : MainEnv :=
  { srcVersion := some ⟨"6.8.0"⟩
    dstVersion := some ⟨"7.10.0"⟩
    newScroll := fun _ => .page ⟨"cursor", 3, some [.obj sampleHit]⟩
    inputFileOpens := false
    healthPolls := [⟨"src", "green"⟩, ⟨"dst", "green"⟩]
    indexMappings :=
      .ok ("logs", 1, [("logs", .obj [("mappings", .obj [("doc", .obj [])])])])
    sourceIndexSettings :=
      .ok [("logs", .obj [("settings", .obj [("index",
        .obj [("refresh_interval", .str "1s"), ("number_of_shards", .str "5")])])])]
    targetIndexSettings := none }

/-- The two lines `appendDoc` writes for every document of a batch: the action
header, then the source payload (lines 180-194). -/
def batchLines (docs : List Document) : List (List Char) :=
  docs.flatMap (fun d => [encodeActionHeader d, encodeSource d.source])

/-- Text made of the given lines, each followed by a newline (`Encoder.Encode`
ends every value with one). -/
def joinLines (lines : List (List Char)) : List Char :=
  lines.flatMap (fun line => line ++ ['\n'])

/-- An envelope with the four required keys whose `_type` is the empty string. -/
def untypedHit : GoMap :=
  [("_index", .str "logs"), ("_type", .str ""), ("_id", .str "9"),
   ("_source", .obj [("name", .str "z")])]

/-- A second well-formed envelope. -/
def sampleHit2 : GoMap :=
  [("_index", .str "logs"), ("_type", .str "doc"), ("_id", .str "2"),
   ("_source", .obj [("name", .str "b"), ("age", .number "41")]), ("_routing", .str "r1")]

/-- Configuration with `bulk_size = 1`: the threshold is 1048576 bytes. -/
def oneMiBConfig : Config :=
  { plainConfig with BulkSizeInMB := 1 }

/-- An envelope whose payload has the single field `f`, a string of `n` letters
`a`. Its two bulk lines take `61 + n` bytes. -/
def paddedHit (n : Nat) : GoMap :=
  [("_index", .str "logs"), ("_type", .str "doc"), ("_id", .str "1"),
   ("_source", .obj [("f", .str (String.mk (List.replicate n 'a')))])]

/-- The document accepted for `paddedHit n` without transformations. -/
def paddedDoc (n : Nat) : Document :=
  { Index := "logs", Type_ := "doc", Id := "1",
    source := [("f", .str (String.mk (List.replicate n 'a')))], Routing := "" }

/-! ## Further parts of the embedding: `Bulk` after the request -/

/-- Lines 98-114 of `Bulk`, as a function of what the call of `DoRequest`
returned (its reply and its `error`, `none` for nil): the buffer left behind and
the effects. `buf1` is the buffer after the newline of line 92 was appended. -/
def bulkAfterRequest (url : String) (buf1 : List Char) :
    HttpReply × Option String → Option (List Char) × List Effect
  | (_, some err) => (some buf1, [.http ⟨"POST", url, buf1⟩, .logError err])
  | (reply, none) => (some [], .http ⟨"POST", url, buf1⟩ :: bulkReplyOutput reply)

/-! ## Further parts of the embedding: reading prepared settings -/

/-- The value of `settings["settings"]["index"][key]`, `none` when the key or one
of the two levels is missing or a level is not an object. -/
def indexSetting (settings : GoMap) (key : String) : Option GoValue :=
  match settings.get "settings" with
  | some (.obj s) =>
    match GoMap.get s "index" with
    | some (.obj index) => GoMap.get index key
    | _ => none
  | _ => none

/-- The `(name, settings)` arguments of the `CreateIndex` and
`UpdateIndexSettings` calls among the actions of a run, in program order. -/
def settingsCalls : List MainAction → List (String × GoMap)
  | [] => []
  | .createIndex name s :: rest => (name, s) :: settingsCalls rest
  | .updateIndexSettings name s :: rest => (name, s) :: settingsCalls rest
  | _ :: rest => settingsCalls rest

/-- Settings loop started on the source settings of `crossMajorEnv` with a shard
override of 3. -/
def shardOverrideConfig : Config :=
  { plainConfig with CopyIndexSettings := true, ShardsCount := 3 }

/-- Source settings of one index `logs` with a refresh interval of one second
and five shards. -/
def logsSourceSettings : GoMap :=
  [("logs", .obj [("settings", .obj [("index",
    .obj [("refresh_interval", .str "1s"), ("number_of_shards", .str "5")])])])]

/-! ## Further parts of the embedding: the Restore step (`main.go`, lines 1035-1056) -/

/-- Calls made on the destination by `recoveryIndexSettings`. -/
inductive RestoreCall where
  | updateIndexSettings (name : String) (settings : GoMap)
  | refresh (name : String)

/-- Function `recoveryIndexSettings`: for each recorded `(name, interval)` one
`UpdateIndexSettings` call with a fresh settings object holding only that
`refresh_interval`, followed by `Refresh(name)` when `Config.Refresh` is set. -/
def recoveryIndexSettings (c : Config) : GoMap → Except String (List RestoreCall)
  | [] => .ok []
  | (name, interval) :: rest =>
    match updateIndexMap getEmptyIndexSettings
        (fun index => index.set "refresh_interval" interval) with
    | .error msg => .error msg
    | .ok tempIndexSettings =>
      match recoveryIndexSettings c rest with
      | .error msg => .error msg
      | .ok calls =>
        .ok (.updateIndexSettings name tempIndexSettings ::
          ((if c.Refresh then [.refresh name] else []) ++ calls))

/-- Lines 753-825 of the settings loop: the object `tempIndexSettings` as it
stands just before line 831 reads the source interval and lines 840-841 force
the ingest values. -/
def tempBeforeForce (c : Config) (targetIndexSettings : Option GoMap)
    (sourceIndexSettings : GoMap) (name : String) : Except String GoMap :=
  match targetLookup c targetIndexSettings name with
  | .error msg => .error msg
  | .ok (temp0, _, _) =>
    match (if c.CopyIndexSettings then assertMap (sourceIndexSettings.getD name)
        else .ok temp0) with
    | .error msg => .error msg
    | .ok temp1 => ensureSettingsIndex temp1

/-- Run with a shard override and without `copy_settings`. -/
def shardsOnlyConfig : Config :=
  { plainConfig with ShardsCount := 3 }

/-- Destination that already holds the index `logs` with a refresh interval of
thirty seconds. -/
def logsTargetSettings : GoMap :=
  [("logs", .obj [("settings", .obj [("index", .obj [("refresh_interval", .str "30s")])])])]

/-- State of the settings loop after `logs` was prepared from `logsSourceSettings`
on the destination `logsTargetSettings` under `shardsOnlyConfig`. -/
def preparedLogsState : PrepareState :=
  { actions := [.updateIndexSettings "logs"
      [("settings", .obj [("index", .obj [("number_of_shards", .int 3),
        ("number_of_replicas", .int 0), ("refresh_interval", .int (-1))])])]]
    sourceIndexSettings := logsSourceSettings
    sourceIndexRefreshSettings := [("logs", .str "1s")] }

/-! ## Further parts of the embedding: `Request` and `UpdateIndexSettings` -/

/-- Function `Request` (`http.go`) once `http.NewRequest` has built the request
(it fails, and `Request` then panics, only for a method or URL that does not
parse), as a function of what `client.Do` did: the returned string and the
returned `error`, `none` for nil. A reply whose status is not exactly 200 is
turned into the error `server error: ` followed by the body. -/
def Request (t : TransportResult) : String × Option String :=
  match t with
  | .failure err => ("", some err)
  | .response reply =>
    if reply.status ≠ 200 then ("", some ("server error: " ++ reply.body))
    else (reply.body, none)

/-- The four `delete` statements of `cleanSettings` on `settings["settings"]["index"]`. -/
def cleanIndex (index : GoMap) : GoMap :=
  (((index.delete "creation_date").delete "uuid").delete "version").delete "provided_name"

/-- Function `cleanSettings` (`v0.go`); the type assertions panic when
`settings["settings"]` or its `index` member is not a map. -/
def cleanSettings (settings : GoMap) : Except String GoMap :=
  updateIndexMap settings cleanIndex

/-- Result of `UpdateIndexSettings`: the HTTP requests issued, in order, and how
the call ended, with a panic (`error`) or by returning an `error` value (`none`
for nil). -/
structure UpdateResult where
  requests : List HttpRequest
  outcome : Except String (Option String)

/-- Method `ESAPIV0.UpdateIndexSettings` (the v5, v6 and v7 dialects delegate to
it). `tStatic` and `tFinal` are what the HTTP client does with the `PUT` of the
analysis block and with the final `PUT`; the results of the two `Post` calls
are ignored by the code. `json.NewEncoder(..).Encode` ends the body with a
newline. -/
def UpdateIndexSettings (host name : String) (settings : GoMap)
    (tStatic tFinal : TransportResult) : UpdateResult :=
  match cleanSettings settings with
  | .error msg => ⟨[], .error msg⟩
  | .ok settings1 =>
    let url := host ++ "/" ++ name ++ "/_settings"
    let final (issued : List HttpRequest) (settings2 : GoMap) : UpdateResult :=
      ⟨issued ++ [⟨"PUT", url, encodeValue (.obj settings2) ++ ['\n']⟩],
        .ok (Request tFinal).2⟩
    match assertMap (settings1.getD "settings") with
    | .error msg => ⟨[], .error msg⟩
    | .ok s =>
      if s.hasKey "index" then
        match assertMap (s.getD "index") with
        | .error msg => ⟨[], .error msg⟩
        | .ok index =>
          match index.get "analysis" with
          | none => final [] settings1
          | some set =>
            match updateIndexMap getEmptyIndexSettings (fun i => i.set "analysis" set) with
            | .error msg => ⟨[], .error msg⟩
            | .ok staticIndexSettings =>
              let close : HttpRequest := ⟨"POST", host ++ "/" ++ name ++ "/_close", []⟩
              let put : HttpRequest :=
                ⟨"PUT", url, encodeValue (.obj staticIndexSettings) ++ ['\n']⟩
              match (Request tStatic).2 with
              | some err => ⟨[close, put], .error err⟩
              | none =>
                match updateIndexMap settings1 (fun i => i.delete "analysis") with
                | .error msg => ⟨[close, put], .error msg⟩
                | .ok settings2 =>
                  final [close, put, ⟨"POST", host ++ "/" ++ name ++ "/_open", []⟩] settings2
      else final [] settings1

/-- The `index` settings of an index with a custom analyzer, a refresh interval
and a `uuid`. -/
def analysisIndex : GoMap :=
  [("analysis", .obj [("analyzer", .obj [])]), ("refresh_interval", .str "1s"),
    ("uuid", .str "u1")]

/-- The `settings` member holding `analysisIndex`. -/
def analysisBlock : GoMap :=
  [("index", .obj analysisIndex)]

/-- Settings object of an index with a custom analyzer. -/
def analysisSettings : GoMap :=
  [("settings", .obj analysisBlock)]

/-! ## Further parts of the embedding: cursor pages (`scroll.go`) -/

/-- What a cursor stream does while it handles a page: progress-bar increments,
error log lines, and documents sent to `DocChan`. -/
inductive ScrollEvent where
  | barAdd (n : Nat)
  | logError (msg : String)
  | send (doc : GoMap)

/-- The loop `for _, docI := range s.Hits.Docs { c.DocChan <- docI.(map[string]interface{}) }`:
the sends made, and the panic message when a hit is not a map. -/
def sendDocs : List GoValue → List ScrollEvent × Option String
  | [] => ([], none)
  | docI :: rest =>
    match assertMap docI with
    | .error msg => ([], some msg)
    | .ok doc => (.send doc :: (sendDocs rest).1, (sendDocs rest).2)

/-- Methods `Scroll.ProcessScrollResult` and `ScrollV7.ProcessScrollResult` (same
body): `failures` are the reasons of `Shards.Failures`, already encoded. -/
def ProcessScrollResult (page : ScrollPage) (failures : List String) :
    List ScrollEvent × Option String :=
  let docs := page.docs.getD []
  (.barAdd docs.length :: (failures.map .logError ++ (sendDocs docs).1), (sendDocs docs).2)

/-- Result of a call of `Next`: the returned `done`, the stream's `ScrollId`
after the call, what the call did, and the panic message if it panicked. -/
structure NextResult where
  done : Bool
  ScrollId : String
  events : List ScrollEvent
  panicked : Option String

/-- Methods `Scroll.Next` and `ScrollV7.Next` (same body). `scrollId` is
`s.ScrollId` before the call and `next` the result of `SourceESAPI.NextScroll`:
an error, or the decoded page with the reasons of its shard failures. -/
def Next (scrollId : String) (next : Except String (ScrollPage × List String)) : NextResult :=
  match next with
  | .error err => ⟨false, scrollId, [.logError err], none⟩
  | .ok (page, failures) =>
    match page.docs with
    | none => ⟨true, scrollId, [], none⟩
    | some docs =>
      if docs.length ≤ 0 then ⟨true, scrollId, [], none⟩
      else
        match ProcessScrollResult page failures with
        | (events, some msg) => ⟨false, scrollId, events, some msg⟩
        | (events, none) => ⟨false, page.ScrollId, events, none⟩

/-- The documents sent to the queue among the events of a stream, in order. -/
def sentDocs : List ScrollEvent → List GoMap
  | [] => []
  | .send doc :: rest => doc :: sentDocs rest
  | _ :: rest => sentDocs rest

/-! ## Further parts of the embedding: the open-cursor request (`NewScroll`) -/

/-- Value stored under `_source`: the field name itself, or the list of names
when `fields` contains a comma. -/
def sourceFields (fields : String) : GoValue :=
  if !fields.toList.contains ',' then .str fields
  else .arr ((Split ',' fields.toList).map fun f => .str (String.mk f))

/-- The statements that fill `queryBody` from `fields` and `query`, common to
all dialects. -/
def baseQueryBody (query fields : String) : GoMap :=
  let queryBody : GoMap := []
  let queryBody :=
    if fields.length > 0 then queryBody.set "_source" (sourceFields fields) else queryBody
  if query.length > 0 then
    queryBody.set "query" (.obj [("query_string", .obj [("query", .str query)])])
  else queryBody

/-- The map `queryBody` built by `ESAPIV0.NewScroll`, `none` when no body is
sent. The parameters `slicedId` and `maxSlicedCount` are not used. -/
def ESAPIV0.queryBody (query : String) (_slicedId _maxSlicedCount : Int) (fields : String) :
    Option GoMap :=
  if query.length > 0 ∨ fields.length > 0 then some (baseQueryBody query fields) else none

/-- The map `queryBody` built by `ESAPIV5.NewScroll`, `ESAPIV6.NewScroll` and
`ESAPIV7.NewScroll` (same statements), `none` when no body is sent. -/
def ESAPIV5.queryBody (query : String) (slicedId maxSlicedCount : Int) (fields : String) :
    Option GoMap :=
  if query.length > 0 ∨ maxSlicedCount > 0 ∨ fields.length > 0 then
    let queryBody := baseQueryBody query fields
    if maxSlicedCount > 1 then
      some (queryBody.set "slice"
        (.obj (GoMap.set (GoMap.set [] "id" (.int slicedId)) "max" (.int maxSlicedCount))))
    else some queryBody
  else none

/-- Body bytes of the request: `json.Marshal(queryBody)`, empty when no body
was built. -/
def marshalBody : Option GoMap → List Char
  | none => []
  | some queryBody => encodeValue (.obj queryBody)

/-- The request `ESAPIV0.NewScroll` passes to `DoRequest`. -/
def ESAPIV0.NewScrollRequest (host indexNames scrollTime : String) (docBufferCount : Int)
    (query : String) (slicedId maxSlicedCount : Int) (fields : String) : HttpRequest :=
  ⟨"POST", host ++ "/" ++ indexNames ++ "/_search?search_type=scan&scroll=" ++ scrollTime ++
      "&size=" ++ toString docBufferCount,
    marshalBody (ESAPIV0.queryBody query slicedId maxSlicedCount fields)⟩

/-- The request `ESAPIV5.NewScroll` passes to `DoRequest`; `ESAPIV6.NewScroll`
builds the same one, and `ESAPIV7.NewScroll` sends the same one through `Post`. -/
def ESAPIV5.NewScrollRequest (host indexNames scrollTime : String) (docBufferCount : Int)
    (query : String) (slicedId maxSlicedCount : Int) (fields : String) : HttpRequest :=
  ⟨"POST", host ++ "/" ++ indexNames ++ "/_search?scroll=" ++ scrollTime ++
      "&size=" ++ toString docBufferCount,
    marshalBody (ESAPIV5.queryBody query slicedId maxSlicedCount fields)⟩

/-- Choice of the source dialect by the prefix of the version number (lines
188-226 of `main.go`): 7, 6, 5, or 0 for every other version. -/
def sourceDialect (version : String) : Nat :=
  if "7.".toList.isPrefixOf version.toList then 7
  else if "6.".toList.isPrefixOf version.toList then 6
  else if "5.".toList.isPrefixOf version.toList then 5
  else 0

/-- The open-cursor request of slice `slice` as `main` has it built (lines
240-241) for a source of the given version. -/
def openCursorRequest (version host indexNames scrollTime : String) (docBufferCount : Int)
    (query : String) (slice scrollSliceSize : Int) (fields : String) : HttpRequest :=
  if sourceDialect version = 0 then
    ESAPIV0.NewScrollRequest host indexNames scrollTime docBufferCount query slice
      scrollSliceSize fields
  else
    ESAPIV5.NewScrollRequest host indexNames scrollTime docBufferCount query slice
      scrollSliceSize fields

/-! ## Further sample inputs: an empty source -/

/-- Cluster source whose cursor reports no hit at all and whose response carries
no hit list, dumped to a file. -/
def emptySourceEnv : MainEnv :=
  { crossMajorEnv with newScroll := fun _ => .page ⟨"cursor", 0, none⟩ }

/-- Dump of a cluster source to a file. -/
def dumpToFileConfig : Config :=
  { plainConfig with TargetEs := "", DumpOutFile := "/tmp/dump.json" }

/-! ## Further sample inputs: an envelope with a status -/

/-- A complete envelope that also carries the member `status` with the value
200, as `DecodeJson` produces it. -/
def statusHit : GoMap :=
  ("status", .number "200") :: sampleHit

/-! ## Further parts of the embedding: index discovery (`GetIndexMappings`) -/

/-- One position of a regular expression of the embedded fragment: a literal
character or `.`. -/
inductive RegexAtom where
  | lit (c : Char)
  | any

/-- Repetition of an atom: exactly once, `*`, or `?`. Greedy and lazy forms
accept the same strings, so they are not told apart. -/
inductive RegexRepeat where
  | one
  | star
  | opt

/-- Compiled expression of the fragment: a concatenation of repeated atoms. -/
abbrev Regex := List (RegexAtom × RegexRepeat)

/-- Metacharacters of Go regular expressions other than `.`, `*` and `?`;
patterns containing one of them are outside the embedded fragment. -/
def isOtherMeta (c : Char) : Bool :=
  "\\+()|[]\x7b\x7d^$".toList.contains c

/-- The repetition operators `*` and `?`. -/
def isRepeatOp (c : Char) : Bool :=
  c = '*' || c = '?'

/-- Where the scan of a pattern stands: nothing to repeat yet, right after an
atom, right after a repetition operator (a lazy marker may follow), or right
after a lazy marker. -/
inductive RegexScan where
  | start
  | atom (a : RegexAtom)
  | repeated (a : RegexAtom) (rep : RegexRepeat)
  | marked (a : RegexAtom) (rep : RegexRepeat)

/-- The repeated atom a scan position stands for. -/
def RegexScan.flush : RegexScan → Regex
  | .start => []
  | .atom a => [(a, .one)]
  | .repeated a rep => [(a, rep)]
  | .marked a rep => [(a, rep)]

/-- Put the repeated atoms `pre` in front of a compilation result. -/
def prependRegex (pre : Regex) : Option (Except String Regex) → Option (Except String Regex)
  | none => none
  | some (.error msg) => some (.error msg)
  | some (.ok r) => some (.ok (pre ++ r))

/-- Scan of the rest of a pattern from a given position. -/
def compileFrom : RegexScan → List Char → Option (Except String Regex)
  | st, [] => some (.ok st.flush)
  | st, c :: rest =>
    if isRepeatOp c then
      match st with
      | .start => some (.error "missing argument to repetition operator")
      | .atom a => compileFrom (.repeated a (if c = '*' then .star else .opt)) rest
      | .repeated a rep =>
        if c = '?' then compileFrom (.marked a rep) rest
        else some (.error "invalid nested repetition operator")
      | .marked _ _ => some (.error "invalid nested repetition operator")
    else if isOtherMeta c then none
    else prependRegex st.flush (compileFrom (.atom (if c = '.' then .any else .lit c)) rest)

/-- Function `regexp.Compile` on the fragment of the syntax made of literal
characters, `.`, and the operators `*` and `?` (each optionally followed by the
lazy marker `?`): `none` for a pattern outside the fragment, `some (.error _)`
when Go rejects the pattern (a repetition operator with nothing to repeat, or a
repetition of a repetition), `some (.ok r)` otherwise. -/
def compileRegex (pattern : List Char) : Option (Except String Regex) :=
  compileFrom .start pattern

/-- Whether an atom accepts a character; `.` accepts everything but a newline. -/
def atomMatches : RegexAtom → Char → Bool
  | .lit c, d => c = d
  | .any, d => d ≠ '\n'

/-- Matching of `atom*` followed by the continuation `k`. -/
def matchStar (atom : RegexAtom) (k : List Char → Bool) : List Char → Bool
  | [] => k []
  | c :: s => k (c :: s) || (atomMatches atom c && matchStar atom k s)

/-- Whether some prefix of the text is matched by the expression. -/
def matchHere : Regex → List Char → Bool
  | [], _ => true
  | (atom, .one) :: r, s =>
    match s with
    | [] => false
    | c :: s1 => atomMatches atom c && matchHere r s1
  | (atom, .opt) :: r, s =>
    matchHere r s ||
      match s with
      | [] => false
      | c :: s1 => atomMatches atom c && matchHere r s1
  | (atom, .star) :: r, s => matchStar atom (matchHere r) s

/-- Method `(*Regexp).MatchString`: whether the text contains a match of the
expression (the expression is not anchored). -/
def MatchString (r : Regex) : List Char → Bool
  | [] => matchHere r []
  | c :: s => matchHere r (c :: s) || MatchString r s

/-- Function `strings.Join(names, ",")`. -/
def joinNames : List String → String
  | [] => ""
  | [name] => name
  | name :: rest => name ++ "," ++ joinNames rest

/-- The loop that wraps every mapping lacking a `mappings` member (the last
loop of `GetIndexMappings`); panics on an entry that is not a map. -/
def wrapMappings : GoMap → Except String GoMap
  | [] => .ok []
  | (name, idx) :: rest =>
    match assertMap idx with
    | .error msg => .error msg
    | .ok m =>
      match wrapMappings rest with
      | .error msg => .error msg
      | .ok rest1 =>
        if !m.hasKey "mappings" then .ok ((name, .obj [("mappings", idx)]) :: rest1)
        else .ok ((name, idx) :: rest1)

/-- Methods `ESAPIV0.GetIndexMappings` (used by v5 as well),
`ESAPIV6.GetIndexMappings` and `ESAPIV7.GetIndexMappings` (same statements) from
the point where the response body has been decoded into `idxs`: the returned
index-name list, index count and descriptor map, or a panic. The result is
`none` for a wildcard pattern outside the embedded regular-expression fragment.
The parameter `copyAllIndexes` is not read: the statements that used it are
commented out. When `regexp.Compile` fails its error is dropped and `r` is nil,
so the first `r.MatchString` dereferences a nil pointer. -/
def GetIndexMappings (_copyAllIndexes : Bool) (indexNames : String) (idxs : GoMap) :
    Option (Except String (String × Int × GoMap)) :=
  let finish (names : String) : Option (Except String (String × Int × GoMap)) :=
    match wrapMappings idxs with
    | .error msg => some (.error msg)
    | .ok idxs1 => some (.ok (names, idxs.length, idxs1))
  if indexNames = "_all" then finish (joinNames (idxs.map Prod.fst))
  else if indexNames.toList.contains '*' || indexNames.toList.contains '?' then
    match compileRegex indexNames.toList with
    | none => none
    | some (.error _) =>
      match idxs with
      | [] => finish ""
      | _ :: _ => some (.error "invalid memory address or nil pointer dereference")
    | some (.ok r) =>
      finish (joinNames ((idxs.map Prod.fst).filter fun name => MatchString r name.toList))
  else finish indexNames

/-- Shell glob matching as the specification words it (not taken from the
code): `*` stands for any sequence of characters, `?` for any single character,
and the pattern has to cover the whole name. -/
def shellGlobMatch : List Char → List Char → Bool
  | [], s => s.isEmpty
  | p :: ps, s =>
    if p = '*' then
      (List.range (s.length + 1)).any fun n => shellGlobMatch ps (s.drop n)
    else
      match s with
      | [] => false
      | c :: s1 => (p = '?' || p = c) && shellGlobMatch ps s1

/-- Mapping of an index with one type `doc`. -/
def docMapping : GoValue :=
  .obj [("mappings", .obj [("doc", .obj [])])]

/-! ## Further parts of the embedding: `UpdateIndexMapping` (v6 and v7) -/

/-- The loop `for name, _ := range settings` of `ESAPIV6.UpdateIndexMapping`
over the entries still to visit: every iteration posts the whole map `settings`
to the URL of the entry's name; a failed request panics. The result holds the
requests issued and the panic message, if any. -/
def mappingLoop (host indexName : String) (settings : GoMap) (t : String → TransportResult) :
    GoMap → List HttpRequest × Option String
  | [] => ([], none)
  | (name, _) :: rest =>
    let request : HttpRequest :=
      ⟨"POST", host ++ "/" ++ indexName ++ "/" ++ name ++ "/_mapping",
        encodeValue (.obj settings) ++ ['\n']⟩
    match (Request (t name)).2 with
    | some err => ([request], some err)
    | none => (request :: (mappingLoop host indexName settings t rest).1,
        (mappingLoop host indexName settings t rest).2)

/-- Method `ESAPIV6.UpdateIndexMapping`: `delete(settings, "dynamic_templates")`
removes a member of that name from the top level of the map it is given, then
one request is made per remaining member. `t name` is what the HTTP client does
with the request for `name`. -/
def ESAPIV6.UpdateIndexMapping (host indexName : String) (settings : GoMap)
    (t : String → TransportResult) : List HttpRequest × Option String :=
  let settings1 := settings.delete "dynamic_templates"
  mappingLoop host indexName settings1 t settings1

/-- Method `ESAPIV7.UpdateIndexMapping`: the same `delete`, then a single request
to the typeless URL. -/
def ESAPIV7.UpdateIndexMapping (host indexName : String) (settings : GoMap)
    (t : TransportResult) : List HttpRequest × Option String :=
  let settings1 := settings.delete "dynamic_templates"
  ([⟨"POST", host ++ "/" ++ indexName ++ "/_mapping", encodeValue (.obj settings1) ++ ['\n']⟩],
    (Request t).2)

/-- Mapping of a type with a dynamic template and one property. -/
def templatedTypeMapping : GoMap :=
  [("dynamic_templates", .arr [.obj [("strings", .obj [("match", .str "*")])]]),
    ("properties", .obj [("name", .obj [("type", .str "keyword")])])]

/-! ## Further parts of the embedding: file read worker (`file.go`) -/

/-- What `NewFileReadWorker` does to the outside world. -/
inductive ReadEvent where
  | logError (msg : String)
  | send (js : GoMap)
  | pbIncrement
  | closeDocChan
  | wgDone

/-- The loop of `NewFileReadWorker` over the characters not yet read; `line`
holds the characters of the current line read so far. `r.ReadString('\n')`
returns a line only together with its newline; at the end of the file it
returns what is left with `io.EOF`, and the loop breaks without looking at it.
`decode` is `DecodeJson` into a fresh map: the decoded envelope or the error. -/
def readLoop (decode : List Char → Except String GoMap) :
    List Char → List Char → List ReadEvent
  | _, [] => [.closeDocChan, .wgDone]
  | line, c :: rest =>
    if c = '\n' then
      match decode (line ++ ['\n']) with
      | .error msg => .logError msg :: readLoop decode [] rest
      | .ok js => .send js :: .pbIncrement :: readLoop decode [] rest
    else readLoop decode (line ++ [c]) rest

/-- Method `Migrator.NewFileReadWorker`: `opened` tells whether `os.Open`
succeeded and `content` is the text of the file. -/
def NewFileReadWorker (decode : List Char → Except String GoMap) (opened : Bool)
    (content : List Char) : List ReadEvent :=
  if !opened then [.logError "open"] else readLoop decode [] content

/-- The envelopes sent to the queue among the events of the read worker. -/
def sentEnvelopes : List ReadEvent → List GoMap
  | [] => []
  | .send js :: rest => js :: sentEnvelopes rest
  | _ :: rest => sentEnvelopes rest

/-- What the loop does with one complete line. -/
def lineEvents (decode : List Char → Except String GoMap) (line : List Char) : List ReadEvent :=
  match decode (line ++ ['\n']) with
  | .error msg => [.logError msg]
  | .ok js => [.send js, .pbIncrement]

/-- A decoder that accepts the one line `{"_id":"1"}`, with or without newline. -/
def oneLineDecoder (line : List Char) : Except String GoMap :=
  if line = "\x7b\"_id\":\"1\"\x7d".toList ∨ line = "\x7b\"_id\":\"1\"\x7d\n".toList then
    .ok [("_id", .str "1")]
  else .error "invalid character"

/-! ## Further parts of the embedding: the timers of the bulk worker -/

/-- Period of `idleTimeout` in seconds (line 43 of `bulk.go`). -/
def idleDuration : Nat := 5

/-- Period of `taskTimeout` in seconds (line 50 of `bulk.go`). -/
def taskTimeOutDuration : Nat := 5 * 60

/-- A bulk worker whose queue stays open and delivers nothing, at the head of
the `READ_DOCS` loop: the time in seconds since the worker started, whether a
value is waiting in `idleTimeout.C` and in `taskTimeout.C` (left by a timer that
fired while the worker was not in `select`; `Reset` re-arms the timer and does
not take the value out), and the number of `CLEAN_BUFFER` runs so far. -/
structure SilentWorker where
  now : Nat
  idleTick : Bool
  taskTick : Bool
  flushes : Nat

/-- Where a silent worker is after an iteration: back at the head of the loop,
or at `WORKER_DONE` through the task-timeout branch. -/
inductive SilentStep where
  | running (w : SilentWorker)
  | done (w : SilentWorker)

/-- One iteration of the `READ_DOCS` loop with a silent queue. Lines 46-47 re-arm
both timers, so counted from the head of the iteration `idleTimeout` fires after
`idleDuration` and `taskTimeout` after `taskTimeOutDuration`. The `select` of
line 57 takes a case whose channel already holds a value at once (`preferTask`
is the choice of the runtime when both do); otherwise it takes the case of the
timer that fires first. The idle branch runs `CLEAN_BUFFER`: `Bulk` on the empty
buffer sends nothing, then the worker sleeps `SleepSecondsAfterEachBulk` seconds
when that is positive. A timer that fires during the iteration outside `select`
leaves its value in the channel. -/
def silentIteration (c : Config) (preferTask : Bool) (w : SilentWorker) : SilentStep :=
  if w.taskTick && (preferTask || !w.idleTick) then .done { w with taskTick := false }
  else if !w.idleTick && decide (taskTimeOutDuration < idleDuration) then
    .done { w with now := w.now + taskTimeOutDuration }
  else
    let waited := if w.idleTick then 0 else idleDuration
    let sleep := if c.SleepSecondsAfterEachBulk > 0 then c.SleepSecondsAfterEachBulk.toNat else 0
    let elapsed := waited + sleep
    .running
      { now := w.now + elapsed
        idleTick := w.idleTick && decide (idleDuration ≤ elapsed)
        taskTick := w.taskTick || decide (taskTimeOutDuration ≤ elapsed)
        flushes := w.flushes + 1 }

/-- The silent worker through as many iterations as there are runtime choices. -/
def silentRun (c : Config) : SilentWorker → List Bool → SilentStep
  | w, [] => .running w
  | w, preferTask :: rest =>
    match silentIteration c preferTask w with
    | .running w1 => silentRun c w1 rest
    | .done w1 => .done w1

/-! ## Further parts of the embedding: the settings fetch (`GetIndexSettings`) -/

/-- Method `ESAPIV0.GetIndexSettings` (the v5, v6 and v7 dialects delegate to it)
as a function of what the `Get` request did and of what `json.Unmarshal` makes
of the body (`none` when it fails): the returned pointer, `none` for nil (a
transport error or a status other than 200), or the panic on an undecodable
body. `main` stores the result for the destination in `targetIndexSettings`
and only logs the error (line 705). -/
def GetIndexSettings (t : TransportResult) (decoded : Option GoMap) :
    Except String (Option GoMap) :=
  match t with
  | .failure _ => .ok none
  | .response reply =>
    if reply.status ≠ 200 then .ok none
    else
      match decoded with
      | none => .error "invalid character"
      | some allSettings => .ok (some allSettings)

/-- Run with `copy_settings`, `copy_mappings` and `--force`. -/
def recreateConfig : Config :=
  { crossMajorConfig with RecreateIndex := true }

/-- An envelope with the four required keys, an empty `_type` and a `status`
member, as `DecodeJson` produces it. -/
def untypedStatusHit : GoMap :=
  ("status", .number "200") :: untypedHit

/-! # Theorems -/

/-! ## Auxiliary facts about maps and type assertions -/

theorem assertString_ok {v : GoValue} {s : String} (h : assertString v = .ok s) :
    v = .str s := by
  cases v <;> simp [assertString] at h
  subst h; rfl

theorem assertMap_ok {v : GoValue} {m : GoMap} (h : assertMap v = .ok m) : v = .obj m := by
  cases v <;> simp [assertMap] at h
  subst h; rfl

theorem assertInt_error_of_jsonDecoded {v : GoValue} (h : jsonDecoded v = true) :
    ∃ msg, assertInt v = .error msg := by
  cases v <;> simp [assertInt, jsonDecoded] at h ⊢

theorem GoMap.get_of_getD_str {m : GoMap} {k s : String} (h : GoMap.getD m k = .str s) :
    GoMap.get m k = some (.str s) := by
  unfold GoMap.getD at h
  cases hg : GoMap.get m k with
  | none => rw [hg] at h; simp at h
  | some v => rw [hg] at h; simpa using h

theorem GoMap.delete_cons (k1 : String) (v1 : GoValue) (rest : GoMap) (k : String) :
    GoMap.delete ((k1, v1) :: rest) k =
      if k1 = k then GoMap.delete rest k else (k1, v1) :: GoMap.delete rest k := by
  by_cases hk : k1 = k <;> simp [GoMap.delete, List.filter, hk]

theorem GoMap.get_cons (k1 : String) (v1 : GoValue) (rest : GoMap) (k : String) :
    GoMap.get ((k1, v1) :: rest) k = if k1 = k then some v1 else GoMap.get rest k := rfl

theorem GoMap.get_delete_self (m : GoMap) (k : String) :
    GoMap.get (GoMap.delete m k) k = none := by
  induction m with
  | nil => rfl
  | cons kv rest ih =>
    obtain ⟨k1, v1⟩ := kv
    rw [GoMap.delete_cons]
    by_cases hk : k1 = k
    · rw [if_pos hk]; exact ih
    · rw [if_neg hk, GoMap.get_cons, if_neg hk]; exact ih

theorem GoMap.get_delete_ne (m : GoMap) {k k1 : String} (h : k1 ≠ k) :
    GoMap.get (GoMap.delete m k) k1 = GoMap.get m k1 := by
  induction m with
  | nil => rfl
  | cons kv rest ih =>
    obtain ⟨k2, v2⟩ := kv
    rw [GoMap.delete_cons, GoMap.get_cons]
    by_cases hk : k2 = k
    · have hne : ¬ k2 = k1 := fun e => h (e.symm.trans hk)
      rw [if_pos hk, if_neg hne]; exact ih
    · rw [if_neg hk, GoMap.get_cons]
      by_cases hk1 : k2 = k1
      · rw [if_pos hk1, if_pos hk1]
      · rw [if_neg hk1, if_neg hk1]; exact ih

theorem GoMap.get_set_self (m : GoMap) (k : String) (v : GoValue) :
    GoMap.get (GoMap.set m k v) k = some v := by
  simp [GoMap.set, GoMap.get]

theorem GoMap.get_set_ne (m : GoMap) {k k1 : String} (v : GoValue) (h : k1 ≠ k) :
    GoMap.get (GoMap.set m k v) k1 = GoMap.get m k1 := by
  have : ¬ k = k1 := fun e => h e.symm
  simp [GoMap.set, GoMap.get, this, GoMap.get_delete_ne m h]

/-! ## Envelope handling of the bulk worker -/

theorem classifyDoc_accepted {doc d : Document} {isOpen : Bool}
    (h : classifyDoc doc isOpen = .accepted d) :
    d = doc ∧ isOpen = true ∧ doc.Index ≠ "" ∧ doc.Type_ ≠ "" := by
  unfold classifyDoc at h
  by_cases ho : (!isOpen) = true
  · simp [ho] at h
  · by_cases he : doc.Index.length = 0 ∨ doc.Type_.length = 0
    · simp [ho, he] at h
    · simp only [ho, he, if_false] at h
      refine ⟨?_, by simpa using ho, ?_, ?_⟩
      · injection h with h; exact h.symm
      · intro h0; apply he; left; simp [h0]
      · intro h0; apply he; right; simp [h0]

/-- Inversion of `handleDoc`: what is known when a document is accepted. -/
theorem handleDoc_accepted {c : Config} {docI : GoMap} {isOpen : Bool} {doc : Document}
    (h : handleDoc c docI isOpen = .ok (.accepted doc)) :
    ∃ srcIndex srcType source id source1,
      is404 docI = .ok false ∧
      requiredKeys.any (fun key => !docI.hasKey key) = false ∧
      docI.getD "_index" = .str srcIndex ∧ docI.getD "_type" = .str srcType ∧
      docI.getD "_source" = .obj source ∧ docI.getD "_id" = .str id ∧
      renameFields c.RenameFields srcType source = .ok source1 ∧
      isOpen = true ∧
      doc = { Index := if c.TargetIndexName ≠ "" then c.TargetIndexName else srcIndex
              Type_ := if c.OverrideTypeName ≠ "" then c.OverrideTypeName else srcType
              Id := if c.RegenerateID then "" else id
              source := source1
              Routing := routingOf docI } ∧
      doc.Index ≠ "" ∧ doc.Type_ ≠ "" := by
  unfold handleDoc at h
  split at h
  · simp at h
  · simp at h
  · rename_i h404
    split at h
    · simp at h
    · rename_i hkeys
      split at h
      · simp at h
      · simp at h
      · rename_i srcIndex srcType hI hT
        simp only at h
        split at h
        · simp at h
        · simp at h
        · rename_i source id hS hId
          split at h
          · simp at h
          · rename_i source1 hR
            simp only [Except.ok.injEq] at h
            obtain ⟨hd, ho, h1, h2⟩ := classifyDoc_accepted h
            refine ⟨srcIndex, srcType, source, id, source1, h404, by simpa using hkeys,
              assertString_ok hI, assertString_ok hT, assertMap_ok hS, assertString_ok hId,
              hR, ho, hd, ?_, ?_⟩
            · rw [hd]; exact h1
            · rw [hd]; exact h2

/-- C1: whenever `NewBulkWorker` accepts a dequeued envelope (it passed the 404
test, the four-key test and the sanity test), the `Document` that is encoded
into the action header has `Index` equal to `Config.TargetIndexName` when that
is non-empty and to the envelope's own `_index` otherwise, and `Type` equal to
`Config.OverrideTypeName` when that is non-empty and to the envelope's own
`_type` otherwise; the loop iteration then encodes exactly this document. -/
theorem C1_header_index_and_type (c : Config) (host : String) (t : TransportResult)
    (st : WorkerState) (docI : GoMap) (isOpen : Bool) (doc : Document)
    (h : handleDoc c docI isOpen = .ok (.accepted doc)) :
    ∃ srcIndex srcType,
      docI.get "_index" = some (.str srcIndex) ∧ docI.get "_type" = some (.str srcType) ∧
      doc.Index = (if c.TargetIndexName ≠ "" then c.TargetIndexName else srcIndex) ∧
      doc.Type_ = (if c.OverrideTypeName ≠ "" then c.OverrideTypeName else srcType) ∧
      step c host t st (.recv docI isOpen) = appendDoc c host t st doc := by
  obtain ⟨srcIndex, srcType, source, id, source1, -, -, hI, hT, -, -, -, -, hd, -, -⟩ :=
    handleDoc_accepted h
  refine ⟨srcIndex, srcType, GoMap.get_of_getD_str hI, GoMap.get_of_getD_str hT, ?_, ?_, ?_⟩
  · rw [hd]
  · rw [hd]
  · simp only [step, h]

theorem C1_header_index_and_type_witness :
    ∃ srcIndex srcType,
      sampleHit.get "_index" = some (.str srcIndex) ∧
      sampleHit.get "_type" = some (.str srcType) ∧
      ("archive" : String) =
        (if ({ plainConfig with TargetIndexName := "archive" } : Config).TargetIndexName ≠ ""
          then ({ plainConfig with TargetIndexName := "archive" } : Config).TargetIndexName
          else srcIndex) ∧
      ("doc" : String) =
        (if ({ plainConfig with TargetIndexName := "archive" } : Config).OverrideTypeName ≠ ""
          then ({ plainConfig with TargetIndexName := "archive" } : Config).OverrideTypeName
          else srcType) ∧
      step { plainConfig with TargetIndexName := "archive" } "http://dst:9200"
          (.failure "unused") WorkerState.init (.recv sampleHit true) =
        appendDoc { plainConfig with TargetIndexName := "archive" } "http://dst:9200"
          (.failure "unused") WorkerState.init
          ⟨"archive", "doc", "1", [("name", .str "a")], ""⟩ :=
  C1_header_index_and_type { plainConfig with TargetIndexName := "archive" } "http://dst:9200"
    (.failure "unused") WorkerState.init sampleHit true
    ⟨"archive", "doc", "1", [("name", .str "a")], ""⟩ rfl

theorem is404_error_of_status {docI : GoMap} {status : GoValue}
    (hs : docI.get "status" = some status) (hd : jsonDecoded status = true) :
    ∃ msg, is404 docI = .error msg := by
  obtain ⟨msg, hmsg⟩ := assertInt_error_of_jsonDecoded hd
  exact ⟨msg, by simp only [is404, hs, hmsg]⟩

/-- C3 (code defect): an envelope with a `status` member as `DecodeJson`
produces it (any decoded JSON value, in particular the `json.Number` 404) makes
the type assertion `status.(int)` fail, so the loop iteration of
`NewBulkWorker` and that of `NewFileDumpWorker` end in a run-time panic instead
of dropping the document and going on with the next one. -/
theorem C3_decoded_status_panics (c : Config) (host : String) (t : TransportResult)
    (st : WorkerState) (dst : DumpState) (docI : GoMap) (isOpen : Bool) (status : GoValue)
    (hs : docI.get "status" = some status) (hd : jsonDecoded status = true) :
    (∃ msg, step c host t st (.recv docI isOpen) = .panic msg) ∧
    (∃ msg, dumpStep dst docI isOpen = .panic msg) := by
  obtain ⟨msg, hmsg⟩ := is404_error_of_status hs hd
  exact ⟨⟨msg, by simp only [step, handleDoc, hmsg]⟩, ⟨msg, by simp only [dumpStep, hmsg]⟩⟩

theorem C3_decoded_status_panics_witness :
    (∃ msg, step plainConfig "http://dst:9200" (.failure "unused") WorkerState.init
        (.recv staleHit true) = .panic msg) ∧
    (∃ msg, dumpStep ⟨[], []⟩ staleHit true = .panic msg) :=
  C3_decoded_status_panics plainConfig "http://dst:9200" (.failure "unused") WorkerState.init
    ⟨[], []⟩ staleHit true (.number "404") rfl rfl

/-- Without a `status` member, an envelope that lacks one of the four required
keys sends the worker to `WORKER_DONE`. -/
theorem step_missingKey_of_no_status (c : Config) (host : String) (t : TransportResult)
    (st : WorkerState) (docI : GoMap) (isOpen : Bool)
    (hs : docI.get "status" = none)
    (hk : requiredKeys.any (fun key => !docI.hasKey key) = true) :
    step c host t st (.recv docI isOpen) = workerDone host t st := by
  simp only [step, handleDoc, is404, hs, hk, if_true]

theorem byteLen_eq_zero_iff (buf : List Char) : byteLen buf = 0 ↔ buf = [] := by
  cases buf with
  | nil => simp [byteLen]
  | cons ch rest =>
    have := Char.utf8Size_pos ch
    simp [byteLen]; omega

theorem Bulk_empty (host : String) (t : TransportResult) :
    Bulk host (some []) t = .ok (some [], []) := by
  simp [Bulk, byteLen]

theorem Bulk_response (host : String) (reply : HttpReply) {buf : List Char} (hb : buf ≠ []) :
    Bulk host (some buf) (.response reply) =
      .ok (some [], .http ⟨"POST", host ++ "/_bulk", buf ++ ['\n']⟩ :: bulkReplyOutput reply) := by
  have hpos : ¬ byteLen buf = 0 := fun h => hb ((byteLen_eq_zero_iff buf).1 h)
  simp only [Bulk, hpos, if_false, DoRequest]

/-- What `WORKER_DONE` does from a state whose document buffer is empty when the
server answers: at most one request (none for an empty main buffer), then the
progress update and `wg.Done()`; the queue is not closed. -/
theorem workerDone_effects (host : String) (reply : HttpReply) (st : WorkerState)
    (hd : st.docBuf = []) :
    ∃ st1, workerDone host (.response reply) st = .done st1 ∧ st1.mainBuf = [] ∧
      st1.effects = st.effects ++
        (if st.mainBuf = [] then []
         else .http ⟨"POST", host ++ "/_bulk", st.mainBuf ++ ['\n']⟩ :: bulkReplyOutput reply) ++
        [.pbAdd st.bulkItemSize, .wgDone] := by
  have h0 : ¬ byteLen st.docBuf > 0 := by rw [hd]; simp [byteLen]
  by_cases hb : st.mainBuf = []
  · simp only [workerDone, h0, if_false, hb, Bulk_empty]
    exact ⟨_, rfl, rfl, by simp⟩
  · simp only [workerDone, h0, if_false, Bulk_response host reply hb, hb]
    exact ⟨_, rfl, rfl, by simp⟩

/-- C4 (code defect, the one of C3): an envelope that lacks `_id` and carries a
status other than 404, decoded by `DecodeJson`, does not reach the four-key test:
the type assertion `status.(int)` panics, so nothing is flushed and the worker
does not terminate through `WORKER_DONE`. -/
theorem C4_missing_key_with_status_panics (c : Config) (host : String) (t : TransportResult)
    (st : WorkerState) (isOpen : Bool) :
    statusHitWithoutId.hasKey "_id" = false ∧
    is404 statusHitWithoutId = .error "interface conversion: interface {} is not int" ∧
    step c host t st (.recv statusHitWithoutId isOpen) =
      .panic "interface conversion: interface {} is not int" := by
  refine ⟨rfl, rfl, ?_⟩
  have h : is404 statusHitWithoutId = .error "interface conversion: interface {} is not int" :=
    rfl
  simp only [step, handleDoc, h]

/-- C6 (code defect): with `WaitForGreen = false` the early return of line 1110
reports every cluster ready, also a `red` one and the synthesized
`unreachable`; in general the result is ready exactly when `WaitForGreen` is
false or the status is `green`, so the `yellow` test of line 1125 is never
reached with a true condition. -/
theorem C6_ready_without_green_wait :
    (ClusterReady { plainConfig with WaitForGreen := false } ⟨"es", "red"⟩).2 = true ∧
    (ClusterReady { plainConfig with WaitForGreen := false }
      (ESAPIV0.ClusterHealth "http://dst:9200" .requestFailed)).2 = true ∧
    ∀ (c : Config) (health : ClusterHealth),
      (ClusterReady c health).2 = (!c.WaitForGreen || decide (health.Status = "green")) := by
  refine ⟨rfl, rfl, ?_⟩
  intro c health
  unfold ClusterReady
  cases hw : c.WaitForGreen
  · simp
  · by_cases hr : health.Status = "red"
    · have hg : health.Status ≠ "green" := by rw [hr]; decide
      simp [hr]
    · by_cases hg : health.Status = "green" <;> simp [hr, hg]

/-- C10: `Bulk` called with a nil buffer or with a buffer of length zero issues
no HTTP request and leaves the buffer as it is (no newline is appended),
whatever the transport would answer; hence the idle trigger and the worker
shutdown, fired with nothing accumulated, perform no request either. -/
theorem C10_empty_bulk_is_noop (host : String) (t : TransportResult)
    (data : Option (List Char))
    (h : data = none ∨ ∃ buf, data = some buf ∧ byteLen buf = 0) :
    Bulk host data t = .ok (data, []) ∧
    (∀ (c : Config) (st : WorkerState), st.mainBuf = [] →
      step c host t st .idleTimeout =
        .running { st with
          mainBuf := []
          bulkItemSize := 0
          effects := st.effects ++ [.pbAdd st.bulkItemSize] ++
            (if c.SleepSecondsAfterEachBulk > 0 then [.sleep c.SleepSecondsAfterEachBulk]
             else []) }) ∧
    (∀ (c : Config) (st : WorkerState), st.mainBuf = [] → st.docBuf = [] →
      step c host t st .taskTimeout =
        .done { st with
          mainBuf := []
          bulkItemSize := 0
          effects := st.effects ++ [.pbAdd st.bulkItemSize, .wgDone] }) := by
  refine ⟨?_, ?_, ?_⟩
  · rcases h with h | ⟨buf, h, hlen⟩
    · subst h; rfl
    · subst h
      simp only [Bulk, hlen, if_true]
  · intro c st hb
    simp only [step, cleanBuffer, hb, Bulk_empty, Option.getD_some, List.append_nil]
  · intro c st hb hd
    have h0 : ¬ byteLen st.docBuf > 0 := by rw [hd]; simp [byteLen]
    simp only [step, workerDone, h0, if_false, hb, Bulk_empty, Option.getD_some,
      List.append_nil]

theorem C10_empty_bulk_is_noop_witness :
    Bulk "http://dst:9200" (some []) (.failure "connection refused") = .ok (some [], []) ∧
    (∀ (c : Config) (st : WorkerState), st.mainBuf = [] →
      step c "http://dst:9200" (.failure "connection refused") st .idleTimeout =
        .running { st with
          mainBuf := []
          bulkItemSize := 0
          effects := st.effects ++ [.pbAdd st.bulkItemSize] ++
            (if c.SleepSecondsAfterEachBulk > 0 then [.sleep c.SleepSecondsAfterEachBulk]
             else []) }) ∧
    (∀ (c : Config) (st : WorkerState), st.mainBuf = [] → st.docBuf = [] →
      step c "http://dst:9200" (.failure "connection refused") st .taskTimeout =
        .done { st with
          mainBuf := []
          bulkItemSize := 0
          effects := st.effects ++ [.pbAdd st.bulkItemSize, .wgDone] }) :=
  C10_empty_bulk_is_noop "http://dst:9200" (.failure "connection refused") (some [])
    (Or.inr ⟨[], rfl, rfl⟩)

/-! ## The rename step -/

theorem renameLoop_eq_foldl (docType : String) (entries : List (List Char)) :
    ∀ (ps : List (String × String)) (source : GoMap),
      entries.map entryPair = ps.map some →
      renameLoop docType source entries = .ok (ps.foldl (applyPair docType) source) := by
  induction entries with
  | nil =>
    intro ps source h
    cases ps with
    | nil => rfl
    | cons p ps => simp at h
  | cons e entries ih =>
    intro ps source h
    cases ps with
    | nil => simp at h
    | cons p ps =>
      simp only [List.map_cons, List.cons.injEq] at h
      obtain ⟨he, hrest⟩ := h
      simp only [renameLoop, renameOne, he, List.foldl_cons]
      exact ih ps _ hrest

theorem hasKey_applyPair_self (docType : String) (source : GoMap) {old new : String}
    (hold : old ≠ "_type") (hdiff : old ≠ new) :
    (applyPair docType source (old, new)).hasKey new = true ∧
    (applyPair docType source (old, new)).hasKey old = false := by
  have hdiff1 : new ≠ old := fun e => hdiff e.symm
  simp only [applyPair, hold, if_false, GoMap.hasKey]
  constructor
  · rw [GoMap.get_delete_ne _ hdiff1, GoMap.get_set_self]; rfl
  · rw [GoMap.get_delete_self]; rfl

theorem hasKey_applyPair_later (docType : String) (source : GoMap) {old new : String}
    (p : String × String) (hp : (p.1 = "_type" ∨ p.1 ≠ new) ∧ p.2 ≠ old)
    (h : source.hasKey new = true ∧ source.hasKey old = false) :
    (applyPair docType source p).hasKey new = true ∧
    (applyPair docType source p).hasKey old = false := by
  obtain ⟨hp1, hp2⟩ := hp
  obtain ⟨hn, ho⟩ := h
  have hp2s : old ≠ p.2 := fun e => hp2 e.symm
  simp only [GoMap.hasKey] at hn ho ⊢
  by_cases ht : p.1 = "_type"
  · simp only [applyPair, ht, if_true]
    constructor
    · by_cases hpn : new = p.2
      · rw [hpn, GoMap.get_set_self]; rfl
      · rw [GoMap.get_set_ne _ _ hpn]; exact hn
    · rw [GoMap.get_set_ne _ _ hp2s]; exact ho
  · have hne : p.1 ≠ new := by
      rcases hp1 with h1 | h1
      · exact absurd h1 ht
      · exact h1
    have hne1 : new ≠ p.1 := fun e => hne e.symm
    simp only [applyPair, ht, if_false]
    constructor
    · rw [GoMap.get_delete_ne _ hne1]
      by_cases hpn : new = p.2
      · rw [hpn, GoMap.get_set_self]; rfl
      · rw [GoMap.get_set_ne _ _ hpn]; exact hn
    · by_cases hop : old = p.1
      · rw [hop, GoMap.get_delete_self]; rfl
      · rw [GoMap.get_delete_ne _ hop, GoMap.get_set_ne _ _ hp2s]; exact ho

theorem hasKey_foldl_later (docType : String) {old new : String} (post : List (String × String)) :
    ∀ (source : GoMap), (∀ p ∈ post, (p.1 = "_type" ∨ p.1 ≠ new) ∧ p.2 ≠ old) →
      (source.hasKey new = true ∧ source.hasKey old = false) →
      (post.foldl (applyPair docType) source).hasKey new = true ∧
      (post.foldl (applyPair docType) source).hasKey old = false := by
  induction post with
  | nil => intro source _ h; exact h
  | cons p post ih =>
    intro source hall h
    simp only [List.foldl_cons]
    apply ih
    · intro q hq; exact hall q (List.mem_cons_of_mem _ hq)
    · exact hasKey_applyPair_later docType source p (hall p (List.mem_cons_self _ _)) h

/-- C2 (counterexample): with the rename list `a:b,b:a` and the payload
`{"a": 1}` the whole list is applied, and for its pair `a:b` the new name `b`
is not a key afterwards; with the list `a:a` the key `a` itself is gone. So the
claimed postcondition fails for a later pair reusing a name and for
`old == new`. -/
theorem C2_claimed_postcondition_fails :
    (∃ source1, renameFields "a:b,b:a" "doc" [("a", .number "1")] = .ok source1 ∧
      (Split ',' "a:b,b:a".toList).map entryPair = [some ("a", "b"), some ("b", "a")] ∧
      ¬ (∀ p ∈ [(("a" : String), ("b" : String)), ("b", "a")], p.1 ≠ "_type" →
          source1.hasKey p.2 = true ∧ source1.hasKey p.1 = false)) ∧
    (∃ source1, renameFields "a:a" "doc" [("a", .number "1")] = .ok source1 ∧
      (Split ',' "a:a".toList).map entryPair = [some ("a", "a")] ∧
      ¬ (∀ p ∈ [(("a" : String), ("a" : String))], p.1 ≠ "_type" →
          source1.hasKey p.2 = true ∧ source1.hasKey p.1 = false)) := by
  refine ⟨⟨[("a", .number "1")], rfl, by decide, ?_⟩, ⟨[], rfl, by decide, ?_⟩⟩
  · intro h
    have := (h ("a", "b") (by simp) (by decide)).1
    revert this
    decide
  · intro h
    have := (h ("a", "a") (by simp) (by decide)).1
    revert this
    decide

/-- C2 (amended): when every entry of the rename list has a `:`, the whole list
is applied, and for every pair `old:new` of it with `old ≠ "_type"` and
`old ≠ new` such that no later pair renames `new` away (has `new` as its old
field) or writes `old` (has `old` as its new field), after the whole list `new`
is a key of the payload and `old` is not; this holds also when `old` was absent
from the payload. -/
theorem C2_rename_postcondition (renameCfg docType : String) (source : GoMap)
    (pre post : List (String × String)) (old new : String)
    (hpairs : (Split ',' renameCfg.toList).map entryPair = (pre ++ (old, new) :: post).map some)
    (hold : old ≠ "_type") (hdiff : old ≠ new)
    (hlater : ∀ p ∈ post, (p.1 = "_type" ∨ p.1 ≠ new) ∧ p.2 ≠ old) :
    ∃ source1, renameFields renameCfg docType source = .ok source1 ∧
      source1.hasKey new = true ∧ source1.hasKey old = false := by
  have hne : renameCfg ≠ "" := by
    intro h0
    subst h0
    cases pre <;> simp [Split, entryPair] at hpairs
  refine ⟨(pre ++ (old, new) :: post).foldl (applyPair docType) source, ?_, ?_⟩
  · simp only [renameFields, hne, ne_eq, not_false_eq_true, if_true]
    exact renameLoop_eq_foldl docType _ _ source hpairs
  · rw [List.foldl_append, List.foldl_cons]
    exact hasKey_foldl_later docType post _ hlater
      (hasKey_applyPair_self docType _ hold hdiff)

theorem C2_rename_postcondition_witness :
    ∃ source1, renameFields "name:myname,_type:typeField" "doc" [("name", .str "a")] =
        .ok source1 ∧
      source1.hasKey "myname" = true ∧ source1.hasKey "name" = false :=
  C2_rename_postcondition "name:myname,_type:typeField" "doc" [("name", .str "a")]
    [] [("_type", "typeField")] "name" "myname" (by decide) (by decide) (by decide)
    (by decide)

/-! ## Closing the document queue -/

theorem storedCount_le_length (l : List SlicePc) : storedCount l ≤ l.length := by
  induction l with
  | nil => simp [storedCount]
  | cons pc rest ih => cases pc <;> simp [storedCount] <;> omega

theorem storedCount_set_same (l : List SlicePc) (i : Nat) (old new : SlicePc)
    (h : l.get? i = some old)
    (hw : storedCount [new] = storedCount [old]) :
    storedCount (l.set i new) = storedCount l := by
  induction l generalizing i with
  | nil => simp at h
  | cons pc rest ih =>
    cases i with
    | zero =>
      simp only [List.get?_cons_zero, Option.some.injEq] at h
      subst h
      cases pc <;> cases new <;> simp [storedCount] at hw ⊢
    | succ j =>
      simp only [List.get?_cons_succ] at h
      have := ih j h
      cases pc <;> simp [storedCount, this]

theorem storedCount_set_stored (l : List SlicePc) (i : Nat) (tmp : Int)
    (h : l.get? i = some (.loaded tmp)) :
    storedCount (l.set i .stored) = storedCount l + 1 := by
  induction l generalizing i with
  | nil => simp at h
  | cons pc rest ih =>
    cases i with
    | zero =>
      simp only [List.get?_cons_zero, Option.some.injEq] at h
      subst h
      simp [storedCount]
    | succ j =>
      simp only [List.get?_cons_succ] at h
      have := ih j h
      cases pc <;> simp [storedCount, this]

/-- Invariant of the cursor goroutines: no close has happened, and neither the
counter nor any value read from it exceeds the number of completed increments. -/
theorem sliceStep_invariant (scrollSliceSize : Int) (s : SliceSched) (i : Nat)
    (hsize : (s.pcs.length : Int) < scrollSliceSize)
    (hinv : s.closeCalls = 0 ∧ s.finishedSlice ≤ storedCount s.pcs ∧
      ∀ tmp, SlicePc.loaded tmp ∈ s.pcs → tmp ≤ storedCount s.pcs) :
    (sliceStep scrollSliceSize s i).pcs.length = s.pcs.length ∧
    (sliceStep scrollSliceSize s i).closeCalls = 0 ∧
    (sliceStep scrollSliceSize s i).finishedSlice ≤ storedCount (sliceStep scrollSliceSize s i).pcs ∧
    ∀ tmp, SlicePc.loaded tmp ∈ (sliceStep scrollSliceSize s i).pcs →
      tmp ≤ storedCount (sliceStep scrollSliceSize s i).pcs := by
  obtain ⟨hc, hf, hl⟩ := hinv
  unfold sliceStep
  cases hget : s.pcs.get? i with
  | none => exact ⟨rfl, hc, hf, hl⟩
  | some pc =>
    cases pc with
    | streaming =>
      have hcount := storedCount_set_same s.pcs i .streaming (.loaded s.finishedSlice) hget rfl
      refine ⟨by simp, hc, by simpa [hcount] using hf, ?_⟩
      intro tmp hmem
      simp only [hcount]
      rcases List.mem_or_eq_of_mem_set hmem with h1 | h1
      · exact hl tmp h1
      · injection h1 with h1; rw [h1]; exact hf
    | loaded tmp0 =>
      have hcount := storedCount_set_stored s.pcs i tmp0 hget
      have hmem0 : SlicePc.loaded tmp0 ∈ s.pcs := List.get?_mem hget
      have h0 := hl tmp0 hmem0
      refine ⟨by simp, hc, ?_, ?_⟩
      · simp only [hcount]; push_cast; omega
      · intro tmp hmem
        simp only [hcount]
        rcases List.mem_or_eq_of_mem_set hmem with h1 | h1
        · have := hl tmp h1; push_cast; omega
        · cases h1
    | stored =>
      have hcount := storedCount_set_same s.pcs i .stored .finished hget rfl
      have hlen := storedCount_le_length s.pcs
      have hne : ¬ s.finishedSlice = scrollSliceSize := by omega
      refine ⟨by simp, by simp [hne, hc], by simpa [hcount] using hf, ?_⟩
      intro tmp hmem
      simp only [hcount]
      rcases List.mem_or_eq_of_mem_set hmem with h1 | h1
      · exact hl tmp h1
      · cases h1
    | finished => exact ⟨rfl, hc, hf, hl⟩

theorem runSlices_never_closes (scrollSliceSize : Int) (schedule : List Nat) :
    ∀ (s : SliceSched), (s.pcs.length : Int) < scrollSliceSize →
      (s.closeCalls = 0 ∧ s.finishedSlice ≤ storedCount s.pcs ∧
        ∀ tmp, SlicePc.loaded tmp ∈ s.pcs → tmp ≤ storedCount s.pcs) →
      (runSlices scrollSliceSize s schedule).closeCalls = 0 := by
  induction schedule with
  | nil => intro s _ h; exact h.1
  | cons i rest ih =>
    intro s hsize hinv
    obtain ⟨hlen, h1, h2, h3⟩ := sliceStep_invariant scrollSliceSize s i hsize hinv
    simp only [runSlices, List.foldl_cons]
    exact ih _ (by rw [hlen]; exact hsize) ⟨h1, h2, h3⟩

/-- When fewer goroutines were started than `ScrollSliceSize`, the queue is
never closed, whatever the interleaving. -/
theorem queue_never_closed_of_missing_goroutine (scrollSliceSize : Int) (launched : Nat)
    (h : (launched : Int) < scrollSliceSize) (schedule : List Nat) :
    (runSlices scrollSliceSize (SliceSched.init launched) schedule).closeCalls = 0 := by
  apply runSlices_never_closes
  · simpa [SliceSched.init] using h
  · refine ⟨rfl, ?_, ?_⟩
    · simp [SliceSched.init]
    · intro tmp hmem
      simp [SliceSched.init, List.mem_replicate] at hmem

/-- C7 (code defect): in a run with two slices whose slice 1 answers its first
request without a hit list, the slice loop starts a goroutine for slice 0 only
(lines 266-327), so the counter can never reach `ScrollSliceSize = 2` and the
queue is closed zero times under every interleaving of the goroutine steps.
Moreover `finishedSlice++` is a plain read followed by a write: with both
goroutines started there is an interleaving with two `close` calls (the second
panics) and one with none. -/
theorem C7_queue_not_closed_exactly_once :
    sliceLoop noHitListOnSliceOne 2 0 0 [] = .completed [0] 3 ∧
    (∀ schedule : List Nat, (runSlices 2 (SliceSched.init 1) schedule).closeCalls = 0) ∧
    (runSlices 2 (SliceSched.init 2) [0, 0, 1, 1, 0, 1]).closeCalls = 2 ∧
    (runSlices 2 (SliceSched.init 2) [0, 1, 0, 1, 0, 1]).closeCalls = 0 ∧
    (runSlices 2 (SliceSched.init 2) [0, 1, 0, 1, 0, 1]).pcs = [.finished, .finished] := by
  refine ⟨rfl, ?_, by decide, by decide, rfl⟩
  intro schedule
  exact queue_never_closed_of_missing_goroutine 2 1 (by decide) schedule

/-! ## The cross-major check of `main` -/

theorem sliceLoop_returned_line (newScroll : Nat → NewScrollResult) (remaining : Nat) :
    ∀ (slice : Nat) (totalSize : Int) (launched : List Nat) (line : Nat) (l : List Nat),
      sliceLoop newScroll remaining slice totalSize launched = .returned line l →
      line = 245 ∨ line = 275 := by
  induction remaining with
  | zero => intro slice totalSize launched line l h; simp [sliceLoop] at h
  | succ n ih =>
    intro slice totalSize launched line l h
    unfold sliceLoop at h
    split at h
    · simp only [SliceLoopResult.returned.injEq] at h; exact Or.inl h.1.symm
    · simp only at h
      split at h
      · split at h
        · simp only [SliceLoopResult.returned.injEq] at h; exact Or.inr h.1.symm
        · exact ih _ _ _ _ _ h
      · exact ih _ _ _ _ _ h

theorem sourcePhase_exit (c : Config) (env : MainEnv) (acts : List MainAction) (line : Nat)
    (h : sourcePhase c env = (acts, some (.returned line))) :
    line = 183 ∨ line = 245 ∨ line = 275 ∨ line = 353 := by
  unfold sourcePhase at h
  split at h
  · split at h
    · simp only [Prod.mk.injEq, Option.some.injEq, MainExit.returned.injEq] at h
      exact Or.inl h.2.symm
    · simp only at h
      split at h
      · rename_i hl
        simp only [Prod.mk.injEq, Option.some.injEq, MainExit.returned.injEq] at h
        rcases sliceLoop_returned_line _ _ _ _ _ _ _ hl with h1 | h1
        · exact Or.inr (Or.inl (h.2 ▸ h1))
        · exact Or.inr (Or.inr (Or.inl (h.2 ▸ h1)))
      · simp at h
  · split at h
    · split at h
      · simp at h
      · simp only [Prod.mk.injEq, Option.some.injEq, MainExit.returned.injEq] at h
        exact Or.inr (Or.inr (Or.inr h.2.symm))
    · simp at h

theorem prepareIndexes_exit (c : Config) (env : MainEnv) (acts : List MainAction)
    (line : Nat) (h : prepareIndexes c env = (acts, some (.returned line))) :
    line = 615 ∨ line = 699 ∨ line = 944 := by
  unfold prepareIndexes at h
  split at h
  · simp only [Prod.mk.injEq, Option.some.injEq, MainExit.returned.injEq] at h
    exact Or.inl h.2.symm
  · split at h
    · split at h
      · split at h
        · simp only [Prod.mk.injEq, Option.some.injEq, MainExit.returned.injEq] at h
          exact Or.inr (Or.inl h.2.symm)
        · simp only at h
          split at h
          · simp at h
          · split at h
            · split at h <;> simp at h
            · simp at h
      · simp at h
    · simp only [Prod.mk.injEq, Option.some.injEq, MainExit.returned.injEq] at h
      exact Or.inr (Or.inr h.2.symm)

theorem targetPhase_nil_exit (c : Config) (env : MainEnv) :
    (targetPhase c env none).exit ≠ .returned 510 := by
  unfold targetPhase
  simp only [crossMajorRefused]
  split
  · split
    · simp
    · split
      · simp
      · split
        · split
          · rename_i hp
            intro h
            simp only [MainExit.returned.injEq] at h
            have hx := prepareIndexes_exit c env _ 510 (by rw [hp, h])
            omega
          · simp
        · simp
  · simp

/-- C5 (code defect): the variable `srcESVersion` read by the cross-major check
of line 507 is the one declared at line 136, which is never assigned (line 181
declares another variable of that name inside the `if` block), so the check
reads nil and never aborts. For a 6.8.0 source and a 7.10.0 destination with
`copy_settings` and `copy_mappings`, the round creates the index `logs` on the
destination, posts its mapping and starts the bulk worker, although the
condition of line 507 evaluated on the real source version is true; and no
round whatsoever returns at line 510. -/
theorem C5_cross_major_check_never_aborts :
    (mainRound crossMajorConfig crossMajorEnv).exit = .waiting ∧
    (mainRound crossMajorConfig crossMajorEnv).actions =
      [.startScroll 0,
       .createIndex "logs" [("settings", .obj [("index",
         .obj [("number_of_replicas", .int 0), ("refresh_interval", .int (-1))])])],
       .updateIndexMapping "logs" [("doc", .obj [])],
       .deferRecovery [("logs", .str "1s")],
       .startBulkWorker] ∧
    crossMajorRefused crossMajorEnv.srcVersion crossMajorConfig ⟨"7.10.0"⟩ = .ok true ∧
    ∀ (c : Config) (env : MainEnv), (mainRound c env).exit ≠ .returned 510 := by
  refine ⟨rfl, rfl, rfl, ?_⟩
  intro c env
  unfold mainRound
  split
  · simp
  · split
    · simp
    · split
      · simp
      · simp only
        split
        · rename_i acts exit hs
          intro h
          simp only at h
          subst h
          have := sourcePhase_exit c env acts 510 hs
          omega
        · exact targetPhase_nil_exit c env

/-! ## The encoder never writes a raw newline -/

theorem hexDigit_ne_newline (n : Nat) : hexDigit n ≠ '\n' := by
  unfold hexDigit
  by_cases h : n < 16
  · interval_cases n <;> decide
  · have : "0123456789abcdef".toList.length ≤ n := by
      have : "0123456789abcdef".toList.length = 16 := by decide
      omega
    rw [List.getD_eq_default _ _ this]
    decide

theorem escapeChar_noNewline (c : Char) : '\n' ∉ escapeChar c := by
  unfold escapeChar
  have h1 := hexDigit_ne_newline (c.toNat / 16)
  have h2 := hexDigit_ne_newline (c.toNat % 16)
  split
  · decide
  · split
    · decide
    · split
      · decide
      · split
        · decide
        · split
          · decide
          · split
            · simp only [List.mem_cons, List.mem_singleton, List.not_mem_nil, or_false]
              intro h
              rcases h with h | h | h | h | h | h
              · exact absurd h (by decide)
              · exact absurd h (by decide)
              · exact absurd h (by decide)
              · exact absurd h (by decide)
              · exact h1 h.symm
              · exact h2 h.symm
            · split
              · decide
              · split
                · decide
                · rename_i hn _ _ _ _ _
                  simp only [List.mem_singleton]
                  intro h
                  exact hn h.symm

theorem quoteString_noNewline (s : String) : '\n' ∉ quoteString s := by
  unfold quoteString
  simp only [List.mem_cons, List.mem_append, List.mem_flatMap, List.mem_singleton,
    List.not_mem_nil, or_false, not_or, not_exists, not_and]
  refine ⟨by decide, ?_, by decide⟩
  intro c _
  exact escapeChar_noNewline c

theorem joinElems_noNewline (es : List (List Char)) (h : ∀ e ∈ es, '\n' ∉ e) :
    '\n' ∉ joinElems es := by
  induction es with
  | nil => simp [joinElems]
  | cons e rest ih =>
    cases rest with
    | nil => simpa [joinElems] using h e (List.mem_cons_self _ _)
    | cons e2 rest2 =>
      have he := h e (List.mem_cons_self _ _)
      have hrest := ih (fun x hx => h x (List.mem_cons_of_mem _ hx))
      simp only [joinElems, List.mem_append, List.mem_cons, not_or] at hrest ⊢
      exact ⟨he, by decide, hrest⟩

theorem joinMembers_noNewline (ms : List (String × List Char)) (h : ∀ p ∈ ms, '\n' ∉ p.2) :
    '\n' ∉ joinMembers ms := by
  induction ms with
  | nil => simp [joinMembers]
  | cons p rest ih =>
    obtain ⟨k, e⟩ := p
    have hk := quoteString_noNewline k
    have he : '\n' ∉ e := h (k, e) (List.mem_cons_self _ _)
    cases rest with
    | nil =>
      simp only [joinMembers, List.mem_append, List.mem_cons, not_or]
      exact ⟨hk, by decide, he⟩
    | cons p2 rest2 =>
      have hrest := ih (fun x hx => h x (List.mem_cons_of_mem _ hx))
      simp only [joinMembers]
      intro hmem
      rcases List.mem_append.1 hmem with h1 | h1
      · rcases List.mem_append.1 h1 with h1 | h1
        · exact hk h1
        · rcases List.mem_cons.1 h1 with h1 | h1
          · exact absurd h1 (by decide)
          · exact he h1
      · rcases List.mem_cons.1 h1 with h1 | h1
        · exact absurd h1 (by decide)
        · exact hrest h1

theorem mem_insertMember (k : String) (e : List Char) (ms : List (String × List Char))
    (p : String × List Char) (h : p ∈ insertMember k e ms) : p = (k, e) ∨ p ∈ ms := by
  induction ms with
  | nil => simp [insertMember] at h; exact Or.inl h
  | cons q rest ih =>
    obtain ⟨k1, e1⟩ := q
    unfold insertMember at h
    split at h
    · rcases List.mem_cons.1 h with h | h
      · exact Or.inl h
      · exact Or.inr (List.mem_cons_of_mem _ h)
    · split at h
      · rcases List.mem_cons.1 h with h | h
        · exact Or.inl h
        · exact Or.inr h
      · rcases List.mem_cons.1 h with h | h
        · exact Or.inr (h ▸ List.mem_cons_self _ _)
        · rcases ih h with h | h
          · exact Or.inl h
          · exact Or.inr (List.mem_cons_of_mem _ h)

theorem mem_sortMembers (ms : List (String × List Char)) (p : String × List Char)
    (h : p ∈ sortMembers ms) : p ∈ ms := by
  induction ms with
  | nil => simp [sortMembers] at h
  | cons q rest ih =>
    obtain ⟨k1, e1⟩ := q
    simp only [sortMembers] at h
    rcases mem_insertMember _ _ _ _ h with h | h
    · rw [h]; exact List.mem_cons_self _ _
    · exact List.mem_cons_of_mem _ (ih h)

mutual
theorem encodeValue_noNewline : ∀ (v : GoValue), jsonDecoded v = true → '\n' ∉ encodeValue v
  | .nil, _ => by decide
  | .bool b, _ => by cases b <;> decide
  | .number lit, h => by
    simp only [jsonDecoded, Bool.and_eq_true, List.all_eq_true] at h
    simp only [encodeValue]
    split
    · decide
    · intro hmem
      have := h.2 _ hmem
      revert this
      decide
  | .int _, h => by simp [jsonDecoded] at h
  | .str s, _ => quoteString_noNewline s
  | .arr vs, h => by
    simp only [jsonDecoded] at h
    have := joinElems_noNewline _ (encodeElems_noNewline vs h)
    simp only [encodeValue, List.mem_cons, List.mem_append, List.mem_singleton, not_or]
    exact ⟨by decide, this, by decide⟩
  | .obj kvs, h => by
    simp only [jsonDecoded] at h
    have := joinMembers_noNewline _
      (fun p hp => encodeMembers_noNewline kvs h p (mem_sortMembers _ _ hp))
    simp only [encodeValue, List.mem_cons, List.mem_append, List.mem_singleton, not_or]
    exact ⟨by decide, this, by decide⟩
theorem encodeElems_noNewline : ∀ (vs : List GoValue), jsonDecodedList vs = true →
    ∀ e ∈ encodeElems vs, '\n' ∉ e
  | [], _ => by simp [encodeElems]
  | v :: vs, h => by
    simp only [jsonDecodedList, Bool.and_eq_true] at h
    intro e he
    simp only [encodeElems, List.mem_cons] at he
    rcases he with he | he
    · rw [he]; exact encodeValue_noNewline v h.1
    · exact encodeElems_noNewline vs h.2 e he
theorem encodeMembers_noNewline : ∀ (kvs : List (String × GoValue)),
    jsonDecodedFields kvs = true → ∀ p ∈ encodeMembers kvs, '\n' ∉ p.2
  | [], _ => by simp [encodeMembers]
  | (k, v) :: kvs, h => by
    simp only [jsonDecodedFields, Bool.and_eq_true] at h
    intro p hp
    simp only [encodeMembers, List.mem_cons] at hp
    rcases hp with hp | hp
    · rw [hp]; exact encodeValue_noNewline v h.1
    · exact encodeMembers_noNewline kvs h.2 p hp
end

theorem encodeSource_noNewline (source : GoMap) (h : jsonDecodedFields source = true) :
    '\n' ∉ encodeSource source :=
  encodeValue_noNewline (.obj source) (by simpa [jsonDecoded] using h)

theorem encodeActionHeader_noNewline (d : Document) : '\n' ∉ encodeActionHeader d := by
  have hm : ∀ (name value : String), ∀ e ∈ omitemptyMember name value, '\n' ∉ e := by
    intro name value e he
    unfold omitemptyMember at he
    split at he
    · simp at he
    · simp only [List.mem_singleton] at he
      rw [he]
      simp only [List.mem_append, List.mem_cons, not_or]
      exact ⟨quoteString_noNewline name, by decide, quoteString_noNewline value⟩
  have hj := joinElems_noNewline
    (omitemptyMember "_index" d.Index ++ omitemptyMember "_type" d.Type_ ++
      omitemptyMember "_id" d.Id ++ omitemptyMember "routing" d.Routing)
    (by
      intro e he
      simp only [List.mem_append] at he
      rcases he with ((he | he) | he) | he
      · exact hm _ _ e he
      · exact hm _ _ e he
      · exact hm _ _ e he
      · exact hm _ _ e he)
  have hdoc : '\n' ∉ encodeDocument d := by
    unfold encodeDocument
    intro h
    rcases List.mem_cons.1 h with h | h
    · exact absurd h (by decide)
    · rcases List.mem_append.1 h with h | h
      · exact hj h
      · exact absurd (List.mem_singleton.1 h) (by decide)
  unfold encodeActionHeader
  intro h
  rcases List.mem_append.1 h with h | h
  · rcases List.mem_append.1 h with h | h
    · revert h; decide
    · exact hdoc h
  · exact absurd (List.mem_singleton.1 h) (by decide)

/-! ## Decoded envelopes stay decoded through the rename step -/

theorem jsonDecoded_get {m : GoMap} (h : jsonDecodedFields m = true) {k : String}
    {v : GoValue} (hg : m.get k = some v) : jsonDecoded v = true := by
  induction m with
  | nil => simp [GoMap.get] at hg
  | cons kv rest ih =>
    obtain ⟨k1, v1⟩ := kv
    simp only [jsonDecodedFields, Bool.and_eq_true] at h
    rw [GoMap.get_cons] at hg
    split at hg
    · injection hg with hg; rw [← hg]; exact h.1
    · exact ih h.2 hg

theorem jsonDecoded_getD {m : GoMap} (h : jsonDecodedFields m = true) (k : String) :
    jsonDecoded (m.getD k) = true := by
  unfold GoMap.getD
  cases hg : m.get k with
  | none => rfl
  | some v => exact jsonDecoded_get h hg

theorem jsonDecodedFields_delete {m : GoMap} (h : jsonDecodedFields m = true) (k : String) :
    jsonDecodedFields (m.delete k) = true := by
  induction m with
  | nil => rfl
  | cons kv rest ih =>
    obtain ⟨k1, v1⟩ := kv
    simp only [jsonDecodedFields, Bool.and_eq_true] at h
    rw [GoMap.delete_cons]
    split
    · exact ih h.2
    · simp only [jsonDecodedFields, Bool.and_eq_true]
      exact ⟨h.1, ih h.2⟩

theorem jsonDecodedFields_set {m : GoMap} (h : jsonDecodedFields m = true) (k : String)
    {v : GoValue} (hv : jsonDecoded v = true) : jsonDecodedFields (m.set k v) = true := by
  simp only [GoMap.set, jsonDecodedFields, Bool.and_eq_true]
  exact ⟨hv, jsonDecodedFields_delete h k⟩

theorem jsonDecodedFields_applyPair (docType : String) {m : GoMap}
    (h : jsonDecodedFields m = true) (p : String × String) :
    jsonDecodedFields (applyPair docType m p) = true := by
  unfold applyPair
  split
  · exact jsonDecodedFields_set h _ rfl
  · exact jsonDecodedFields_delete (jsonDecodedFields_set h _ (jsonDecoded_getD h _)) _

theorem jsonDecodedFields_renameLoop (docType : String) (entries : List (List Char)) :
    ∀ (m m1 : GoMap), jsonDecodedFields m = true → renameLoop docType m entries = .ok m1 →
      jsonDecodedFields m1 = true := by
  induction entries with
  | nil =>
    intro m m1 h hr
    simp only [renameLoop, Except.ok.injEq] at hr
    rw [← hr]; exact h
  | cons e rest ih =>
    intro m m1 h hr
    simp only [renameLoop, renameOne] at hr
    cases hp : entryPair e with
    | none => simp [hp] at hr
    | some p =>
      simp only [hp] at hr
      exact ih _ _ (jsonDecodedFields_applyPair docType h p) hr

theorem jsonDecodedFields_renameFields (renameCfg docType : String) (m m1 : GoMap)
    (h : jsonDecodedFields m = true) (hr : renameFields renameCfg docType m = .ok m1) :
    jsonDecodedFields m1 = true := by
  unfold renameFields at hr
  split at hr
  · exact jsonDecodedFields_renameLoop docType _ m m1 h hr
  · simp only [Except.ok.injEq] at hr
    rw [← hr]; exact h

/-- The payload of an accepted document is a decoded value when the envelope is. -/
theorem handleDoc_source_decoded {c : Config} {docI : GoMap} {isOpen : Bool}
    {doc : Document} (h : handleDoc c docI isOpen = .ok (.accepted doc))
    (hd : jsonDecodedFields docI = true) : jsonDecodedFields doc.source = true := by
  obtain ⟨srcIndex, srcType, source, id, source1, -, -, -, -, hS, -, hR, -, hdoc, -, -⟩ :=
    handleDoc_accepted h
  have hsrc : jsonDecodedFields source = true := by
    have := jsonDecoded_getD hd "_source"
    rw [hS] at this
    simpa [jsonDecoded] using this
  rw [hdoc]
  exact jsonDecodedFields_renameFields _ _ _ _ hsrc hR

/-! ## Accumulation of a batch -/

theorem joinLines_batchLines_append (docs : List Document) (d : Document) :
    joinLines (batchLines (docs ++ [d])) =
      joinLines (batchLines docs) ++
        (encodeActionHeader d ++ ['\n'] ++ encodeSource d.source ++ ['\n']) := by
  simp [joinLines, batchLines, List.flatMap_append]

theorem batchLines_length (docs : List Document) :
    (batchLines docs).length = 2 * docs.length := by
  induction docs with
  | nil => rfl
  | cons d rest ih =>
    simp only [batchLines, List.flatMap_cons, List.length_append, List.length_cons,
      List.length_nil] at ih ⊢
    omega

/-- One accepted document: the iteration appends its two lines to the main
buffer and then either hands the whole buffer to `Bulk` (size trigger) or keeps
it. -/
theorem step_accepted (c : Config) (host : String) (t : TransportResult) (st : WorkerState)
    (docI : GoMap) (doc : Document) (hbuf : st.docBuf = [])
    (h : handleDoc c docI true = .ok (.accepted doc)) :
    step c host t st (.recv docI true) =
      (if (byteLen (st.mainBuf ++ joinLines (batchLines [doc])) : Int) >
            bulkThreshold c then
        cleanBuffer c host t
          { st with
            mainBuf := st.mainBuf ++ joinLines (batchLines [doc])
            bulkItemSize := st.bulkItemSize + 1
            docCount := st.docCount + 1 }
      else
        .running
          { st with
            mainBuf := st.mainBuf ++ joinLines (batchLines [doc])
            bulkItemSize := st.bulkItemSize + 1
            docCount := st.docCount + 1 }) := by
  have hj : joinLines (batchLines [doc]) =
      encodeActionHeader doc ++ ['\n'] ++ encodeSource doc.source ++ ['\n'] := by
    simp [joinLines, batchLines]
  simp only [step, h, appendDoc, hbuf, List.nil_append, hj, byteLen, List.map_nil,
    List.sum_nil, Nat.cast_zero, add_zero]

theorem step_failedDecoding (c : Config) (host : String) (t : TransportResult)
    (st : WorkerState) (docI : GoMap) (d : Document)
    (h : handleDoc c docI true = .ok (.failedDecoding d)) :
    step c host t st (.recv docI true) =
      .running { st with effects := st.effects ++ [.logError "failed decoding document"] } := by
  simp only [step, h]

/-- A run of dequeued envelopes, each either accepted (`some d`) or dropped by
the sanity test (`none`), none of which fires the size trigger: the main buffer
grows by the two lines of each accepted document, in dequeue order, and the only
effects are the log entries for the dropped ones. -/
theorem NewBulkWorker_accumulates (c : Config) (host : String) (t : TransportResult)
    (events : List (GoMap × Option Document)) :
    ∀ (st : WorkerState), st.docBuf = [] →
      (∀ p ∈ events,
        (∀ d, p.2 = some d → handleDoc c p.1 true = .ok (.accepted d)) ∧
        (p.2 = none → ∃ d, handleDoc c p.1 true = .ok (.failedDecoding d))) →
      (∀ k, k < events.length →
        (byteLen (st.mainBuf ++
            joinLines (batchLines ((events.take (k + 1)).filterMap Prod.snd))) : Int)
          ≤ bulkThreshold c) →
      ∃ eff : List Effect,
        NewBulkWorker c host st (events.map (fun p => (WorkerEvent.recv p.1 true, t))) =
          .running
            { st with
              mainBuf := st.mainBuf ++ joinLines (batchLines (events.filterMap Prod.snd))
              bulkItemSize := st.bulkItemSize + (events.filterMap Prod.snd).length
              docCount := st.docCount + (events.filterMap Prod.snd).length
              effects := st.effects ++ eff } ∧
        ∀ e ∈ eff, e = Effect.logError "failed decoding document" := by
  induction events with
  | nil =>
    intro st _ _ _
    exact ⟨[], by simp [NewBulkWorker, joinLines, batchLines], by simp⟩
  | cons p rest ih =>
    intro st hbuf hacc hfit
    obtain ⟨docI, od⟩ := p
    have hp := hacc (docI, od) (List.mem_cons_self _ _)
    have hrest := fun q hq => hacc q (List.mem_cons_of_mem _ hq)
    cases od with
    | none =>
      obtain ⟨d, hd⟩ := hp.2 rfl
      obtain ⟨eff, hrun, heff⟩ := ih
        { st with effects := st.effects ++ [.logError "failed decoding document"] }
        hbuf hrest
        (by
          intro k hk
          have := hfit (k + 1) (by simp; omega)
          simpa [List.take_succ_cons, List.filterMap_cons] using this)
      refine ⟨.logError "failed decoding document" :: eff, ?_, ?_⟩
      · simp only [List.map_cons, NewBulkWorker, step_failedDecoding c host t st docI d hd,
          hrun, List.filterMap_cons]
        simp
      · intro e he
        rcases List.mem_cons.1 he with he | he
        · exact he
        · exact heff e he
    | some d =>
      have hd := hp.1 d rfl
      have h0 := hfit 0 (by simp)
      simp only [List.take_succ_cons, List.take_zero, List.filterMap_cons,
        List.filterMap_nil] at h0
      have hno : ¬ (byteLen (st.mainBuf ++ joinLines (batchLines [d])) : Int) >
          bulkThreshold c := by omega
      have hcat : ∀ ds : List Document, joinLines (batchLines (d :: ds)) =
          joinLines (batchLines [d]) ++ joinLines (batchLines ds) := by
        intro ds
        simp [joinLines, batchLines]
      obtain ⟨eff, hrun, heff⟩ := ih
        { st with
          mainBuf := st.mainBuf ++ joinLines (batchLines [d])
          bulkItemSize := st.bulkItemSize + 1
          docCount := st.docCount + 1 }
        hbuf hrest
        (by
          intro k hk
          have := hfit (k + 1) (by simp; omega)
          simp only [List.take_succ_cons, List.filterMap_cons] at this
          rw [hcat ((rest.take (k + 1)).filterMap Prod.snd), ← List.append_assoc] at this
          exact this)
      refine ⟨eff, ?_, heff⟩
      simp only [List.map_cons, NewBulkWorker, step_accepted c host t st docI d hbuf hd, hno,
        if_false, hrun, List.filterMap_cons]
      rw [hcat (rest.filterMap Prod.snd)]
      simp only [List.append_assoc, List.length_cons, Nat.cast_add, Nat.cast_one]
      congr 2 <;> omega

theorem batchLines_getElem (docs : List Document) :
    ∀ (k : Nat) (d : Document), docs[k]? = some d →
      (batchLines docs)[2 * k]? = some (encodeActionHeader d) ∧
      (batchLines docs)[2 * k + 1]? = some (encodeSource d.source) := by
  induction docs with
  | nil => intro k d h; simp at h
  | cons d0 rest ih =>
    intro k d h
    have hcons : batchLines (d0 :: rest) =
        encodeActionHeader d0 :: encodeSource d0.source :: batchLines rest := by
      simp [batchLines]
    rw [hcons]
    cases k with
    | zero =>
      simp only [List.getElem?_cons_zero, Option.some.injEq] at h
      subst h
      simp
    | succ j =>
      simp only [List.getElem?_cons_succ] at h
      have := ih j d h
      have e1 : 2 * (j + 1) = (2 * j + 1) + 1 := by omega
      rw [e1]
      simp only [List.getElem?_cons_succ]
      exact this

theorem batchLines_noNewline (events : List (GoMap × Option Document)) (c : Config)
    (hacc : ∀ p ∈ events, ∀ d, p.2 = some d → handleDoc c p.1 true = .ok (.accepted d))
    (hdec : ∀ p ∈ events, jsonDecodedFields p.1 = true) :
    ∀ line ∈ batchLines (events.filterMap Prod.snd), '\n' ∉ line := by
  intro line hline
  simp only [batchLines, List.mem_flatMap, List.mem_filterMap, List.mem_cons,
    List.mem_singleton, List.not_mem_nil, or_false] at hline
  obtain ⟨d, ⟨p, hp, hpd⟩, hl⟩ := hline
  rcases hl with hl | hl
  · rw [hl]; exact encodeActionHeader_noNewline d
  · rw [hl]
    exact encodeSource_noNewline _ (handleDoc_source_decoded (hacc p hp d hpd) (hdec p hp))

/-- C8: let the worker, with empty buffers (as at its start and after every
flush), dequeue decoded envelopes each of which is either accepted or dropped by
the sanity test, none firing the size trigger, and let `d1..dn` be the accepted
documents in dequeue order. Then the main buffer, which is what every flush path
hands to `Bulk`, is the text of `2n` lines, each ended by a newline and
containing no other newline, where line `2k-1` is the action header of `dk` and
line `2k` the JSON of the payload of `dk`; the header is a function of `Index`,
`Type`, `Id` and `Routing` only; `Bulk` appends one newline and posts that text;
and when a further accepted document fires the size trigger, `Bulk` is handed
the buffer extended by the two lines of that document. -/
theorem C8_batch_layout (c : Config) (host : String) (t : TransportResult)
    (st : WorkerState) (events : List (GoMap × Option Document))
    (hmain : st.mainBuf = []) (hdoc : st.docBuf = [])
    (hacc : ∀ p ∈ events,
      (∀ d, p.2 = some d → handleDoc c p.1 true = .ok (.accepted d)) ∧
      (p.2 = none → ∃ d, handleDoc c p.1 true = .ok (.failedDecoding d)))
    (hdec : ∀ p ∈ events, jsonDecodedFields p.1 = true)
    (hfit : ∀ k, k < events.length →
      (byteLen (joinLines (batchLines ((events.take (k + 1)).filterMap Prod.snd))) : Int)
        ≤ bulkThreshold c) :
    (∃ eff : List Effect,
      NewBulkWorker c host st (events.map (fun p => (WorkerEvent.recv p.1 true, t))) =
        .running
          { st with
            mainBuf := joinLines (batchLines (events.filterMap Prod.snd))
            bulkItemSize := st.bulkItemSize + (events.filterMap Prod.snd).length
            docCount := st.docCount + (events.filterMap Prod.snd).length
            effects := st.effects ++ eff } ∧
      ∀ e ∈ eff, e = Effect.logError "failed decoding document") ∧
    (batchLines (events.filterMap Prod.snd)).length = 2 * (events.filterMap Prod.snd).length ∧
    (∀ line ∈ batchLines (events.filterMap Prod.snd), '\n' ∉ line) ∧
    (∀ (k : Nat) (d : Document), (events.filterMap Prod.snd)[k]? = some d →
      (batchLines (events.filterMap Prod.snd))[2 * k]? = some (encodeActionHeader d) ∧
      (batchLines (events.filterMap Prod.snd))[2 * k + 1]? = some (encodeSource d.source)) ∧
    (∀ (d : Document) (source : GoMap),
      encodeActionHeader { d with source := source } = encodeActionHeader d) ∧
    (∀ reply : HttpReply, events.filterMap Prod.snd ≠ [] →
      Bulk host (some (joinLines (batchLines (events.filterMap Prod.snd)))) (.response reply) =
        .ok (some [],
          .http ⟨"POST", host ++ "/_bulk",
              joinLines (batchLines (events.filterMap Prod.snd)) ++ ['\n']⟩ ::
            bulkReplyOutput reply)) ∧
    (∀ (st1 : WorkerState) (docI : GoMap) (d : Document), st1.docBuf = [] →
      st1.mainBuf = joinLines (batchLines (events.filterMap Prod.snd)) →
      handleDoc c docI true = .ok (.accepted d) →
      (byteLen (joinLines (batchLines (events.filterMap Prod.snd ++ [d]))) : Int) >
        bulkThreshold c →
      step c host t st1 (.recv docI true) =
        cleanBuffer c host t
          { st1 with
            mainBuf := joinLines (batchLines (events.filterMap Prod.snd ++ [d]))
            bulkItemSize := st1.bulkItemSize + 1
            docCount := st1.docCount + 1 }) := by
  refine ⟨?_, ?_, batchLines_noNewline events c (fun p hp => (hacc p hp).1) hdec,
    batchLines_getElem _, ?_, ?_, ?_⟩
  · obtain ⟨eff, hrun, heff⟩ := NewBulkWorker_accumulates c host t events st hdoc hacc
      (by intro k hk; rw [hmain, List.nil_append]; exact hfit k hk)
    refine ⟨eff, ?_, heff⟩
    rw [hrun, hmain, List.nil_append]
  · rw [batchLines_length]
  · intro d source; rfl
  · intro reply hne
    apply Bulk_response
    cases hds : events.filterMap Prod.snd with
    | nil => exact absurd hds hne
    | cons d rest => simp [joinLines, batchLines]
  · intro st1 docI d hd1 hm1 hacc1 hbig
    have hj : joinLines (batchLines (events.filterMap Prod.snd ++ [d])) =
        st1.mainBuf ++ joinLines (batchLines [d]) := by
      rw [hm1, joinLines_batchLines_append]
      simp [joinLines, batchLines]
    rw [hj] at hbig ⊢
    rw [step_accepted c host t st1 docI d hd1 hacc1, if_pos hbig]

set_option maxRecDepth 20000 in
theorem C8_batch_layout_witness :
    ∃ eff : List Effect,
      NewBulkWorker plainConfig "http://dst:9200" WorkerState.init
          ([(sampleHit, some (⟨"logs", "doc", "1", [("name", .str "a")], ""⟩ : Document)),
            (untypedHit, none),
            (sampleHit2,
              some ⟨"logs", "doc", "2", [("name", .str "b"), ("age", .number "41")], "r1"⟩)].map
            (fun p => (WorkerEvent.recv p.1 true, TransportResult.failure "unused"))) =
        .running
          { WorkerState.init with
            mainBuf :=
              ("\x7b\"index\":\x7b\"_index\":\"logs\",\"_type\":\"doc\",\"_id\":\"1\"\x7d\x7d\n" ++
               "\x7b\"name\":\"a\"\x7d\n" ++
               "\x7b\"index\":\x7b\"_index\":\"logs\",\"_type\":\"doc\",\"_id\":\"2\",\"routing\":\"r1\"\x7d\x7d\n" ++
               "\x7b\"age\":41,\"name\":\"b\"\x7d\n").toList
            bulkItemSize := 2
            docCount := 2
            effects := WorkerState.init.effects ++ eff } ∧
      ∀ e ∈ eff, e = Effect.logError "failed decoding document" :=
  (C8_batch_layout plainConfig "http://dst:9200" (.failure "unused") WorkerState.init
    [(sampleHit, some ⟨"logs", "doc", "1", [("name", .str "a")], ""⟩),
     (untypedHit, none),
     (sampleHit2, some ⟨"logs", "doc", "2", [("name", .str "b"), ("age", .number "41")], "r1"⟩)]
    rfl rfl
    (by
      intro p hp
      simp only [List.mem_cons, List.mem_singleton, List.not_mem_nil, or_false] at hp
      rcases hp with hp | hp | hp <;> rw [hp]
      · exact ⟨fun d hd => (by injection hd with hd; rw [← hd]; rfl), fun h => (by cases h)⟩
      · exact ⟨fun d hd => (by cases hd), fun _ => ⟨_, rfl⟩⟩
      · exact ⟨fun d hd => (by injection hd with hd; rw [← hd]; rfl), fun h => (by cases h)⟩)
    (by
      intro p hp
      simp only [List.mem_cons, List.mem_singleton, List.not_mem_nil, or_false] at hp
      rcases hp with hp | hp | hp <;> rw [hp] <;> rfl)
    (by decide)).1

/-! ## The size trigger -/

theorem byteLen_append (a b : List Char) : byteLen (a ++ b) = byteLen a + byteLen b := by
  simp [byteLen, List.map_append, List.sum_append]

theorem byteLen_replicate_a (n : Nat) : byteLen (List.replicate n 'a') = n := by
  induction n with
  | zero => rfl
  | succ k ih =>
    have h1 : Char.utf8Size 'a' = 1 := by decide
    simp only [byteLen, List.replicate_succ, List.map_cons, List.sum_cons, h1] at ih ⊢
    omega

theorem flatMap_escapeChar_replicate_a (n : Nat) :
    (List.replicate n 'a').flatMap escapeChar = List.replicate n 'a' := by
  induction n with
  | zero => rfl
  | succ k ih =>
    have h1 : escapeChar 'a' = ['a'] := by decide
    simp only [List.replicate_succ, List.flatMap_cons, h1, ih, List.singleton_append]

theorem byteLen_paddedDoc (n : Nat) :
    byteLen (joinLines (batchLines [paddedDoc n])) = 61 + n := by
  have hq : quoteString (String.mk (List.replicate n 'a')) =
      '"' :: (List.replicate n 'a' ++ ['"']) := by
    have ht : (String.mk (List.replicate n 'a')).toList = List.replicate n 'a' := rfl
    simp only [quoteString, ht, flatMap_escapeChar_replicate_a]
  have hhead : byteLen (encodeActionHeader (paddedDoc n)) = 51 := by
    have h0 : encodeActionHeader (paddedDoc n) = encodeActionHeader (paddedDoc 0) := rfl
    rw [h0]
    decide
  have hf : byteLen (quoteString "f") = 3 := by decide
  have hc : ∀ ch : Char, ch.toNat < 128 → byteLen [ch] = 1 := by
    intro ch h
    have : ch.utf8Size = 1 := by
      have hle : ch.val ≤ 127 := by
        show ch.val.toNat ≤ 127
        have : ch.toNat = ch.val.toNat := rfl
        omega
      simp [Char.utf8Size, hle]
    simp [byteLen, this]
  have hsrc : encodeSource (paddedDoc n).source =
      ['\x7b'] ++ (quoteString "f" ++ ([':'] ++ (['"'] ++ (List.replicate n 'a' ++ ['"'])))) ++
        ['\x7d'] := by
    simp only [encodeSource, encodeValue, encodeMembers, sortMembers, insertMember,
      joinMembers, paddedDoc, hq]
    simp
  have hj : joinLines (batchLines [paddedDoc n]) =
      encodeActionHeader (paddedDoc n) ++ ['\n'] ++ encodeSource (paddedDoc n).source ++ ['\n'] := by
    simp [joinLines, batchLines]
  rw [hj, hsrc]
  simp only [byteLen_append, hhead, hf, byteLen_replicate_a,
    hc '\n' (by decide), hc '\x7b' (by decide), hc '\x7d' (by decide), hc ':' (by decide),
    hc '"' (by decide)]
  omega

theorem handleDoc_paddedHit (n : Nat) :
    handleDoc oneMiBConfig (paddedHit n) true = .ok (.accepted (paddedDoc n)) := rfl

/-- C9 (counterexample): with `bulk_size = 1`, a fresh worker that accepts a
document whose two lines take exactly 1048576 bytes keeps these bytes in its
main buffer and performs no effect at all: no `Bulk` call is made and the buffer
is not emptied. -/
theorem C9_no_flush_at_exact_threshold :
    ∃ st1, step oneMiBConfig "http://dst:9200" (.response ⟨200, "", some false⟩)
        WorkerState.init (.recv (paddedHit 1048515) true) = .running st1 ∧
      (byteLen st1.mainBuf : Int) = oneMiBConfig.BulkSizeInMB * 1024 * 1024 ∧
      st1.mainBuf ≠ [] ∧ st1.effects = [] := by
  have hlen := byteLen_paddedDoc 1048515
  have hstep := step_accepted oneMiBConfig "http://dst:9200" (.response ⟨200, "", some false⟩)
    WorkerState.init (paddedHit 1048515) (paddedDoc 1048515) rfl (handleDoc_paddedHit 1048515)
  have hmain : WorkerState.init.mainBuf = [] := rfl
  have hthr : oneMiBConfig.BulkSizeInMB = 1 := rfl
  have hwrap : bulkThreshold oneMiBConfig = 1048576 := by decide
  rw [hmain, List.nil_append, hlen, hwrap] at hstep
  rw [if_neg (by norm_num)] at hstep
  refine ⟨_, hstep, ?_, ?_, rfl⟩
  · show (byteLen (joinLines (batchLines [paddedDoc 1048515])) : Int) = _
    rw [hlen, hthr]; norm_num
  · show joinLines (batchLines [paddedDoc 1048515]) ≠ []
    intro h0
    rw [h0] at hlen
    simp [byteLen] at hlen

theorem wrapInt_of_fits (x : Int) (h1 : -9223372036854775808 ≤ x)
    (h2 : x < 9223372036854775808) : wrapInt x = x := by
  unfold wrapInt
  omega

theorem bulkThreshold_of_fits (c : Config) (h1 : -8796093022208 ≤ c.BulkSizeInMB)
    (h2 : c.BulkSizeInMB < 8796093022208) :
    bulkThreshold c = c.BulkSizeInMB * 1024 * 1024 := by
  unfold bulkThreshold
  rw [wrapInt_of_fits (c.BulkSizeInMB * 1024) (by omega) (by omega),
    wrapInt_of_fits (c.BulkSizeInMB * 1024 * 1024) (by omega) (by omega)]

/-- C9 (amended): after an accepted document has been appended, the worker
flushes exactly when the accumulated body is strictly larger than the value
that `BulkSizeInMB * 1024 * 1024` has in Go `int` arithmetic (64 bits, wrapping
around): then it makes one `Bulk` call posting the body followed by a newline
and, the server having answered, continues with an empty buffer; a body of at
most that value, in particular one exactly equal to it, is kept and no request
is made. The value is the exact product whenever `-2 ^ 43 ≤ BulkSizeInMB <
2 ^ 43`; for `BulkSizeInMB = 2 ^ 43` it is `-2 ^ 63`, so every body is flushed.
With 32-bit `int`s the value is the same whenever `-2048 ≤ BulkSizeInMB < 2048`. -/
theorem C9_size_trigger (c : Config) (host : String) (reply : HttpReply) (st : WorkerState)
    (docI : GoMap) (doc : Document) (hbuf : st.docBuf = [])
    (hacc : handleDoc c docI true = .ok (.accepted doc)) :
    ((byteLen (st.mainBuf ++ joinLines (batchLines [doc])) : Int) ≤ bulkThreshold c →
      step c host (.response reply) st (.recv docI true) =
        .running
          { st with
            mainBuf := st.mainBuf ++ joinLines (batchLines [doc])
            bulkItemSize := st.bulkItemSize + 1
            docCount := st.docCount + 1 }) ∧
    ((byteLen (st.mainBuf ++ joinLines (batchLines [doc])) : Int) > bulkThreshold c →
      step c host (.response reply) st (.recv docI true) =
        .running
          { st with
            mainBuf := []
            bulkItemSize := 0
            docCount := st.docCount + 1
            effects := st.effects ++
              (.http ⟨"POST", host ++ "/_bulk",
                  st.mainBuf ++ joinLines (batchLines [doc]) ++ ['\n']⟩ ::
                bulkReplyOutput reply) ++
              [.pbAdd (st.bulkItemSize + 1)] ++
              (if c.SleepSecondsAfterEachBulk > 0 then [.sleep c.SleepSecondsAfterEachBulk]
               else []) }) ∧
    (-8796093022208 ≤ c.BulkSizeInMB → c.BulkSizeInMB < 8796093022208 →
      bulkThreshold c = c.BulkSizeInMB * 1024 * 1024) ∧
    bulkThreshold { c with BulkSizeInMB := 8796093022208 } = -9223372036854775808 ∧
    (-2048 ≤ c.BulkSizeInMB → c.BulkSizeInMB < 2048 →
      bulkThreshold32 c = bulkThreshold c) := by
  have hstep := step_accepted c host (.response reply) st docI doc hbuf hacc
  refine ⟨?_, ?_, bulkThreshold_of_fits c, by simp only [bulkThreshold, wrapInt]; omega,
    fun h1 h2 => by
      rw [bulkThreshold_of_fits c (by omega) (by omega)]
      simp only [bulkThreshold32, wrapInt32]
      omega⟩
  · intro hle
    rw [hstep, if_neg (by omega)]
  · intro hgt
    have hne : st.mainBuf ++ joinLines (batchLines [doc]) ≠ [] := by
      simp [joinLines, batchLines]
    rw [hstep, if_pos hgt]
    simp only [cleanBuffer, Bulk_response host reply hne, Option.getD_some]

theorem C9_size_trigger_witness :
    step { plainConfig with BulkSizeInMB := 0 } "http://dst:9200"
        (.response ⟨200, "", some false⟩) WorkerState.init (.recv sampleHit true) =
      .running
        { WorkerState.init with
          mainBuf := []
          bulkItemSize := 0
          docCount := 1
          effects :=
            [.http ⟨"POST", "http://dst:9200/_bulk",
               ("\x7b\"index\":\x7b\"_index\":\"logs\",\"_type\":\"doc\",\"_id\":\"1\"\x7d\x7d\n" ++
                "\x7b\"name\":\"a\"\x7d\n\n").toList⟩,
             .pbAdd 1] } :=
  (C9_size_trigger { plainConfig with BulkSizeInMB := 0 } "http://dst:9200"
    ⟨200, "", some false⟩ WorkerState.init sampleHit
    ⟨"logs", "doc", "1", [("name", .str "a")], ""⟩ rfl rfl).2.1 (by decide)

/-! ## The buffer after `Bulk` -/

/-- On a non-empty buffer `Bulk` is `DoRequest` followed by `bulkAfterRequest`. -/
theorem Bulk_eq_bulkAfterRequest (host : String) (t : TransportResult) (ch : Char)
    (rest : List Char) :
    Bulk host (some (ch :: rest)) t =
      match DoRequest "POST" (host ++ "/_bulk") (ch :: rest ++ ['\n']) t with
      | .error msg => .error msg
      | .ok r => .ok (bulkAfterRequest (host ++ "/_bulk") (ch :: rest ++ ['\n']) r) := by
  have hpos : ¬ byteLen (ch :: rest) = 0 := fun h => by
    have := (byteLen_eq_zero_iff (ch :: rest)).1 h
    cases this
  simp only [Bulk, hpos, if_false]
  cases t with
  | failure err => rfl
  | response reply => rfl

/-- C11 (code defect): on a non-empty buffer, a transport failure makes
`DoRequest` panic, so `Bulk` does not return at all; and had `DoRequest`
returned the error, as the test `err != nil` of `Bulk` expects, `Bulk` would
return at line 100 before `data.Reset()`, leaving the batch and the appended
newline in the buffer. Only when a reply arrives (errors or not, decodable or
not) is the buffer empty on return. -/
theorem C11_buffer_not_reset_on_transport_error (host : String) (ch : Char)
    (rest : List Char) (err : String) (reply : HttpReply) :
    Bulk host (some (ch :: rest)) (.failure err) = .error err ∧
    (bulkAfterRequest (host ++ "/_bulk") (ch :: rest ++ ['\n']) (reply, some err)).1 =
      some (ch :: rest ++ ['\n']) ∧
    (∃ eff, Bulk host (some (ch :: rest)) (.response reply) = .ok (some [], eff)) := by
  refine ⟨?_, rfl, ?_⟩
  · rw [Bulk_eq_bulkAfterRequest]; rfl
  · exact ⟨_, Bulk_response host reply (by simp)⟩

/-! ## Identifier and `_type` rename of accepted documents -/

/-- C16: for every accepted document the `Id` placed in the action header is the
envelope's own `_id` when `RegenerateID` is false and the empty string when it is
true; an empty `Id` is left out of the encoded header (`omitempty`), which then
consists of the `_index`, `_type` and `routing` members only. -/
theorem C16_header_id (c : Config) (docI : GoMap) (isOpen : Bool) (doc : Document)
    (h : handleDoc c docI isOpen = .ok (.accepted doc)) :
    ∃ id, docI.get "_id" = some (.str id) ∧
      doc.Id = (if c.RegenerateID then "" else id) ∧
      (c.RegenerateID = true →
        encodeDocument doc =
          '\x7b' :: (joinElems (omitemptyMember "_index" doc.Index ++
            omitemptyMember "_type" doc.Type_ ++ omitemptyMember "routing" doc.Routing) ++
            ['\x7d'])) := by
  obtain ⟨srcIndex, srcType, source, id, source1, -, -, -, -, -, hId, -, -, hd, -, -⟩ :=
    handleDoc_accepted h
  refine ⟨id, GoMap.get_of_getD_str hId, by rw [hd], ?_⟩
  intro hr
  have hid : doc.Id = "" := by rw [hd]; simp [hr]
  simp [encodeDocument, hid, omitemptyMember]

theorem C16_header_id_witness :
    ∃ id, sampleHit.get "_id" = some (.str id) ∧
      ("" : String) =
        (if ({ plainConfig with RegenerateID := true } : Config).RegenerateID then "" else id) ∧
      (({ plainConfig with RegenerateID := true } : Config).RegenerateID = true →
        encodeDocument ⟨"logs", "doc", "", [("name", .str "a")], ""⟩ =
          '\x7b' :: (joinElems (omitemptyMember "_index" "logs" ++
            omitemptyMember "_type" "doc" ++ omitemptyMember "routing" "") ++ ['\x7d'])) :=
  C16_header_id { plainConfig with RegenerateID := true } sampleHit true
    ⟨"logs", "doc", "", [("name", .str "a")], ""⟩ rfl

theorem get_applyPair_later (docType : String) (source : GoMap) {new : String} {v : GoValue}
    (p : String × String) (hp : p.2 ≠ new ∧ (p.1 = "_type" ∨ p.1 ≠ new))
    (h : source.get new = some v) : (applyPair docType source p).get new = some v := by
  obtain ⟨hp2, hp1⟩ := hp
  have hn2 : new ≠ p.2 := fun e => hp2 e.symm
  by_cases ht : p.1 = "_type"
  · simp only [applyPair, ht, if_true]
    rw [GoMap.get_set_ne _ _ hn2]; exact h
  · have hne : new ≠ p.1 := by
      rcases hp1 with h1 | h1
      · exact absurd h1 ht
      · exact fun e => h1 e.symm
    simp only [applyPair, ht, if_false]
    rw [GoMap.get_delete_ne _ hne, GoMap.get_set_ne _ _ hn2]; exact h

theorem get_foldl_later (docType : String) {new : String} {v : GoValue}
    (post : List (String × String)) :
    ∀ (source : GoMap), (∀ p ∈ post, p.2 ≠ new ∧ (p.1 = "_type" ∨ p.1 ≠ new)) →
      source.get new = some v → (post.foldl (applyPair docType) source).get new = some v := by
  induction post with
  | nil => intro source _ h; exact h
  | cons p post ih =>
    intro source hall h
    simp only [List.foldl_cons]
    exact ih _ (fun q hq => hall q (List.mem_cons_of_mem _ hq))
      (get_applyPair_later docType source p (hall p (List.mem_cons_self _ _)) h)

/-- C17: the rename step is run with the envelope's own `_type` (not with the
configured type override): a pair `_type:new` stores that string under `new` in
the payload, and it is still there in the accepted document when no later pair
of the list writes or renames `new`. In the example of the specification
(`_type` `doc`, payload `name = a`, rename list `_type:typeField,name:myname`,
type override `entry`) the header type is `entry` and the payload holds
`myname = a` and `typeField = doc` and no `name`. -/
theorem C17_type_rename (c : Config) (docI : GoMap) (isOpen : Bool) (doc : Document)
    (pre post : List (String × String)) (new : String)
    (h : handleDoc c docI isOpen = .ok (.accepted doc))
    (hpairs : (Split ',' c.RenameFields.toList).map entryPair =
      (pre ++ ("_type", new) :: post).map some)
    (hlater : ∀ p ∈ post, p.2 ≠ new ∧ (p.1 = "_type" ∨ p.1 ≠ new)) :
    ∃ srcType, docI.get "_type" = some (.str srcType) ∧
      (∀ source : GoMap,
        (applyPair srcType source ("_type", new)).get new = some (.str srcType)) ∧
      doc.source.get new = some (.str srcType) ∧
      handleDoc
          { plainConfig with
            RenameFields := "_type:typeField,name:myname", OverrideTypeName := "entry" }
          sampleHit true =
        .ok (.accepted
          ⟨"logs", "entry", "1", [("myname", .str "a"), ("typeField", .str "doc")], ""⟩) := by
  obtain ⟨srcIndex, srcType, source, id, source1, -, -, -, hT, -, -, hR, -, hd, -, -⟩ :=
    handleDoc_accepted h
  have hne : c.RenameFields ≠ "" := by
    intro h0
    rw [h0] at hpairs
    cases pre <;> simp [Split, entryPair] at hpairs
  have hwrite : ∀ source : GoMap,
      (applyPair srcType source ("_type", new)).get new = some (.str srcType) := by
    intro s
    simp only [applyPair, if_true]
    exact GoMap.get_set_self _ _ _
  refine ⟨srcType, GoMap.get_of_getD_str hT, hwrite, ?_, rfl⟩
  simp only [renameFields, hne, ne_eq, not_false_eq_true, if_true] at hR
  rw [renameLoop_eq_foldl srcType _ _ source hpairs] at hR
  injection hR with hR
  rw [hd]
  simp only
  rw [← hR, List.foldl_append, List.foldl_cons]
  exact get_foldl_later srcType post _ hlater (hwrite _)

theorem C17_type_rename_witness :
    ∃ srcType, sampleHit.get "_type" = some (.str srcType) ∧
      (∀ source : GoMap,
        (applyPair srcType source ("_type", "typeField")).get "typeField" =
          some (.str srcType)) ∧
      GoMap.get [("myname", .str "a"), ("typeField", .str "doc")] "typeField" =
        some (.str srcType) ∧
      handleDoc
          { plainConfig with
            RenameFields := "_type:typeField,name:myname", OverrideTypeName := "entry" }
          sampleHit true =
        .ok (.accepted
          ⟨"logs", "entry", "1", [("myname", .str "a"), ("typeField", .str "doc")], ""⟩) :=
  C17_type_rename
    { plainConfig with RenameFields := "_type:typeField,name:myname", OverrideTypeName := "entry" }
    sampleHit true ⟨"logs", "entry", "1", [("myname", .str "a"), ("typeField", .str "doc")], ""⟩
    [] [("name", "myname")] "typeField" rfl (by decide) (by decide)

/-! ## Settings forced by the preparation loop -/

theorem GoMap.get_of_getD_obj {m : GoMap} {k : String} {s : GoMap}
    (h : GoMap.getD m k = .obj s) : GoMap.get m k = some (.obj s) := by
  unfold GoMap.getD at h
  cases hg : GoMap.get m k with
  | none => rw [hg] at h; simp at h
  | some v => rw [hg] at h; simpa using h

theorem indexSetting_updateIndexMap {temp temp1 : GoMap} {f : GoMap → GoMap}
    (h : updateIndexMap temp f = .ok temp1) :
    ∃ index, (∀ key, indexSetting temp key = index.get key) ∧
      (∀ key, indexSetting temp1 key = (f index).get key) := by
  unfold updateIndexMap at h
  cases hs : assertMap (temp.getD "settings") with
  | error msg => rw [hs] at h; cases h
  | ok settings =>
    rw [hs] at h
    simp only at h
    cases hi : assertMap (settings.getD "index") with
    | error msg => rw [hi] at h; cases h
    | ok index =>
      rw [hi] at h
      injection h with h
      have hs1 := GoMap.get_of_getD_obj (assertMap_ok hs)
      have hi1 := GoMap.get_of_getD_obj (assertMap_ok hi)
      refine ⟨index, fun key => ?_, fun key => ?_⟩
      · simp only [indexSetting, hs1, hi1]
      · rw [← h]
        simp only [indexSetting, GoMap.get_set_self]

theorem settingsCalls_append (a b : List MainAction) :
    settingsCalls (a ++ b) = settingsCalls a ++ settingsCalls b := by
  induction a with
  | nil => rfl
  | cons x rest ih => cases x <;> simp [settingsCalls, ih]

theorem targetLookup_no_settings_call {c : Config} {T : Option GoMap} {name : String}
    {temp0 : GoMap} {ex : Bool} {acts0 : List MainAction}
    (h : targetLookup c T name = .ok (temp0, ex, acts0)) : settingsCalls acts0 = [] := by
  unfold targetLookup at h
  split at h
  · injection h with h; cases h; rfl
  · split at h
    · split at h
      · cases h
      · split at h <;> (injection h with h; cases h; rfl)
    · split at h <;> (injection h with h; cases h; rfl)

/-- The three settings every prepared index is created or updated with. -/
theorem forced_of_updates {c : Config} {temp2 temp3 temp4 : GoMap}
    (h3 : updateIndexMap temp2 (fun index =>
      ((index.set "refresh_interval" (.int (-1))).set "number_of_replicas" (.int 0)).delete
        "number_of_shards") = .ok temp3)
    (h4 : (if c.ShardsCount > 0 then
        updateIndexMap temp3 (fun index => index.set "number_of_shards" (.int c.ShardsCount))
      else .ok temp3) = .ok temp4) :
    indexSetting temp4 "refresh_interval" = some (.int (-1)) ∧
    indexSetting temp4 "number_of_replicas" = some (.int 0) ∧
    indexSetting temp4 "number_of_shards" =
      (if c.ShardsCount > 0 then some (.int c.ShardsCount) else none) := by
  obtain ⟨index, -, h3b⟩ := indexSetting_updateIndexMap h3
  have e1 : indexSetting temp3 "refresh_interval" = some (.int (-1)) := by
    rw [h3b, GoMap.get_delete_ne _ (by decide), GoMap.get_set_ne _ _ (by decide),
      GoMap.get_set_self]
  have e2 : indexSetting temp3 "number_of_replicas" = some (.int 0) := by
    rw [h3b, GoMap.get_delete_ne _ (by decide), GoMap.get_set_self]
  have e3 : indexSetting temp3 "number_of_shards" = none := by
    rw [h3b, GoMap.get_delete_self]
  by_cases hc : c.ShardsCount > 0
  · rw [if_pos hc] at h4
    obtain ⟨index3, h4a, h4b⟩ := indexSetting_updateIndexMap h4
    refine ⟨?_, ?_, ?_⟩
    · rw [h4b, GoMap.get_set_ne _ _ (by decide), ← h4a, e1]
    · rw [h4b, GoMap.get_set_ne _ _ (by decide), ← h4a, e2]
    · rw [h4b, GoMap.get_set_self, if_pos hc]
  · rw [if_neg hc] at h4
    injection h4 with h4
    rw [← h4, if_neg hc]
    exact ⟨e1, e2, e3⟩

/-- What a completed iteration of the settings loop did, statement by statement. -/
theorem prepareIndex_inv {c : Config} {T : Option GoMap} {st st1 : PrepareState}
    {name : String} (h : prepareIndex c T st name = .ok st1) :
    ∃ temp0 ex acts0 temp1 temp2 interval temp3 temp4,
      targetLookup c T name = .ok (temp0, ex, acts0) ∧
      (if c.CopyIndexSettings then assertMap (st.sourceIndexSettings.getD name)
        else .ok temp0) = .ok temp1 ∧
      ensureSettingsIndex temp1 = .ok temp2 ∧
      readRefreshInterval
        (if c.CopyIndexSettings then st.sourceIndexSettings.set name (.obj temp2)
          else st.sourceIndexSettings) name = .ok interval ∧
      updateIndexMap temp2 (fun index =>
        ((index.set "refresh_interval" (.int (-1))).set "number_of_replicas" (.int 0)).delete
          "number_of_shards") = .ok temp3 ∧
      (if c.ShardsCount > 0 then
          updateIndexMap temp3 (fun index => index.set "number_of_shards" (.int c.ShardsCount))
        else .ok temp3) = .ok temp4 ∧
      st1.actions = st.actions ++ acts0 ++
        [if ex then .updateIndexSettings name temp4 else .createIndex name temp4] ∧
      st1.sourceIndexRefreshSettings = st.sourceIndexRefreshSettings.set name interval ∧
      st1.sourceIndexSettings =
        (if c.CopyIndexSettings then
          (st.sourceIndexSettings.set name (.obj temp2)).set name (.obj temp4)
        else st.sourceIndexSettings) := by
  unfold prepareIndex at h
  cases h0 : targetLookup c T name with
  | error msg => rw [h0] at h; cases h
  | ok r0 =>
    obtain ⟨temp0, ex, acts0⟩ := r0
    rw [h0] at h
    simp only [bind, Except.bind, pure, Except.pure] at h
    by_cases hcopy : c.CopyIndexSettings = true
    · simp only [hcopy, if_true] at h ⊢
      cases h1 : assertMap (st.sourceIndexSettings.getD name) with
      | error msg => rw [h1] at h; cases h
      | ok temp1 =>
        rw [h1] at h; simp only at h
        cases h2 : ensureSettingsIndex temp1 with
        | error msg => rw [h2] at h; cases h
        | ok temp2 =>
          rw [h2] at h; simp only at h
          cases hr : readRefreshInterval (st.sourceIndexSettings.set name (.obj temp2)) name with
          | error msg => rw [hr] at h; cases h
          | ok interval =>
            rw [hr] at h; simp only at h
            cases h3 : updateIndexMap temp2 (fun index =>
                ((index.set "refresh_interval" (.int (-1))).set "number_of_replicas"
                  (.int 0)).delete "number_of_shards") with
            | error msg => rw [h3] at h; cases h
            | ok temp3 =>
              rw [h3] at h; simp only at h
              by_cases hc : c.ShardsCount > 0
              · simp only [hc, if_true] at h ⊢
                cases h4 : updateIndexMap temp3
                    (fun index => index.set "number_of_shards" (.int c.ShardsCount)) with
                | error msg => rw [h4] at h; cases h
                | ok temp4 =>
                  rw [h4] at h; simp only at h
                  injection h with h
                  exact ⟨temp0, ex, acts0, temp1, temp2, interval, temp3, temp4, rfl, rfl, h2,
                    hr, h3, h4, by rw [← h], by rw [← h], by rw [← h]⟩
              · simp only [hc, if_false] at h ⊢
                injection h with h
                exact ⟨temp0, ex, acts0, temp1, temp2, interval, temp3, temp3, rfl, rfl, h2,
                  hr, h3, rfl, by rw [← h], by rw [← h], by rw [← h]⟩
    · have hcopy1 : c.CopyIndexSettings = false := by simpa using hcopy
      simp only [hcopy1, Bool.false_eq_true, if_false] at h ⊢
      cases h2 : ensureSettingsIndex temp0 with
      | error msg => rw [h2] at h; cases h
      | ok temp2 =>
        rw [h2] at h; simp only at h
        cases hr : readRefreshInterval st.sourceIndexSettings name with
        | error msg => rw [hr] at h; cases h
        | ok interval =>
          rw [hr] at h; simp only at h
          cases h3 : updateIndexMap temp2 (fun index =>
              ((index.set "refresh_interval" (.int (-1))).set "number_of_replicas"
                (.int 0)).delete "number_of_shards") with
          | error msg => rw [h3] at h; cases h
          | ok temp3 =>
            rw [h3] at h; simp only at h
            by_cases hc : c.ShardsCount > 0
            · simp only [hc, if_true] at h ⊢
              cases h4 : updateIndexMap temp3
                  (fun index => index.set "number_of_shards" (.int c.ShardsCount)) with
              | error msg => rw [h4] at h; cases h
              | ok temp4 =>
                rw [h4] at h; simp only at h
                injection h with h
                exact ⟨temp0, ex, acts0, temp0, temp2, interval, temp3, temp4, rfl, rfl, h2,
                  rfl, h3, h4, by rw [← h], by rw [← h], by rw [← h]⟩
            · simp only [hc, if_false] at h ⊢
              injection h with h
              exact ⟨temp0, ex, acts0, temp0, temp2, interval, temp3, temp3, rfl, rfl, h2,
                rfl, h3, rfl, by rw [← h], by rw [← h], by rw [← h]⟩

theorem prepareLoop_calls (c : Config) (T : Option GoMap) (names : List String) :
    ∀ (st st1 : PrepareState), prepareLoop c T st names = .ok st1 →
      ∃ calls : List (String × GoMap),
        settingsCalls st1.actions = settingsCalls st.actions ++ calls ∧
        calls.map Prod.fst = names ∧
        ∀ p ∈ calls,
          indexSetting p.2 "refresh_interval" = some (.int (-1)) ∧
          indexSetting p.2 "number_of_replicas" = some (.int 0) ∧
          indexSetting p.2 "number_of_shards" =
            (if c.ShardsCount > 0 then some (.int c.ShardsCount) else none) := by
  induction names with
  | nil =>
    intro st st1 h
    simp only [prepareLoop] at h
    injection h with h
    exact ⟨[], by rw [h]; simp, rfl, fun p hp => by cases hp⟩
  | cons name names ih =>
    intro st st1 h
    simp only [prepareLoop] at h
    cases hp : prepareIndex c T st name with
    | error msg => rw [hp] at h; cases h
    | ok st2 =>
      rw [hp] at h; simp only at h
      obtain ⟨temp0, ex, acts0, temp1, temp2, interval, temp3, temp4, h0, -, -, -, h3, h4,
        hacts, -, -⟩ := prepareIndex_inv hp
      obtain ⟨calls, hc1, hc2, hc3⟩ := ih st2 st1 h
      have hcall : settingsCalls st2.actions = settingsCalls st.actions ++ [(name, temp4)] := by
        rw [hacts, settingsCalls_append, settingsCalls_append,
          targetLookup_no_settings_call h0]
        cases ex <;> simp [settingsCalls]
      refine ⟨(name, temp4) :: calls, ?_, ?_, ?_⟩
      · rw [hc1, hcall]; simp
      · simp [hc2]
      · intro p hp
        rcases List.mem_cons.1 hp with e | e
        · rw [e]; exact forced_of_updates h3 h4
        · exact hc3 p e

/-- C12: when the settings-preparation loop runs through the index names
`names`, it makes exactly one `CreateIndex` or `UpdateIndexSettings` call per
name, in order, and the settings object of every such call has
`settings.index.refresh_interval = -1`, `settings.index.number_of_replicas = 0`
and `settings.index.number_of_shards` equal to `ShardsCount` when
`ShardsCount > 0` and absent otherwise, whatever the source settings and the
existing destination settings contain. -/
theorem C12_forced_settings (c : Config) (targetIndexSettings : Option GoMap)
    (sourceIndexSettings : GoMap) (names : List String) (st1 : PrepareState)
    (h : prepareLoop c targetIndexSettings
      { actions := [], sourceIndexSettings := sourceIndexSettings,
        sourceIndexRefreshSettings := [] } names = .ok st1) :
    (settingsCalls st1.actions).map Prod.fst = names ∧
    ∀ p ∈ settingsCalls st1.actions,
      indexSetting p.2 "refresh_interval" = some (.int (-1)) ∧
      indexSetting p.2 "number_of_replicas" = some (.int 0) ∧
      indexSetting p.2 "number_of_shards" =
        (if c.ShardsCount > 0 then some (.int c.ShardsCount) else none) := by
  obtain ⟨calls, hc1, hc2, hc3⟩ := prepareLoop_calls c targetIndexSettings names _ _ h
  have e : settingsCalls st1.actions = calls := by rw [hc1]; rfl
  rw [e]
  exact ⟨hc2, hc3⟩

theorem C12_forced_settings_witness :
    (settingsCalls [MainAction.createIndex "logs"
        [("settings", .obj [("index", .obj [("number_of_shards", .int 3),
          ("number_of_replicas", .int 0), ("refresh_interval", .int (-1))])])]]).map Prod.fst =
      ["logs"] ∧
    ∀ p ∈ settingsCalls [MainAction.createIndex "logs"
        [("settings", .obj [("index", .obj [("number_of_shards", .int 3),
          ("number_of_replicas", .int 0), ("refresh_interval", .int (-1))])])]],
      indexSetting p.2 "refresh_interval" = some (.int (-1)) ∧
      indexSetting p.2 "number_of_replicas" = some (.int 0) ∧
      indexSetting p.2 "number_of_shards" =
        (if shardOverrideConfig.ShardsCount > 0 then some (.int shardOverrideConfig.ShardsCount)
          else none) :=
  C12_forced_settings shardOverrideConfig none logsSourceSettings ["logs"]
    ⟨[.createIndex "logs"
        [("settings", .obj [("index", .obj [("number_of_shards", .int 3),
          ("number_of_replicas", .int 0), ("refresh_interval", .int (-1))])])]],
      [("logs", .obj [("settings", .obj [("index", .obj [("number_of_shards", .int 3),
          ("number_of_replicas", .int 0), ("refresh_interval", .int (-1))])])])],
      [("logs", .str "1s")]⟩ rfl

/-! ## The interval written by the Restore step -/

theorem GoMap.getD_set_ne (m : GoMap) {k k1 : String} (v : GoValue) (h : k1 ≠ k) :
    GoMap.getD (GoMap.set m k v) k1 = GoMap.getD m k1 := by
  unfold GoMap.getD
  rw [GoMap.get_set_ne m v h]

theorem GoMap.getD_set_self (m : GoMap) (k : String) (v : GoValue) :
    GoMap.getD (GoMap.set m k v) k = v := by
  unfold GoMap.getD
  rw [GoMap.get_set_self]; rfl

theorem readRefreshInterval_congr {S S1 : GoMap} {name : String}
    (h : S1.getD name = S.getD name) :
    readRefreshInterval S1 name = readRefreshInterval S name := by
  unfold readRefreshInterval
  rw [h]

theorem readRefreshInterval_value {S m : GoMap} {name : String} {interval : GoValue}
    (hm : S.getD name = .obj m) (h : readRefreshInterval S name = .ok interval) :
    interval = (indexSetting m "refresh_interval").getD .nil := by
  unfold readRefreshInterval at h
  rw [hm] at h
  have ha : assertMap (.obj m) = .ok m := rfl
  rw [ha] at h
  simp only at h
  cases hs : assertMap (m.getD "settings") with
  | error msg => rw [hs] at h; cases h
  | ok settings =>
    rw [hs] at h; simp only at h
    cases hi : assertMap (settings.getD "index") with
    | error msg => rw [hi] at h; cases h
    | ok index =>
      rw [hi] at h; simp only at h
      injection h with h
      have hs1 := GoMap.get_of_getD_obj (assertMap_ok hs)
      have hi1 := GoMap.get_of_getD_obj (assertMap_ok hi)
      simp only [indexSetting, hs1, hi1]
      rw [← h]; rfl

theorem tempBeforeForce_congr (c : Config) (T : Option GoMap) {S S1 : GoMap} {name : String}
    (h : S1.getD name = S.getD name) :
    tempBeforeForce c T S1 name = tempBeforeForce c T S name := by
  unfold tempBeforeForce
  rw [h]

/-- The restore step never fails: it makes one settings update per recorded
index, carrying only the recorded interval. -/
theorem recoveryIndexSettings_eq (c : Config) (m : GoMap) :
    recoveryIndexSettings c m =
      .ok (m.flatMap fun p =>
        RestoreCall.updateIndexSettings p.1
          [("settings", .obj [("index", .obj [("refresh_interval", p.2)])])] ::
        (if c.Refresh then [RestoreCall.refresh p.1] else [])) := by
  induction m with
  | nil => rfl
  | cons p rest ih =>
    obtain ⟨name, interval⟩ := p
    have hu : updateIndexMap getEmptyIndexSettings
        (fun index => index.set "refresh_interval" interval) =
        .ok [("settings", .obj [("index", .obj [("refresh_interval", interval)])])] := rfl
    simp only [recoveryIndexSettings, hu, ih, List.flatMap_cons, List.cons_append]

/-- What one completed iteration of the settings loop records for its index. -/
theorem prepareIndex_records {c : Config} {T : Option GoMap} {st st1 : PrepareState}
    {name : String} (h : prepareIndex c T st name = .ok st1) :
    (∀ n, n ≠ name → st1.sourceIndexSettings.getD n = st.sourceIndexSettings.getD n) ∧
    (∀ n, n ≠ name →
      st1.sourceIndexRefreshSettings.get n = st.sourceIndexRefreshSettings.get n) ∧
    ∃ interval, st1.sourceIndexRefreshSettings.get name = some interval ∧
      (c.CopyIndexSettings = true →
        ∃ temp, tempBeforeForce c T st.sourceIndexSettings name = .ok temp ∧
          interval = (indexSetting temp "refresh_interval").getD .nil) ∧
      (c.CopyIndexSettings = false →
        readRefreshInterval st.sourceIndexSettings name = .ok interval) := by
  obtain ⟨temp0, ex, acts0, temp1, temp2, interval, temp3, temp4, h0, h1, h2, hr, -, -, -,
    hrec, hsrc⟩ := prepareIndex_inv h
  refine ⟨?_, ?_, interval, ?_, ?_, ?_⟩
  · intro n hn
    rw [hsrc]
    by_cases hcopy : c.CopyIndexSettings = true
    · rw [if_pos hcopy, GoMap.getD_set_ne _ _ hn, GoMap.getD_set_ne _ _ hn]
    · rw [if_neg hcopy]
  · intro n hn
    rw [hrec, GoMap.get_set_ne _ _ hn]
  · rw [hrec, GoMap.get_set_self]
  · intro hcopy
    rw [if_pos hcopy] at hr h1
    refine ⟨temp2, ?_, readRefreshInterval_value (GoMap.getD_set_self _ _ _) hr⟩
    simp only [tempBeforeForce, h0, hcopy, if_true, h1, h2]
  · intro hcopy
    rw [hcopy] at hr
    simpa using hr

theorem prepareLoop_records (c : Config) (T : Option GoMap) (names : List String) :
    ∀ (st st1 : PrepareState), prepareLoop c T st names = .ok st1 → names.Nodup →
      (∀ n, n ∉ names →
        st1.sourceIndexRefreshSettings.get n = st.sourceIndexRefreshSettings.get n) ∧
      ∀ name ∈ names, ∃ interval, st1.sourceIndexRefreshSettings.get name = some interval ∧
        (c.CopyIndexSettings = true →
          ∃ temp, tempBeforeForce c T st.sourceIndexSettings name = .ok temp ∧
            interval = (indexSetting temp "refresh_interval").getD .nil) ∧
        (c.CopyIndexSettings = false →
          readRefreshInterval st.sourceIndexSettings name = .ok interval) := by
  induction names with
  | nil =>
    intro st st1 h _
    simp only [prepareLoop] at h
    injection h with h
    exact ⟨fun n _ => by rw [h], fun name hn => by cases hn⟩
  | cons name names ih =>
    intro st st1 h hnd
    simp only [prepareLoop] at h
    cases hp : prepareIndex c T st name with
    | error msg => rw [hp] at h; cases h
    | ok st2 =>
      rw [hp] at h; simp only at h
      obtain ⟨hS, hR, interval, hget, hc, hnc⟩ := prepareIndex_records hp
      obtain ⟨hnot, hin⟩ := List.nodup_cons.1 hnd
      obtain ⟨ihR, ihN⟩ := ih st2 st1 h hin
      refine ⟨?_, ?_⟩
      · intro n hn
        have hn1 : n ≠ name := fun e => hn (e ▸ List.mem_cons_self _ _)
        have hn2 : n ∉ names := fun e => hn (List.mem_cons_of_mem _ e)
        rw [ihR n hn2, hR n hn1]
      · intro n hn
        rcases List.mem_cons.1 hn with e | e
        · subst e
          exact ⟨interval, by rw [ihR n hnot, hget], hc, hnc⟩
        · have hne : n ≠ name := fun e1 => hnot (e1 ▸ e)
          obtain ⟨i2, g2, c2, n2⟩ := ihN n e
          refine ⟨i2, g2, ?_, ?_⟩
          · intro hcopy
            obtain ⟨temp, ht, hi⟩ := c2 hcopy
            exact ⟨temp, by rw [← tempBeforeForce_congr c T (hS n hne)]; exact ht, hi⟩
          · intro hcopy
            rw [← readRefreshInterval_congr (hS n hne)]
            exact n2 hcopy

/-- C13 (counterexample): without `copy_settings`, with a shard override, an
existing destination index `logs` (refresh interval `30s`) is reused and
updated; the object whose interval is forced to -1 held `30s`, yet the value
recorded for the restore, and written by it, is the source index's `1s`. -/
theorem C13_restore_not_destination_value :
    ∃ st1 temp,
      prepareLoop shardsOnlyConfig (some logsTargetSettings)
        { actions := [], sourceIndexSettings := logsSourceSettings,
          sourceIndexRefreshSettings := [] } ["logs"] = .ok st1 ∧
      (settingsCalls st1.actions).map Prod.fst = ["logs"] ∧
      (∃ s, st1.actions = [.updateIndexSettings "logs" s]) ∧
      tempBeforeForce shardsOnlyConfig (some logsTargetSettings) logsSourceSettings "logs" =
        .ok temp ∧
      indexSetting temp "refresh_interval" = some (.str "30s") ∧
      recoveryIndexSettings shardsOnlyConfig st1.sourceIndexRefreshSettings =
        .ok [.updateIndexSettings "logs"
          [("settings", .obj [("index", .obj [("refresh_interval", .str "1s")])])]] :=
  ⟨_, _, rfl, rfl, ⟨_, rfl⟩, rfl, rfl, rfl⟩

/-- C13 (amended): for every index the settings loop prepared, the restore step
issues one `UpdateIndexSettings` whose only setting is the `refresh_interval`
recorded for that index (followed by `Refresh` when configured), and the
recorded value is the one read from the settings of the source index: with
`copy_settings` this is the value held by the settings object of the index just
before it was forced to -1; without `copy_settings` it is the source index's
value even when the settings object being forced is the destination's own. The
zero value `nil` is written when the source has no `refresh_interval`. -/
theorem C13_restore_interval (c : Config) (targetIndexSettings : Option GoMap)
    (sourceIndexSettings : GoMap) (names : List String) (st1 : PrepareState)
    (hnames : names.Nodup)
    (h : prepareLoop c targetIndexSettings
      { actions := [], sourceIndexSettings := sourceIndexSettings,
        sourceIndexRefreshSettings := [] } names = .ok st1) :
    recoveryIndexSettings c st1.sourceIndexRefreshSettings =
      .ok (st1.sourceIndexRefreshSettings.flatMap fun p =>
        RestoreCall.updateIndexSettings p.1
          [("settings", .obj [("index", .obj [("refresh_interval", p.2)])])] ::
        (if c.Refresh then [RestoreCall.refresh p.1] else [])) ∧
    (∀ n, n ∉ names → st1.sourceIndexRefreshSettings.get n = none) ∧
    ∀ name ∈ names, ∃ interval,
      st1.sourceIndexRefreshSettings.get name = some interval ∧
      indexSetting [("settings", .obj [("index", .obj [("refresh_interval", interval)])])]
        "refresh_interval" = some interval ∧
      (c.CopyIndexSettings = true →
        ∃ temp, tempBeforeForce c targetIndexSettings sourceIndexSettings name = .ok temp ∧
          interval = (indexSetting temp "refresh_interval").getD .nil) ∧
      (c.CopyIndexSettings = false →
        readRefreshInterval sourceIndexSettings name = .ok interval) := by
  obtain ⟨hR, hN⟩ := prepareLoop_records c targetIndexSettings names _ _ h hnames
  refine ⟨recoveryIndexSettings_eq c _, fun n hn => by rw [hR n hn]; rfl, ?_⟩
  intro name hn
  obtain ⟨interval, hg, hc, hnc⟩ := hN name hn
  exact ⟨interval, hg, rfl, hc, hnc⟩

theorem C13_restore_interval_witness :
    recoveryIndexSettings shardsOnlyConfig preparedLogsState.sourceIndexRefreshSettings =
      .ok (preparedLogsState.sourceIndexRefreshSettings.flatMap fun p =>
        RestoreCall.updateIndexSettings p.1
          [("settings", .obj [("index", .obj [("refresh_interval", p.2)])])] ::
        (if shardsOnlyConfig.Refresh then [RestoreCall.refresh p.1] else [])) ∧
    (∀ n, n ∉ ["logs"] → preparedLogsState.sourceIndexRefreshSettings.get n = none) ∧
    ∀ name ∈ ["logs"], ∃ interval,
      preparedLogsState.sourceIndexRefreshSettings.get name = some interval ∧
      indexSetting [("settings", .obj [("index", .obj [("refresh_interval", interval)])])]
        "refresh_interval" = some interval ∧
      (shardsOnlyConfig.CopyIndexSettings = true →
        ∃ temp, tempBeforeForce shardsOnlyConfig (some logsTargetSettings) logsSourceSettings
            name = .ok temp ∧
          interval = (indexSetting temp "refresh_interval").getD .nil) ∧
      (shardsOnlyConfig.CopyIndexSettings = false →
        readRefreshInterval logsSourceSettings name = .ok interval) :=
  C13_restore_interval shardsOnlyConfig (some logsTargetSettings) logsSourceSettings ["logs"]
    preparedLogsState (by decide) rfl

/-! ## Requests issued by `UpdateIndexSettings` -/

theorem GoMap.getD_of_get {m : GoMap} {k : String} {v : GoValue}
    (h : GoMap.get m k = some v) : GoMap.getD m k = v := by
  unfold GoMap.getD; rw [h]; rfl

theorem updateIndexMap_of_get {temp s index : GoMap} (f : GoMap → GoMap)
    (hs : temp.get "settings" = some (.obj s)) (hi : s.get "index" = some (.obj index)) :
    updateIndexMap temp f =
      .ok (temp.set "settings" (.obj (s.set "index" (.obj (f index))))) := by
  unfold updateIndexMap
  rw [GoMap.getD_of_get hs]
  have ha : assertMap (.obj s) = .ok s := rfl
  rw [ha]
  simp only
  rw [GoMap.getD_of_get hi]
  rfl

theorem get_cleanIndex {index : GoMap} {k : String}
    (hk : k ∉ ["creation_date", "uuid", "version", "provided_name"]) :
    (cleanIndex index).get k = index.get k := by
  simp only [List.mem_cons, List.mem_singleton, not_or, List.not_mem_nil, not_false_eq_true,
    and_true] at hk
  obtain ⟨h1, h2, h3, h4⟩ := hk
  unfold cleanIndex
  rw [GoMap.get_delete_ne _ h4, GoMap.get_delete_ne _ h3, GoMap.get_delete_ne _ h2,
    GoMap.get_delete_ne _ h1]

/-- C14 (counterexample): the settings hold an `analysis` block and the
destination answers the `PUT` of that block with status 400: the call issues
the `_close` request and that `PUT` only, and panics; no `_open` request and no
second `PUT` are issued. -/
theorem C14_no_open_after_rejected_analysis :
    indexSetting analysisSettings "analysis" = some (.obj [("analyzer", .obj [])]) ∧
    UpdateIndexSettings "http://dst:9200" "logs" analysisSettings
        (.response ⟨400, "illegal_argument_exception", none⟩)
        (.response ⟨200, "ok", none⟩) =
      ⟨[⟨"POST", "http://dst:9200/logs/_close", []⟩,
        ⟨"PUT", "http://dst:9200/logs/_settings",
          "\x7b\"settings\":\x7b\"index\":\x7b\"analysis\":\x7b\"analyzer\":\x7b\x7d\x7d\x7d\x7d\x7d\n".toList⟩],
        .error "server error: illegal_argument_exception"⟩ := by
  exact ⟨rfl, rfl⟩

/-- The call on a settings object whose `settings.index` is a map, by cases on
the `analysis` member and on the answer to the `PUT` of the analysis block. -/
theorem UpdateIndexSettings_eq (host name : String) (settings s index : GoMap)
    (tStatic tFinal : TransportResult)
    (hs : settings.get "settings" = some (.obj s)) (hi : s.get "index" = some (.obj index)) :
    UpdateIndexSettings host name settings tStatic tFinal =
      match index.get "analysis" with
      | none =>
        ⟨[⟨"PUT", host ++ "/" ++ name ++ "/_settings",
            encodeValue (.obj (settings.set "settings"
              (.obj (s.set "index" (.obj (cleanIndex index)))))) ++ ['\n']⟩],
          .ok (Request tFinal).2⟩
      | some set =>
        match (Request tStatic).2 with
        | some err =>
          ⟨[⟨"POST", host ++ "/" ++ name ++ "/_close", []⟩,
            ⟨"PUT", host ++ "/" ++ name ++ "/_settings",
              encodeValue (.obj [("settings", .obj [("index", .obj [("analysis", set)])])]) ++
                ['\n']⟩],
            .error err⟩
        | none =>
          ⟨[⟨"POST", host ++ "/" ++ name ++ "/_close", []⟩,
            ⟨"PUT", host ++ "/" ++ name ++ "/_settings",
              encodeValue (.obj [("settings", .obj [("index", .obj [("analysis", set)])])]) ++
                ['\n']⟩,
            ⟨"POST", host ++ "/" ++ name ++ "/_open", []⟩,
            ⟨"PUT", host ++ "/" ++ name ++ "/_settings",
              encodeValue (.obj ((settings.set "settings"
                (.obj (s.set "index" (.obj (cleanIndex index))))).set "settings"
                  (.obj ((s.set "index" (.obj (cleanIndex index))).set "index"
                    (.obj ((cleanIndex index).delete "analysis")))))) ++ ['\n']⟩],
            .ok (Request tFinal).2⟩ := by
  have hclean : cleanSettings settings =
      .ok (settings.set "settings" (.obj (s.set "index" (.obj (cleanIndex index))))) :=
    updateIndexMap_of_get cleanIndex hs hi
  have hs1 : (settings.set "settings" (.obj (s.set "index" (.obj (cleanIndex index))))).get
      "settings" = some (.obj (s.set "index" (.obj (cleanIndex index)))) :=
    GoMap.get_set_self _ _ _
  have hi1 : (s.set "index" (.obj (cleanIndex index))).get "index" =
      some (.obj (cleanIndex index)) := GoMap.get_set_self _ _ _
  have han : (cleanIndex index).get "analysis" = index.get "analysis" :=
    get_cleanIndex (by decide)
  have hm : ∀ m : GoMap, assertMap (.obj m) = .ok m := fun _ => rfl
  unfold UpdateIndexSettings
  rw [hclean]
  simp only [GoMap.getD_of_get hs1, hm, GoMap.hasKey, hi1, Option.isSome_some, if_true,
    GoMap.getD_of_get hi1, han]
  cases ha : index.get "analysis" with
  | none => simp only [List.nil_append]
  | some set =>
    have hst : updateIndexMap getEmptyIndexSettings (fun i => i.set "analysis" set) =
        .ok [("settings", .obj [("index", .obj [("analysis", set)])])] := rfl
    simp only [hst]
    cases hr : (Request tStatic).2 with
    | some err => rfl
    | none =>
      simp only [updateIndexMap_of_get (fun i => i.delete "analysis") hs1 hi1]
      rfl

/-- C14 (amended): for a settings object whose `settings.index` is a map, when
that map has an `analysis` member and the `PUT` of the analysis block is
answered with status 200, the requests are, in this order, `POST _close`, `PUT
_settings` with a body holding only the analysis block, `POST _open`, and `PUT
_settings` with the cleaned settings from which `analysis` has been removed;
when that first `PUT` fails (transport error or a status other than 200) only
the `_close` and that `PUT` are issued and the call panics; when `analysis` is
absent exactly one `PUT _settings` with the cleaned settings is issued. -/
theorem C14_settings_update_requests (host name : String) (settings s index : GoMap)
    (tStatic tFinal : TransportResult)
    (hs : settings.get "settings" = some (.obj s)) (hi : s.get "index" = some (.obj index)) :
    (index.get "analysis" = none →
      UpdateIndexSettings host name settings tStatic tFinal =
        ⟨[⟨"PUT", host ++ "/" ++ name ++ "/_settings",
            encodeValue (.obj (settings.set "settings"
              (.obj (s.set "index" (.obj (cleanIndex index)))))) ++ ['\n']⟩],
          .ok (Request tFinal).2⟩) ∧
    (∀ set, index.get "analysis" = some set →
      ((Request tStatic).2 = none →
        ∃ settings2 s2 : GoMap,
          UpdateIndexSettings host name settings tStatic tFinal =
            ⟨[⟨"POST", host ++ "/" ++ name ++ "/_close", []⟩,
              ⟨"PUT", host ++ "/" ++ name ++ "/_settings",
                encodeValue (.obj [("settings", .obj [("index", .obj [("analysis", set)])])]) ++
                  ['\n']⟩,
              ⟨"POST", host ++ "/" ++ name ++ "/_open", []⟩,
              ⟨"PUT", host ++ "/" ++ name ++ "/_settings",
                encodeValue (.obj settings2) ++ ['\n']⟩],
              .ok (Request tFinal).2⟩ ∧
          settings2.get "settings" = some (.obj s2) ∧
          s2.get "index" = some (.obj ((cleanIndex index).delete "analysis")) ∧
          (∀ k, k ≠ "settings" → settings2.get k = settings.get k) ∧
          (∀ k, k ≠ "index" → s2.get k = s.get k) ∧
          indexSetting settings2 "analysis" = none) ∧
      (∀ err, (Request tStatic).2 = some err →
        UpdateIndexSettings host name settings tStatic tFinal =
          ⟨[⟨"POST", host ++ "/" ++ name ++ "/_close", []⟩,
            ⟨"PUT", host ++ "/" ++ name ++ "/_settings",
              encodeValue (.obj [("settings", .obj [("index", .obj [("analysis", set)])])]) ++
                ['\n']⟩],
            .error err⟩)) := by
  have heq := UpdateIndexSettings_eq host name settings s index tStatic tFinal hs hi
  refine ⟨?_, ?_⟩
  · intro ha
    rw [heq, ha]
  · intro set ha
    refine ⟨?_, ?_⟩
    · intro hr
      refine ⟨(settings.set "settings" (.obj (s.set "index" (.obj (cleanIndex index))))).set
          "settings" (.obj ((s.set "index" (.obj (cleanIndex index))).set "index"
            (.obj ((cleanIndex index).delete "analysis")))),
        (s.set "index" (.obj (cleanIndex index))).set "index"
          (.obj ((cleanIndex index).delete "analysis")),
        by rw [heq, ha]; simp only [hr], GoMap.get_set_self _ _ _,
        GoMap.get_set_self _ _ _, ?_, ?_, ?_⟩
      · intro k hk
        rw [GoMap.get_set_ne _ _ hk, GoMap.get_set_ne _ _ hk]
      · intro k hk
        rw [GoMap.get_set_ne _ _ hk, GoMap.get_set_ne _ _ hk]
      · simp only [indexSetting, GoMap.get_set_self, GoMap.get_delete_self]
    · intro err hr
      rw [heq, ha]
      simp only [hr]

theorem C14_settings_update_requests_witness :
    (analysisIndex.get "analysis" = none →
      UpdateIndexSettings "http://dst:9200" "logs" analysisSettings
          (.response ⟨200, "ok", none⟩) (.response ⟨200, "ok", none⟩) =
        ⟨[⟨"PUT", "http://dst:9200" ++ "/" ++ "logs" ++ "/_settings",
            encodeValue (.obj (analysisSettings.set "settings"
              (.obj (analysisBlock.set "index" (.obj (cleanIndex analysisIndex)))))) ++ ['\n']⟩],
          .ok (Request (.response ⟨200, "ok", none⟩)).2⟩) ∧
    (∀ set, analysisIndex.get "analysis" = some set →
      ((Request (.response ⟨200, "ok", none⟩)).2 = none →
        ∃ settings2 s2 : GoMap,
          UpdateIndexSettings "http://dst:9200" "logs" analysisSettings
              (.response ⟨200, "ok", none⟩) (.response ⟨200, "ok", none⟩) =
            ⟨[⟨"POST", "http://dst:9200" ++ "/" ++ "logs" ++ "/_close", []⟩,
              ⟨"PUT", "http://dst:9200" ++ "/" ++ "logs" ++ "/_settings",
                encodeValue (.obj [("settings", .obj [("index", .obj [("analysis", set)])])]) ++
                  ['\n']⟩,
              ⟨"POST", "http://dst:9200" ++ "/" ++ "logs" ++ "/_open", []⟩,
              ⟨"PUT", "http://dst:9200" ++ "/" ++ "logs" ++ "/_settings",
                encodeValue (.obj settings2) ++ ['\n']⟩],
              .ok (Request (.response ⟨200, "ok", none⟩)).2⟩ ∧
          settings2.get "settings" = some (.obj s2) ∧
          s2.get "index" = some (.obj ((cleanIndex analysisIndex).delete "analysis")) ∧
          (∀ k, k ≠ "settings" → settings2.get k = analysisSettings.get k) ∧
          (∀ k, k ≠ "index" → s2.get k = analysisBlock.get k) ∧
          indexSetting settings2 "analysis" = none) ∧
      (∀ err, (Request (.response ⟨200, "ok", none⟩)).2 = some err →
        UpdateIndexSettings "http://dst:9200" "logs" analysisSettings
            (.response ⟨200, "ok", none⟩) (.response ⟨200, "ok", none⟩) =
          ⟨[⟨"POST", "http://dst:9200" ++ "/" ++ "logs" ++ "/_close", []⟩,
            ⟨"PUT", "http://dst:9200" ++ "/" ++ "logs" ++ "/_settings",
              encodeValue (.obj [("settings", .obj [("index", .obj [("analysis", set)])])]) ++
                ['\n']⟩],
            .error err⟩)) :=
  C14_settings_update_requests "http://dst:9200" "logs" analysisSettings
    analysisBlock analysisIndex
    (.response ⟨200, "ok", none⟩) (.response ⟨200, "ok", none⟩) rfl rfl

/-! ## A page of a cursor stream -/

theorem sendDocs_objects (ms : List GoMap) :
    sendDocs (ms.map GoValue.obj) = (ms.map ScrollEvent.send, none) := by
  induction ms with
  | nil => rfl
  | cons m rest ih => simp [sendDocs, assertMap, ih]

theorem sentDocs_append (a b : List ScrollEvent) :
    sentDocs (a ++ b) = sentDocs a ++ sentDocs b := by
  induction a with
  | nil => rfl
  | cons x rest ih => cases x <;> simp [sentDocs, ih]

theorem sentDocs_logError (failures : List String) :
    sentDocs (failures.map ScrollEvent.logError) = [] := by
  induction failures with
  | nil => rfl
  | cons x rest ih => simp [sentDocs, ih]

theorem sentDocs_send (ms : List GoMap) : sentDocs (ms.map ScrollEvent.send) = ms := by
  induction ms with
  | nil => rfl
  | cons x rest ih => simp [sentDocs, ih]

/-- C18: for a call of `Scroll.Next` / `ScrollV7.Next` whose `NextScroll` request
returned a page of hits that are JSON objects (or no hit list at all), the call
returns `done = true` exactly when the hit list is empty or absent, and then it
does nothing and keeps its scroll id; otherwise it returns `done = false`, sends
every hit of the page to the queue in page order, does not panic, and replaces
its scroll id by the one of the page. -/
theorem C18_next_page (scrollId : String) (page : ScrollPage) (failures : List String)
    (ms : List GoMap)
    (hdocs : page.docs = none ∧ ms = [] ∨ page.docs = some (ms.map GoValue.obj)) :
    ((Next scrollId (.ok (page, failures))).done = true ↔ ms = []) ∧
    (ms = [] →
      Next scrollId (.ok (page, failures)) = ⟨true, scrollId, [], none⟩) ∧
    (ms ≠ [] →
      (Next scrollId (.ok (page, failures))).done = false ∧
      sentDocs (Next scrollId (.ok (page, failures))).events = ms ∧
      (Next scrollId (.ok (page, failures))).ScrollId = page.ScrollId ∧
      (Next scrollId (.ok (page, failures))).panicked = none) := by
  rcases hdocs with ⟨hd, hm⟩ | hd
  · subst hm
    have e : Next scrollId (.ok (page, failures)) = ⟨true, scrollId, [], none⟩ := by
      simp only [Next, hd]
    rw [e]
    exact ⟨by simp, fun _ => rfl, fun h => absurd rfl h⟩
  · cases ms with
    | nil =>
      have e : Next scrollId (.ok (page, failures)) = ⟨true, scrollId, [], none⟩ := by
        simp [Next, hd]
      rw [e]
      exact ⟨by simp, fun _ => rfl, fun h => absurd rfl h⟩
    | cons m rest =>
      have hp : ProcessScrollResult page failures =
          (.barAdd (rest.length + 1) ::
            (failures.map .logError ++ (m :: rest).map ScrollEvent.send), none) := by
        simp only [ProcessScrollResult, hd, Option.getD_some, sendDocs_objects]
        simp
      have e : Next scrollId (.ok (page, failures)) =
          ⟨false, page.ScrollId, .barAdd (rest.length + 1) ::
            (failures.map .logError ++ (m :: rest).map ScrollEvent.send), none⟩ := by
        simp only [Next, hd, hp]
        simp
      rw [e]
      refine ⟨by simp, fun h => (by cases h), fun _ => ⟨rfl, ?_, rfl, rfl⟩⟩
      show sentDocs (.barAdd (rest.length + 1) ::
        (failures.map .logError ++ (m :: rest).map ScrollEvent.send)) = m :: rest
      simp only [sentDocs, sentDocs_append, sentDocs_logError, sentDocs_send, List.nil_append]

theorem C18_next_page_witness :
    ((Next "c1" (.ok (⟨"c2", 3, some [.obj sampleHit, .obj sampleHit2]⟩, []))).done = true ↔
      [sampleHit, sampleHit2] = []) ∧
    ([sampleHit, sampleHit2] = [] →
      Next "c1" (.ok (⟨"c2", 3, some [.obj sampleHit, .obj sampleHit2]⟩, [])) =
        ⟨true, "c1", [], none⟩) ∧
    ([sampleHit, sampleHit2] ≠ [] →
      (Next "c1" (.ok (⟨"c2", 3, some [.obj sampleHit, .obj sampleHit2]⟩, []))).done = false ∧
      sentDocs (Next "c1" (.ok (⟨"c2", 3, some [.obj sampleHit, .obj sampleHit2]⟩, []))).events =
        [sampleHit, sampleHit2] ∧
      (Next "c1" (.ok (⟨"c2", 3, some [.obj sampleHit, .obj sampleHit2]⟩, []))).ScrollId =
        (⟨"c2", 3, some [.obj sampleHit, .obj sampleHit2]⟩ : ScrollPage).ScrollId ∧
      (Next "c1" (.ok (⟨"c2", 3, some [.obj sampleHit, .obj sampleHit2]⟩, []))).panicked = none) :=
  C18_next_page "c1" ⟨"c2", 3, some [.obj sampleHit, .obj sampleHit2]⟩ [] [sampleHit, sampleHit2]
    (Or.inr rfl)

/-! ## Slices in the open-cursor request -/

/-- C19 (code defect): in the v0 dialect the open-cursor request does not depend
on the slice id or the slice count, so with `sliceCount > 1` every stream is
opened by the very same request, which carries no `slice` member: each stream
reads the whole source. The v5, v6 and v7 dialects put `slice` with the
stream's `id` and `max` into the query body whenever `sliceCount > 1`, so the
bodies of two distinct slice ids differ there. -/
theorem C19_v0_request_ignores_slice (host indexNames scrollTime : String)
    (docBufferCount : Int) (query fields : String) (i j sliceCount : Int) (version : String)
    (hv0 : sourceDialect version = 0) (hcount : sliceCount > 1) :
    openCursorRequest version host indexNames scrollTime docBufferCount query i sliceCount
        fields =
      openCursorRequest version host indexNames scrollTime docBufferCount query j sliceCount
        fields ∧
    (∀ body, ESAPIV0.queryBody query i sliceCount fields = some body →
      body.get "slice" = none) ∧
    (∃ body, ESAPIV5.queryBody query i sliceCount fields = some body ∧
      body.get "slice" = some (.obj [("max", .int sliceCount), ("id", .int i)])) ∧
    (i ≠ j → ESAPIV5.queryBody query i sliceCount fields ≠
      ESAPIV5.queryBody query j sliceCount fields) := by
  have hbase : (baseQueryBody query fields).get "slice" = none := by
    unfold baseQueryBody
    by_cases hf : fields.length > 0 <;> by_cases hq : query.length > 0 <;>
      simp only [hf, hq, if_true, if_false] <;> rfl
  have h5 : ∀ k : Int, ESAPIV5.queryBody query k sliceCount fields =
      some ((baseQueryBody query fields).set "slice"
        (.obj [("max", .int sliceCount), ("id", .int k)])) := by
    intro k
    have h0 : sliceCount > 0 := by omega
    simp only [ESAPIV5.queryBody, h0, hcount, true_or, or_true, if_true]
    rfl
  refine ⟨?_, ?_, ⟨_, h5 i, GoMap.get_set_self _ _ _⟩, ?_⟩
  · simp only [openCursorRequest, hv0, if_true, ESAPIV0.NewScrollRequest, ESAPIV0.queryBody]
  · intro body hb
    unfold ESAPIV0.queryBody at hb
    split at hb
    · injection hb with hb; rw [← hb]; exact hbase
    · cases hb
  · intro hij heq
    rw [h5 i, h5 j] at heq
    injection heq with heq
    have := congrArg (fun m => GoMap.get m "slice") heq
    simp only [GoMap.get_set_self] at this
    injection this with this
    injection this with this
    simp at this
    exact hij this

theorem C19_v0_request_ignores_slice_witness :
    openCursorRequest "2.4.6" "http://src:9200" "logs" "1m" 5000 "" 0 2 "" =
      openCursorRequest "2.4.6" "http://src:9200" "logs" "1m" 5000 "" 1 2 "" ∧
    (∀ body, ESAPIV0.queryBody "" 0 2 "" = some body → body.get "slice" = none) ∧
    (∃ body, ESAPIV5.queryBody "" 0 2 "" = some body ∧
      body.get "slice" = some (.obj [("max", .int 2), ("id", .int 0)])) ∧
    ((0 : Int) ≠ 1 → ESAPIV5.queryBody "" 0 2 "" ≠ ESAPIV5.queryBody "" 1 2 "") :=
  C19_v0_request_ignores_slice "http://src:9200" "logs" "1m" 5000 "" "" 0 1 2 "2.4.6"
    (by decide) (by decide)

/-! ## An empty source -/

theorem sliceLoop_absent_hit_lists (newScroll : Nat → NewScrollResult)
    (h : ∀ slice, ∃ id, newScroll slice = .page ⟨id, 0, none⟩) :
    ∀ (remaining slice : Nat) (totalSize : Int) (launched : List Nat),
      sliceLoop newScroll remaining slice totalSize launched = .completed launched totalSize := by
  intro remaining
  induction remaining with
  | zero => intro slice totalSize launched; rfl
  | succ n ih =>
    intro slice totalSize launched
    obtain ⟨id, hid⟩ := h slice
    simp only [sliceLoop, hid, Option.isSome_none, Bool.false_eq_true, if_false, add_zero]
    exact ih _ _ _

theorem sliceLoop_empty_hit_list (newScroll : Nat → NewScrollResult)
    (h : ∀ slice, ∃ id, newScroll slice = .page ⟨id, 0, some []⟩)
    (remaining slice : Nat) (totalSize : Int) (launched : List Nat) :
    sliceLoop newScroll (remaining + 1) slice totalSize launched = .returned 275 launched := by
  obtain ⟨id, hid⟩ := h slice
  simp only [sliceLoop, hid, Option.isSome_some, if_true]

/-- C20 (code defect): the test `GetHitsTotal() == 0` of line 273 is made only
inside `if scroll != nil && temp.GetDocs() != nil`. When every opened cursor
reports a total of 0 and its response carries no hit list, the slice loop
completes without the abort, `main` goes on, and a dump run starts its writer
and waits; with an empty (but present) hit list the round returns at line 275
before any writer is started. -/
theorem C20_no_abort_without_hit_list (c : Config) (env : MainEnv) (v : ClusterVersion)
    (hsrc : c.SourceEs.length > 0) (hver : env.srcVersion = some v)
    (hpage : ∀ slice, ∃ id, env.newScroll slice = .page ⟨id, 0, none⟩) :
    sourcePhase c env = ([], none) ∧
    (c.TargetEs = "" → c.DumpOutFile.length > 0 →
      mainRound c env = ⟨[.startFileDump], .waiting⟩) ∧
    (∀ env2 : MainEnv, env2.srcVersion = some v →
      (∀ slice, ∃ id, env2.newScroll slice = .page ⟨id, 0, some []⟩) →
      mainRound c env2 = ⟨[], .returned 275⟩ ∨ c.SourceEs = c.TargetEs ∨
        (c.TargetEs.length = 0 ∧ c.DumpOutFile.length = 0)) := by
  have hphase : sourcePhase c env = ([], none) := by
    simp only [sourcePhase, hsrc, if_true, hver,
      sliceLoop_absent_hit_lists env.newScroll hpage, List.map_nil]
  refine ⟨hphase, ?_, ?_⟩
  · intro ht hd
    have h1 : ¬ (c.SourceEs.length = 0 ∧ c.DumpInputFile.length = 0) := fun h => by omega
    have h2 : ¬ (c.TargetEs.length = 0 ∧ c.DumpOutFile.length = 0) := fun h => by omega
    have h3 : ¬ (c.SourceEs = c.TargetEs ∧ c.SourceIndexNames = c.TargetIndexName) := by
      intro h
      rw [h.1, ht] at hsrc
      exact absurd hsrc (by decide)
    have ht0 : ¬ c.TargetEs.length > 0 := by rw [ht]; decide
    simp only [mainRound, h1, h2, h3, if_false, hphase, targetPhase, ht0, startWriters, hd,
      if_true, List.nil_append]
  · intro env2 hver2 hpage2
    by_cases h2 : c.TargetEs.length = 0 ∧ c.DumpOutFile.length = 0
    · exact Or.inr (Or.inr h2)
    · by_cases h3 : c.SourceEs = c.TargetEs
      · exact Or.inr (Or.inl h3)
      · left
        have h1 : ¬ (c.SourceEs.length = 0 ∧ c.DumpInputFile.length = 0) := fun h => by omega
        have h3a : ¬ (c.SourceEs = c.TargetEs ∧ c.SourceIndexNames = c.TargetIndexName) :=
          fun h => h3 h.1
        have hn : ∃ n, (if c.ScrollSliceSize < 1 then (1 : Int) else c.ScrollSliceSize).toNat =
            n + 1 := by
          by_cases hs : c.ScrollSliceSize < 1
          · exact ⟨0, by simp [hs]⟩
          · refine ⟨c.ScrollSliceSize.toNat - 1, ?_⟩
            simp only [hs, if_false]
            omega
        obtain ⟨n, hn⟩ := hn
        have hphase2 : sourcePhase c env2 = ([], some (.returned 275)) := by
          simp only [sourcePhase, hsrc, if_true, hver2, hn,
            sliceLoop_empty_hit_list env2.newScroll hpage2, List.map_nil]
        simp only [mainRound, h1, h2, h3a, if_false, hphase2]

theorem C20_no_abort_without_hit_list_witness :
    sourcePhase dumpToFileConfig emptySourceEnv = ([], none) ∧
    (dumpToFileConfig.TargetEs = "" → dumpToFileConfig.DumpOutFile.length > 0 →
      mainRound dumpToFileConfig emptySourceEnv = ⟨[.startFileDump], .waiting⟩) ∧
    (∀ env2 : MainEnv, env2.srcVersion = some ⟨"6.8.0"⟩ →
      (∀ slice, ∃ id, env2.newScroll slice = .page ⟨id, 0, some []⟩) →
      mainRound dumpToFileConfig env2 = ⟨[], .returned 275⟩ ∨
        dumpToFileConfig.SourceEs = dumpToFileConfig.TargetEs ∨
        (dumpToFileConfig.TargetEs.length = 0 ∧ dumpToFileConfig.DumpOutFile.length = 0)) :=
  C20_no_abort_without_hit_list dumpToFileConfig emptySourceEnv ⟨"6.8.0"⟩ (by decide) rfl
    (fun _ => ⟨"cursor", rfl⟩)

/-! ## Dumping an envelope -/

/-- C15 (code defect): a decoded envelope that has the four fields `_index`,
`_type`, `_id`, `_source` and also a `status` member makes `NewFileDumpWorker`
panic at `status.(int)` before anything is written for it (and the envelope
handling of the bulk worker panics on it in the same way), so the file round
trip does not give the document back. Without a `status` member the dump worker
appends exactly one line, the JSON text of the envelope, which contains no
newline, followed by a newline. -/
theorem C15_dump_of_envelope (dst : DumpState) (c : Config) (docI : GoMap)
    (hdec : jsonDecodedFields docI = true)
    (hkeys : requiredKeys.any (fun key => !docI.hasKey key) = false) :
    (∀ status, docI.get "status" = some status →
      (∃ msg, dumpStep dst docI true = .panic msg) ∧
      (∃ msg, handleDoc c docI true = .error msg)) ∧
    (docI.get "status" = none →
      dumpStep dst docI true =
        .running ⟨dst.written ++ encodeValue (.obj docI) ++ ['\n'], dst.effects ++ [.pbAdd 1]⟩ ∧
      '\n' ∉ encodeValue (.obj docI)) := by
  refine ⟨?_, ?_⟩
  · intro status hs
    obtain ⟨msg, hmsg⟩ := is404_error_of_status hs (jsonDecoded_get hdec hs)
    exact ⟨⟨msg, by simp only [dumpStep, hmsg]⟩, ⟨msg, by simp only [handleDoc, hmsg]⟩⟩
  · intro hs
    refine ⟨?_, encodeSource_noNewline docI hdec⟩
    have h404 : is404 docI = .ok false := by simp only [is404, hs]
    simp only [dumpStep, h404, hkeys, Bool.false_eq_true, if_false, Bool.not_true]

theorem C15_dump_of_envelope_witness :
    (∀ status, statusHit.get "status" = some status →
      (∃ msg, dumpStep ⟨[], []⟩ statusHit true = .panic msg) ∧
      (∃ msg, handleDoc plainConfig statusHit true = .error msg)) ∧
    (statusHit.get "status" = none →
      dumpStep ⟨[], []⟩ statusHit true =
        .running ⟨[] ++ encodeValue (.obj statusHit) ++ ['\n'], [] ++ [.pbAdd 1]⟩ ∧
      '\n' ∉ encodeValue (.obj statusHit)) :=
  C15_dump_of_envelope ⟨[], []⟩ plainConfig statusHit rfl rfl

/-! ## Index discovery -/

/-- C21 (code defect): the wildcard pattern is handed to `regexp.Compile` as it
is, so it is read as a regular expression and not as a shell glob. For the
pattern `log?-x` the name `logs-x`, which the glob matches, is not kept, while
`lo-x` is; every pattern that starts with `*` or `?` (such as `*-2024`) is
rejected by `regexp.Compile`, the error is dropped, and `GetIndexMappings`
panics on the nil expression as soon as the response holds an index. -/
theorem C21_pattern_is_not_a_glob (copyAllIndexes : Bool) (pattern : String) (c : Char)
    (rest : List Char) (entry : String × GoValue) (idxs : GoMap)
    (hp : pattern.toList = c :: rest) (hc : c = '*' ∨ c = '?') :
    GetIndexMappings copyAllIndexes pattern (entry :: idxs) =
      some (.error "invalid memory address or nil pointer dereference") ∧
    shellGlobMatch "*-2024".toList "logs-2024".toList = true ∧
    shellGlobMatch "log?-x".toList "logs-x".toList = true ∧
    shellGlobMatch "log?-x".toList "lo-x".toList = false ∧
    GetIndexMappings copyAllIndexes "log?-x" [("logs-x", docMapping), ("lo-x", docMapping)] =
      some (.ok ("lo-x", 2, [("logs-x", docMapping), ("lo-x", docMapping)])) := by
  refine ⟨?_, by decide, by decide, by decide, by cases copyAllIndexes <;> rfl⟩
  have hrep : isRepeatOp c = true := by
    rcases hc with h | h <;> subst h <;> rfl
  have hcont : ((c :: rest).contains '*' || (c :: rest).contains '?') = true := by
    rcases hc with h | h <;> subst h <;> simp
  have hcomp : compileRegex (c :: rest) =
      some (.error "missing argument to repetition operator") := by
    simp only [compileRegex, compileFrom, hrep, if_true]
  have hall : pattern ≠ "_all" := by
    intro h
    rw [h] at hp
    injection hp with h1 _
    rcases hc with h | h <;> rw [h] at h1 <;> exact absurd h1 (by decide)
  simp only [GetIndexMappings, hall, if_false, hp, hcont, if_true, hcomp]

theorem C21_pattern_is_not_a_glob_witness :
    GetIndexMappings false "*-2024" [("logs-2024", docMapping)] =
      some (.error "invalid memory address or nil pointer dereference") ∧
    shellGlobMatch "*-2024".toList "logs-2024".toList = true ∧
    shellGlobMatch "log?-x".toList "logs-x".toList = true ∧
    shellGlobMatch "log?-x".toList "lo-x".toList = false ∧
    GetIndexMappings false "log?-x" [("logs-x", docMapping), ("lo-x", docMapping)] =
      some (.ok ("lo-x", 2, [("logs-x", docMapping), ("lo-x", docMapping)])) :=
  C21_pattern_is_not_a_glob false "*-2024" '*' "-2024".toList ("logs-2024", docMapping) []
    rfl (Or.inl rfl)

/-- C28 (code defect): `GetIndexMappings` never reads `copyAllIndexes` (the
statements that dropped the names starting with `.` or `_` are commented out),
so the result is the same for both values of the option, and with the option
off the indices `.kibana` and `_internal` stay in the returned name list and in
the descriptor map. -/
theorem C28_all_option_is_ignored (indexNames : String) (idxs : GoMap) :
    GetIndexMappings false indexNames idxs = GetIndexMappings true indexNames idxs ∧
    GetIndexMappings false "_all"
        [(".kibana", docMapping), ("_internal", docMapping), ("logs", docMapping)] =
      some (.ok (".kibana,_internal,logs", 3,
        [(".kibana", docMapping), ("_internal", docMapping), ("logs", docMapping)])) :=
  ⟨rfl, rfl⟩

/-! ## Recreating an existing destination index -/

/-- A completed iteration of the settings loop for an index that the fetched
destination settings hold, with `RecreateIndex` set: the calls are
`DeleteIndex(name)` followed by `CreateIndex(name, _)`. -/
theorem prepareIndex_recreate_existing (c : Config) (t : GoMap) (st st1 : PrepareState)
    (name : String) (val : GoValue)
    (h : prepareIndex c (some t) st name = .ok st1)
    (hre : c.RecreateIndex = true) (hex : t.get name = some val) :
    ∃ settings, st1.actions = st.actions ++ [.deleteIndex name, .createIndex name settings] := by
  obtain ⟨temp0, ex, acts0, temp1, temp2, interval, temp3, temp4, h0, -, -, -, -, -, hacts,
    -, -⟩ := prepareIndex_inv h
  simp only [targetLookup, hex] at h0
  cases hm : assertMap val with
  | error msg => rw [hm] at h0; cases h0
  | ok m =>
    rw [hm] at h0
    simp only [hre, if_true] at h0
    injection h0 with h0
    injection h0 with h1 h2
    injection h2 with h2 h3
    refine ⟨temp4, ?_⟩
    rw [hacts, ← h2, ← h3]
    simp

/-- C22 (code defect): `DeleteIndex` is called only inside
`if targetIndexSettings != nil` (line 764). `GetIndexSettings` returns nil when
the request to the destination fails or is answered with a status other than
200, and `main` goes on with that nil. In that case a completed iteration of
the settings loop with `RecreateIndex` set makes the single call
`CreateIndex(name, _)`: the index is not deleted first, whatever the destination
holds, as in the round of `recreateConfig` on `crossMajorEnv`. When the fetched
settings hold the index, the calls are `DeleteIndex(name)` then
`CreateIndex(name, _)`. -/
theorem C22_no_delete_when_settings_fetch_is_nil (c : Config) (st st1 : PrepareState)
    (name : String) (t : TransportResult) (decoded : Option GoMap)
    (targetIndexSettings : Option GoMap)
    (hre : c.RecreateIndex = true)
    (hfetch : GetIndexSettings t decoded = .ok targetIndexSettings)
    (hfailed : ∀ reply, t = .response reply → reply.status ≠ 200)
    (h : prepareIndex c targetIndexSettings st name = .ok st1) :
    (∃ settings, st1.actions = st.actions ++ [.createIndex name settings]) ∧
    (mainRound recreateConfig crossMajorEnv).actions =
      [.startScroll 0,
       .createIndex "logs" [("settings", .obj [("index",
         .obj [("number_of_replicas", .int 0), ("refresh_interval", .int (-1))])])],
       .updateIndexMapping "logs" [("doc", .obj [])],
       .deferRecovery [("logs", .str "1s")],
       .startBulkWorker] ∧
    (∀ (target : GoMap) (val : GoValue) (st2 : PrepareState),
      prepareIndex c (some target) st name = .ok st2 → target.get name = some val →
      ∃ settings,
        st2.actions = st.actions ++ [.deleteIndex name, .createIndex name settings]) := by
  refine ⟨?_, rfl,
    fun target val st2 h2 hex => prepareIndex_recreate_existing c target st st2 name val h2 hre hex⟩
  have hnil : targetIndexSettings = none := by
    cases t with
    | failure err =>
      simp only [GetIndexSettings] at hfetch
      injection hfetch with hfetch
      exact hfetch.symm
    | response reply =>
      have hr := hfailed reply rfl
      simp only [GetIndexSettings, hr, ne_eq, not_false_eq_true, if_true] at hfetch
      injection hfetch with hfetch
      exact hfetch.symm
  rw [hnil] at h
  obtain ⟨temp0, ex, acts0, temp1, temp2, interval, temp3, temp4, h0, -, -, -, -, -, hacts,
    -, -⟩ := prepareIndex_inv h
  simp only [targetLookup] at h0
  injection h0 with h0
  injection h0 with h1 h2
  injection h2 with h2 h3
  refine ⟨temp4, ?_⟩
  rw [hacts, ← h2, ← h3]
  simp

theorem C22_no_delete_when_settings_fetch_is_nil_witness :
    (∃ settings,
      (⟨[.createIndex "logs"
          [("settings", .obj [("index", .obj [("number_of_shards", .int 3),
            ("number_of_replicas", .int 0), ("refresh_interval", .int (-1))])])]],
        logsSourceSettings, [("logs", .str "1s")]⟩ : PrepareState).actions =
      ([] : List MainAction) ++ [.createIndex "logs" settings]) ∧
    (mainRound recreateConfig crossMajorEnv).actions =
      [.startScroll 0,
       .createIndex "logs" [("settings", .obj [("index",
         .obj [("number_of_replicas", .int 0), ("refresh_interval", .int (-1))])])],
       .updateIndexMapping "logs" [("doc", .obj [])],
       .deferRecovery [("logs", .str "1s")],
       .startBulkWorker] ∧
    (∀ (target : GoMap) (val : GoValue) (st2 : PrepareState),
      prepareIndex { shardsOnlyConfig with RecreateIndex := true } (some target)
        ⟨[], logsSourceSettings, []⟩ "logs" = .ok st2 →
      target.get "logs" = some val →
      ∃ settings,
        st2.actions =
          ([] : List MainAction) ++ [.deleteIndex "logs", .createIndex "logs" settings]) :=
  C22_no_delete_when_settings_fetch_is_nil { shardsOnlyConfig with RecreateIndex := true }
    ⟨[], logsSourceSettings, []⟩
    ⟨[.createIndex "logs"
        [("settings", .obj [("index", .obj [("number_of_shards", .int 3),
          ("number_of_replicas", .int 0), ("refresh_interval", .int (-1))])])]],
      logsSourceSettings, [("logs", .str "1s")]⟩
    "logs" (.response ⟨503, "unavailable", none⟩) none none rfl rfl
    (fun reply hr => by injection hr with hr; rw [← hr]; decide) rfl

/-! ## Payloads of `UpdateIndexMapping` -/

theorem GoMap.delete_eq_self_of_get_none (m : GoMap) (k : String) (h : m.get k = none) :
    m.delete k = m := by
  induction m with
  | nil => rfl
  | cons kv rest ih =>
    obtain ⟨k1, v1⟩ := kv
    rw [GoMap.get_cons] at h
    by_cases hk : k1 = k
    · rw [if_pos hk] at h; cases h
    · rw [if_neg hk] at h
      rw [GoMap.delete_cons, if_neg hk, ih h]

/-- C23 (code defect): `delete(settings, "dynamic_templates")` acts on the top
level of the map, which for the v6 dialect is keyed by type name. For a mapping
`typeName ↦ mapping` whose `mapping` holds `dynamic_templates`, the v6 call
posts to `/{index}/{typeName}/_mapping` a payload that is the unchanged input,
so the `dynamic_templates` of the mapping being updated is still in it. The v7
call posts once to `/{index}/_mapping`, and its payload has no top-level
`dynamic_templates` and keeps every other member. -/
theorem C23_v6_payload_keeps_dynamic_templates (host indexName typeName : String)
    (mapping : GoMap) (templates : GoValue) (t : String → TransportResult)
    (settings : GoMap) (t7 : TransportResult)
    (hname : typeName ≠ "dynamic_templates")
    (htemplates : mapping.get "dynamic_templates" = some templates)
    (hreply : (Request (t typeName)).2 = none) :
    ESAPIV6.UpdateIndexMapping host indexName [(typeName, .obj mapping)] t =
      ([⟨"POST", host ++ "/" ++ indexName ++ "/" ++ typeName ++ "/_mapping",
          encodeValue (.obj [(typeName, .obj mapping)]) ++ ['\n']⟩], none) ∧
    (∃ m : GoMap, GoMap.get [(typeName, .obj mapping)] typeName = some (.obj m) ∧
      m.get "dynamic_templates" = some templates) ∧
    (ESAPIV7.UpdateIndexMapping host indexName settings t7).1 =
      [⟨"POST", host ++ "/" ++ indexName ++ "/_mapping",
        encodeValue (.obj (settings.delete "dynamic_templates")) ++ ['\n']⟩] ∧
    (settings.delete "dynamic_templates").get "dynamic_templates" = none ∧
    (∀ k, k ≠ "dynamic_templates" →
      (settings.delete "dynamic_templates").get k = settings.get k) := by
  refine ⟨?_, ⟨mapping, by simp [GoMap.get], htemplates⟩, rfl, GoMap.get_delete_self _ _,
    fun k hk => GoMap.get_delete_ne _ hk⟩
  have hd : GoMap.delete [(typeName, GoValue.obj mapping)] "dynamic_templates" =
      [(typeName, .obj mapping)] := by
    rw [GoMap.delete_cons, if_neg hname]; rfl
  simp only [ESAPIV6.UpdateIndexMapping, hd, mappingLoop, hreply]

theorem C23_v6_payload_keeps_dynamic_templates_witness :
    ESAPIV6.UpdateIndexMapping "http://dst:9200" "logs" [("doc", .obj templatedTypeMapping)]
        (fun _ => .response ⟨200, "ok", none⟩) =
      ([⟨"POST", "http://dst:9200" ++ "/" ++ "logs" ++ "/" ++ "doc" ++ "/_mapping",
          encodeValue (.obj [("doc", .obj templatedTypeMapping)]) ++ ['\n']⟩], none) ∧
    (∃ m : GoMap, GoMap.get [("doc", .obj templatedTypeMapping)] "doc" = some (.obj m) ∧
      m.get "dynamic_templates" =
        some (.arr [.obj [("strings", .obj [("match", .str "*")])]])) ∧
    (ESAPIV7.UpdateIndexMapping "http://dst:9200" "logs" templatedTypeMapping
        (.response ⟨200, "ok", none⟩)).1 =
      [⟨"POST", "http://dst:9200" ++ "/" ++ "logs" ++ "/_mapping",
        encodeValue (.obj (templatedTypeMapping.delete "dynamic_templates")) ++ ['\n']⟩] ∧
    (templatedTypeMapping.delete "dynamic_templates").get "dynamic_templates" = none ∧
    (∀ k, k ≠ "dynamic_templates" →
      (templatedTypeMapping.delete "dynamic_templates").get k = templatedTypeMapping.get k) :=
  C23_v6_payload_keeps_dynamic_templates "http://dst:9200" "logs" "doc" templatedTypeMapping
    (.arr [.obj [("strings", .obj [("match", .str "*")])]]) (fun _ => .response ⟨200, "ok", none⟩)
    templatedTypeMapping (.response ⟨200, "ok", none⟩) (by decide) rfl rfl

/-! ## Input validation of `main` -/

theorem targetPhase_exit (c : Config) (env : MainEnv) (v : Option ClusterVersion) (line : Nat)
    (h : (targetPhase c env v).exit = .returned line) :
    line = 459 ∨ line = 510 ∨ line = 615 ∨ line = 699 ∨ line = 944 := by
  unfold targetPhase at h
  split at h
  · split at h
    · simp only [MainExit.returned.injEq] at h; omega
    · split at h
      · simp at h
      · simp only [MainExit.returned.injEq] at h; omega
      · split at h
        · simp at h
        · split at h
          · split at h
            · rename_i hp
              simp only at h
              have hx := prepareIndexes_exit c env _ line (by rw [hp, h])
              omega
            · simp at h
          · simp at h
  · simp at h

/-- C24: a round of `main` ends at one of the three validation returns (lines
89, 93, 98), having done nothing, exactly when the configuration has no source
(neither source URL nor input file), or no sink (neither destination URL nor
output file), or the same cluster URL on both sides together with source index
names equal to the target index name. A same-cluster run with the source
pattern `_all` and no target index name is therefore not rejected, the two
names being different strings. -/
theorem C24_validation (c : Config) (env : MainEnv) :
    ((∃ line, (line = 89 ∨ line = 93 ∨ line = 98) ∧
        mainRound c env = ⟨[], .returned line⟩) ↔
      ((c.SourceEs.length = 0 ∧ c.DumpInputFile.length = 0) ∨
       (c.TargetEs.length = 0 ∧ c.DumpOutFile.length = 0) ∨
       (c.SourceEs = c.TargetEs ∧ c.SourceIndexNames = c.TargetIndexName))) ∧
    (∀ line, (mainRound c env).exit = .returned line →
      (line = 89 ∨ line = 93 ∨ line = 98) → (mainRound c env).actions = []) ∧
    (c.SourceEs.length > 0 → c.SourceEs = c.TargetEs → c.SourceIndexNames = "_all" →
      c.TargetIndexName = "" →
      ∀ line, (mainRound c env).exit = .returned line →
        ¬ (line = 89 ∨ line = 93 ∨ line = 98)) := by
  have hproceed : ¬ (c.SourceEs.length = 0 ∧ c.DumpInputFile.length = 0) →
      ¬ (c.TargetEs.length = 0 ∧ c.DumpOutFile.length = 0) →
      ¬ (c.SourceEs = c.TargetEs ∧ c.SourceIndexNames = c.TargetIndexName) →
      ∀ line, (mainRound c env).exit = .returned line →
        ¬ (line = 89 ∨ line = 93 ∨ line = 98) := by
    intro h1 h2 h3 line hl
    simp only [mainRound, h1, h2, h3, if_false] at hl
    split at hl
    · rename_i acts exit hs
      simp only at hl
      rw [hl] at hs
      have := sourcePhase_exit c env _ _ hs
      omega
    · simp only at hl
      have := targetPhase_exit c env none line hl
      omega
  have hrej : ((c.SourceEs.length = 0 ∧ c.DumpInputFile.length = 0) ∨
       (c.TargetEs.length = 0 ∧ c.DumpOutFile.length = 0) ∨
       (c.SourceEs = c.TargetEs ∧ c.SourceIndexNames = c.TargetIndexName)) →
      ∃ line, (line = 89 ∨ line = 93 ∨ line = 98) ∧
        mainRound c env = ⟨[], .returned line⟩ := by
    intro h
    by_cases h1 : c.SourceEs.length = 0 ∧ c.DumpInputFile.length = 0
    · exact ⟨89, Or.inl rfl, by unfold mainRound; rw [if_pos h1]⟩
    · by_cases h2 : c.TargetEs.length = 0 ∧ c.DumpOutFile.length = 0
      · exact ⟨93, Or.inr (Or.inl rfl), by unfold mainRound; rw [if_neg h1, if_pos h2]⟩
      · by_cases h3 : c.SourceEs = c.TargetEs ∧ c.SourceIndexNames = c.TargetIndexName
        · exact ⟨98, Or.inr (Or.inr rfl),
            by unfold mainRound; rw [if_neg h1, if_neg h2, if_pos h3]⟩
        · rcases h with h | h | h
          · exact absurd h h1
          · exact absurd h h2
          · exact absurd h h3
  refine ⟨⟨?_, hrej⟩, ?_, ?_⟩
  · rintro ⟨line, hline, hm⟩
    by_contra hn
    simp only [not_or] at hn
    exact hproceed hn.1 hn.2.1 hn.2.2 line (by rw [hm]) hline
  · intro line hl hline
    by_cases hc : (c.SourceEs.length = 0 ∧ c.DumpInputFile.length = 0) ∨
       (c.TargetEs.length = 0 ∧ c.DumpOutFile.length = 0) ∨
       (c.SourceEs = c.TargetEs ∧ c.SourceIndexNames = c.TargetIndexName)
    · obtain ⟨l2, -, hm⟩ := hrej hc
      rw [hm]
    · simp only [not_or] at hc
      exact absurd hline (hproceed hc.1 hc.2.1 hc.2.2 line hl)
  · intro hsrc hsame hall hdest line hl
    refine hproceed (fun h => by omega) (fun h => ?_) (fun h => ?_) line hl
    · rw [← hsame] at h; omega
    · rw [hall, hdest] at h
      exact absurd h.2 (by decide)

theorem C24_validation_witness :
    ((∃ line, (line = 89 ∨ line = 93 ∨ line = 98) ∧
        mainRound plainConfig crossMajorEnv = ⟨[], .returned line⟩) ↔
      ((plainConfig.SourceEs.length = 0 ∧ plainConfig.DumpInputFile.length = 0) ∨
       (plainConfig.TargetEs.length = 0 ∧ plainConfig.DumpOutFile.length = 0) ∨
       (plainConfig.SourceEs = plainConfig.TargetEs ∧
        plainConfig.SourceIndexNames = plainConfig.TargetIndexName))) ∧
    (∀ line, (mainRound plainConfig crossMajorEnv).exit = .returned line →
      (line = 89 ∨ line = 93 ∨ line = 98) → (mainRound plainConfig crossMajorEnv).actions = []) ∧
    (plainConfig.SourceEs.length > 0 → plainConfig.SourceEs = plainConfig.TargetEs →
      plainConfig.SourceIndexNames = "_all" → plainConfig.TargetIndexName = "" →
      ∀ line, (mainRound plainConfig crossMajorEnv).exit = .returned line →
        ¬ (line = 89 ∨ line = 93 ∨ line = 98)) :=
  C24_validation plainConfig crossMajorEnv

/-! ## Status codes in the HTTP helpers -/

/-- C25 (code defect): `DoRequest` returns every reply as a success, whatever
its status (the status test has two empty branches), so a 404 or 500 reply is
not an error; and `Request` turns every status other than 200 into the error
`server error: ` followed by the body, so a 201 reply is an error. Only for a
200 reply do both helpers return the body as a success, and only `Request`
reports a status outside 2xx as an error carrying the body. -/
theorem C25_status_handling (method url : String) (body : List Char) (reply : HttpReply) :
    DoRequest method url body (.response reply) = .ok (reply, none) ∧
    (reply.status = 201 →
      Request (.response reply) = ("", some ("server error: " ++ reply.body))) ∧
    (reply.status = 200 → Request (.response reply) = (reply.body, none)) ∧
    (reply.status ≠ 200 →
      Request (.response reply) = ("", some ("server error: " ++ reply.body))) := by
  refine ⟨rfl, ?_, ?_, ?_⟩
  · intro h
    simp [Request, h]
  · intro h
    simp [Request, h]
  · intro h
    simp [Request, h]

theorem C25_status_handling_witness :
    DoRequest "POST" "http://dst:9200/_bulk" [] (.response ⟨404, "not found", none⟩) =
      .ok (⟨404, "not found", none⟩, none) ∧
    ((⟨404, "not found", none⟩ : HttpReply).status = 201 →
      Request (.response ⟨404, "not found", none⟩) =
        ("", some ("server error: " ++ (⟨404, "not found", none⟩ : HttpReply).body))) ∧
    ((⟨404, "not found", none⟩ : HttpReply).status = 200 →
      Request (.response ⟨404, "not found", none⟩) =
        ((⟨404, "not found", none⟩ : HttpReply).body, none)) ∧
    ((⟨404, "not found", none⟩ : HttpReply).status ≠ 200 →
      Request (.response ⟨404, "not found", none⟩) =
        ("", some ("server error: " ++ (⟨404, "not found", none⟩ : HttpReply).body))) :=
  C25_status_handling "POST" "http://dst:9200/_bulk" [] ⟨404, "not found", none⟩

/-! ## Rename entries without a colon -/

theorem Split_two_pieces (sep : Char) (s : List Char) (h : sep ∈ s) :
    ∃ f0 f1 rest, Split sep s = f0 :: f1 :: rest := by
  induction s with
  | nil => cases h
  | cons c cs ih =>
    by_cases hc : c = sep
    · simp only [Split, hc, if_true]
      cases hs : Split sep cs with
      | nil =>
        exfalso
        cases cs with
        | nil => simp [Split] at hs
        | cons d ds =>
          simp only [Split] at hs
          split at hs
          · cases hs
          · split at hs <;> cases hs
      | cons p ps => exact ⟨[], p, ps, rfl⟩
    · have hmem : sep ∈ cs := by
        rcases List.mem_cons.1 h with e | e
        · exact absurd e.symm hc
        · exact e
      obtain ⟨f0, f1, rest, hsplit⟩ := ih hmem
      exact ⟨c :: f0, f1, rest, by simp only [Split, hc, if_false, hsplit]⟩

theorem renameLoop_ok (docType : String) (kvs : List (List Char))
    (h : ∀ e ∈ kvs, ':' ∈ e) :
    ∀ source : GoMap, ∃ source1, renameLoop docType source kvs = .ok source1 := by
  induction kvs with
  | nil => intro source; exact ⟨source, rfl⟩
  | cons e rest ih =>
    intro source
    obtain ⟨f0, f1, more, hsplit⟩ := Split_two_pieces ':' e (h e (List.mem_cons_self _ _))
    have hone : renameOne docType source e =
        .ok (applyPair docType source (String.mk (TrimSpace f0), String.mk (TrimSpace f1))) := by
      simp only [renameOne, entryPair, hsplit]
    obtain ⟨s1, hs1⟩ := ih (fun x hx => h x (List.mem_cons_of_mem _ hx))
      (applyPair docType source (String.mk (TrimSpace f0), String.mk (TrimSpace f1)))
    exact ⟨s1, by simp only [renameLoop, hone, hs1]⟩

/-- C29: when every comma-separated entry of a non-empty rename list contains a
`:`, the rename step returns a payload for every document type and payload (no
`fvs[1]` is out of range); and for the lists `name` and `a:b,` (an entry without
`:`, the empty entry after a trailing comma) the step panics with an index out
of range on every document, so the worker fails on the first document it
handles. -/
theorem C29_rename_entries (renameFieldsCfg : String) (docType : String) (source : GoMap)
    (hne : renameFieldsCfg ≠ "")
    (hcolon : ∀ e ∈ Split ',' renameFieldsCfg.toList, ':' ∈ e) :
    (∃ source1, renameFields renameFieldsCfg docType source = .ok source1) ∧
    renameFields "name" docType source = .error "index out of range [1] with length 1" ∧
    renameFields "a:b," docType source = .error "index out of range [1] with length 1" ∧
    handleDoc { plainConfig with RenameFields := "a:b," } sampleHit true =
      .error "index out of range [1] with length 1" := by
  refine ⟨?_, rfl, rfl, rfl⟩
  obtain ⟨s1, hs1⟩ := renameLoop_ok docType _ hcolon source
  exact ⟨s1, by simp only [renameFields, hne, ne_eq, not_false_eq_true, if_true, hs1]⟩

theorem C29_rename_entries_witness :
    (∃ source1, renameFields "_type:typeField,name:myname" "doc" [("name", .str "a")] =
      .ok source1) ∧
    renameFields "name" "doc" [("name", .str "a")] =
      .error "index out of range [1] with length 1" ∧
    renameFields "a:b," "doc" [("name", .str "a")] =
      .error "index out of range [1] with length 1" ∧
    handleDoc { plainConfig with RenameFields := "a:b," } sampleHit true =
      .error "index out of range [1] with length 1" :=
  C29_rename_entries "_type:typeField,name:myname" "doc" [("name", .str "a")] (by decide)
    (by decide)

/-! ## Documents without an index or type name -/

/-- A dequeued envelope (queue open) without `status`, with string `_index`,
`_type` and `_id` and an object `_source`, whose rename step succeeds and whose
resulting index name or type name is empty, leaves the buffers and both
counters of the worker as they were: the only thing done is the log entry, and
the worker stays in its loop. And every document that is accepted for encoding
has a non-empty index name and a non-empty type name, so no action header with
an empty `_index` or `_type` is written. -/
theorem step_empty_names_dropped (c : Config) (host : String) (t : TransportResult)
    (st : WorkerState) (docI : GoMap) (index type id : String) (source source1 : GoMap)
    (hs : docI.get "status" = none)
    (hi : docI.get "_index" = some (.str index)) (ht : docI.get "_type" = some (.str type))
    (hsrc : docI.get "_source" = some (.obj source)) (hid : docI.get "_id" = some (.str id))
    (hren : renameFields c.RenameFields type source = .ok source1)
    (hempty : (if c.TargetIndexName ≠ "" then c.TargetIndexName else index) = "" ∨
      (if c.OverrideTypeName ≠ "" then c.OverrideTypeName else type) = "") :
    step c host t st (.recv docI true) =
      .running { st with effects := st.effects ++ [.logError "failed decoding document"] } ∧
    (∀ (docJ : GoMap) (doc : Document), handleDoc c docJ true = .ok (.accepted doc) →
      doc.Index ≠ "" ∧ doc.Type_ ≠ "" ∧
      ∀ st2 : WorkerState,
        step c host t st2 (.recv docJ true) = appendDoc c host t st2 doc) := by
  refine ⟨?_, ?_⟩
  · have h404 : is404 docI = .ok false := by simp only [is404, hs]
    have hkeys : requiredKeys.any (fun key => !docI.hasKey key) = false := by
      simp [requiredKeys, GoMap.hasKey, hi, ht, hsrc, hid]
    have hlen : (if c.TargetIndexName ≠ "" then c.TargetIndexName else index).length = 0 ∨
        (if c.OverrideTypeName ≠ "" then c.OverrideTypeName else type).length = 0 := by
      rcases hempty with h | h
      · exact Or.inl (by rw [h]; rfl)
      · exact Or.inr (by rw [h]; rfl)
    have hd : handleDoc c docI true = .ok (.failedDecoding
        { Index := if c.TargetIndexName ≠ "" then c.TargetIndexName else index
          Type_ := if c.OverrideTypeName ≠ "" then c.OverrideTypeName else type
          Id := if c.RegenerateID then "" else id
          source := source1
          Routing := routingOf docI }) := by
      simp only [handleDoc, h404, hkeys, Bool.false_eq_true, if_false, GoMap.getD_of_get hi,
        GoMap.getD_of_get ht, GoMap.getD_of_get hsrc, GoMap.getD_of_get hid, assertString,
        assertMap, hren, classifyDoc, Bool.not_true, hlen, if_true]
    exact step_failedDecoding c host t st docI _ hd
  · intro docJ doc hacc
    obtain ⟨_, _, _, _, _, -, -, -, -, -, -, -, -, -, hI, hT⟩ := handleDoc_accepted hacc
    exact ⟨hI, hT, fun st2 => by simp only [step, hacc]⟩

/-- C30 (code defect): same defect as C3, C4 and C15. A decoded envelope that has
the four required keys, an empty resulting type or index name, and also a
`status` member makes the worker panic at `status.(int)` (line 68) before the
sanity test of lines 168-172 is reached: the document is not dropped and the
worker does not continue with the next one; `untypedStatusHit` is such an
envelope. Without a `status` member (and with
fields of the expected types) such a document is dropped with a log entry only,
and every document accepted for encoding has a non-empty index name and a
non-empty type name. -/
theorem C30_empty_names_with_status_panic (c : Config) (host : String) (t : TransportResult)
    (st : WorkerState) (docI : GoMap) (status : GoValue)
    (hs : docI.get "status" = some status) (hd : jsonDecoded status = true) :
    (∃ msg, step c host t st (.recv docI true) = .panic msg) ∧
    (requiredKeys.any (fun key => !untypedStatusHit.hasKey key) = false ∧
      untypedStatusHit.get "_type" = some (.str "") ∧
      ∃ msg, step c host t st (.recv untypedStatusHit true) = .panic msg) ∧
    (∀ (docK : GoMap) (index type id : String) (source source1 : GoMap),
      docK.get "status" = none →
      docK.get "_index" = some (.str index) → docK.get "_type" = some (.str type) →
      docK.get "_source" = some (.obj source) → docK.get "_id" = some (.str id) →
      renameFields c.RenameFields type source = .ok source1 →
      ((if c.TargetIndexName ≠ "" then c.TargetIndexName else index) = "" ∨
        (if c.OverrideTypeName ≠ "" then c.OverrideTypeName else type) = "") →
      step c host t st (.recv docK true) =
        .running { st with effects := st.effects ++ [.logError "failed decoding document"] }) ∧
    (∀ (docJ : GoMap) (doc : Document), handleDoc c docJ true = .ok (.accepted doc) →
      doc.Index ≠ "" ∧ doc.Type_ ≠ "") := by
  have hpanic : ∀ (doc : GoMap) (v : GoValue), doc.get "status" = some v →
      jsonDecoded v = true → ∃ msg, step c host t st (.recv doc true) = .panic msg := by
    intro doc v hv hdv
    obtain ⟨msg, hmsg⟩ := is404_error_of_status hv hdv
    exact ⟨msg, by simp only [step, handleDoc, hmsg]⟩
  refine ⟨hpanic docI status hs hd,
    ⟨rfl, rfl, hpanic untypedStatusHit (.number "200") rfl rfl⟩, ?_, ?_⟩
  · intro docK index type id source source1 h1 h2 h3 h4 h5 h6 h7
    exact (step_empty_names_dropped c host t st docK index type id source source1
      h1 h2 h3 h4 h5 h6 h7).1
  · intro docJ doc hacc
    obtain ⟨_, _, _, _, _, -, -, -, -, -, -, -, -, -, hI, hT⟩ := handleDoc_accepted hacc
    exact ⟨hI, hT⟩

theorem C30_empty_names_with_status_panic_witness :
    (∃ msg, step plainConfig "http://dst:9200" (.failure "unused") WorkerState.init
        (.recv statusHit true) = .panic msg) ∧
    (requiredKeys.any (fun key => !untypedStatusHit.hasKey key) = false ∧
      untypedStatusHit.get "_type" = some (.str "") ∧
      ∃ msg, step plainConfig "http://dst:9200" (.failure "unused") WorkerState.init
        (.recv untypedStatusHit true) = .panic msg) ∧
    (∀ (docK : GoMap) (index type id : String) (source source1 : GoMap),
      docK.get "status" = none →
      docK.get "_index" = some (.str index) → docK.get "_type" = some (.str type) →
      docK.get "_source" = some (.obj source) → docK.get "_id" = some (.str id) →
      renameFields plainConfig.RenameFields type source = .ok source1 →
      ((if plainConfig.TargetIndexName ≠ "" then plainConfig.TargetIndexName else index) = "" ∨
        (if plainConfig.OverrideTypeName ≠ "" then plainConfig.OverrideTypeName else type) =
          "") →
      step plainConfig "http://dst:9200" (.failure "unused") WorkerState.init
          (.recv docK true) =
        .running { WorkerState.init with
          effects := WorkerState.init.effects ++ [.logError "failed decoding document"] }) ∧
    (∀ (docJ : GoMap) (doc : Document),
      handleDoc plainConfig docJ true = .ok (.accepted doc) →
      doc.Index ≠ "" ∧ doc.Type_ ≠ "") :=
  C30_empty_names_with_status_panic plainConfig "http://dst:9200" (.failure "unused")
    WorkerState.init statusHit (.number "200") rfl rfl

/-! ## Lines read from the input file -/

theorem readLoop_partial (decode : List Char → Except String GoMap) (tail : List Char)
    (h : '\n' ∉ tail) : ∀ line, readLoop decode line tail = [.closeDocChan, .wgDone] := by
  induction tail with
  | nil => intro line; rfl
  | cons c rest ih =>
    intro line
    have hc : c ≠ '\n' := fun e => h (e ▸ List.mem_cons_self _ _)
    have hr : '\n' ∉ rest := fun e => h (List.mem_cons_of_mem _ e)
    simp only [readLoop, hc, if_false]
    exact ih hr _

theorem readLoop_line (decode : List Char → Except String GoMap) (l : List Char)
    (h : '\n' ∉ l) : ∀ (line rest : List Char),
      readLoop decode line (l ++ '\n' :: rest) =
        lineEvents decode (line ++ l) ++ readLoop decode [] rest := by
  induction l with
  | nil =>
    intro line rest
    simp only [List.nil_append, readLoop, if_true, lineEvents, List.append_nil]
    cases decode (line ++ ['\n']) <;> rfl
  | cons c cs ih =>
    intro line rest
    have hc : c ≠ '\n' := fun e => h (e ▸ List.mem_cons_self _ _)
    have hr : '\n' ∉ cs := fun e => h (List.mem_cons_of_mem _ e)
    show readLoop decode line (c :: (cs ++ '\n' :: rest)) = _
    simp only [readLoop, hc, if_false]
    rw [ih hr]
    simp

theorem readLoop_lines (decode : List Char → Except String GoMap) (tail : List Char)
    (htail : '\n' ∉ tail) (lines : List (List Char)) (h : ∀ l ∈ lines, '\n' ∉ l) :
    readLoop decode [] (lines.flatMap (fun l => l ++ ['\n']) ++ tail) =
      lines.flatMap (lineEvents decode) ++ [.closeDocChan, .wgDone] := by
  induction lines with
  | nil => simpa using readLoop_partial decode tail htail []
  | cons l rest ih =>
    have hl := h l (List.mem_cons_self _ _)
    have hrest := fun x hx => h x (List.mem_cons_of_mem _ hx)
    have e : (l :: rest).flatMap (fun l => l ++ ['\n']) ++ tail =
        l ++ '\n' :: (rest.flatMap (fun l => l ++ ['\n']) ++ tail) := by simp
    rw [e, readLoop_line decode l hl, ih hrest]
    simp

/-- C26 (code defect): for a file made of newline-terminated lines followed by a
last piece without a newline, the worker handles the terminated lines in file
order (one send per line that decodes, one log entry per line that does not),
closes the queue once and signals the wait group, and never looks at the last
piece: `ReadString` returns it together with `io.EOF` and the loop breaks, so a
valid last line without a final newline is not emitted. -/
theorem C26_unterminated_last_line_dropped (decode : List Char → Except String GoMap)
    (lines : List (List Char)) (tail : List Char)
    (hlines : ∀ l ∈ lines, '\n' ∉ l) (htail : '\n' ∉ tail) :
    NewFileReadWorker decode true (lines.flatMap (fun l => l ++ ['\n']) ++ tail) =
      lines.flatMap (lineEvents decode) ++ [.closeDocChan, .wgDone] ∧
    NewFileReadWorker decode true (lines.flatMap (fun l => l ++ ['\n']) ++ tail) =
      NewFileReadWorker decode true (lines.flatMap (fun l => l ++ ['\n'])) ∧
    (oneLineDecoder "\x7b\"_id\":\"1\"\x7d".toList = .ok [("_id", .str "1")] ∧
      sentEnvelopes (NewFileReadWorker oneLineDecoder true "\x7b\"_id\":\"1\"\x7d".toList) = [] ∧
      sentEnvelopes (NewFileReadWorker oneLineDecoder true "\x7b\"_id\":\"1\"\x7d\n".toList) =
        [[("_id", .str "1")]]) := by
  have h1 := readLoop_lines decode tail htail lines hlines
  have h2 := readLoop_lines decode [] (by simp) lines hlines
  simp only [List.append_nil] at h2
  refine ⟨?_, ?_, rfl, rfl, rfl⟩
  · simp only [NewFileReadWorker, Bool.not_true, Bool.false_eq_true, if_false, h1]
  · simp only [NewFileReadWorker, Bool.not_true, Bool.false_eq_true, if_false, h1, h2]

theorem C26_unterminated_last_line_dropped_witness :
    NewFileReadWorker oneLineDecoder true
        (["\x7b\"_id\":\"1\"\x7d".toList].flatMap (fun l => l ++ ['\n']) ++
          "\x7b\"_id\":\"1\"\x7d".toList) =
      ["\x7b\"_id\":\"1\"\x7d".toList].flatMap (lineEvents oneLineDecoder) ++
        [.closeDocChan, .wgDone] ∧
    NewFileReadWorker oneLineDecoder true
        (["\x7b\"_id\":\"1\"\x7d".toList].flatMap (fun l => l ++ ['\n']) ++
          "\x7b\"_id\":\"1\"\x7d".toList) =
      NewFileReadWorker oneLineDecoder true
        (["\x7b\"_id\":\"1\"\x7d".toList].flatMap (fun l => l ++ ['\n'])) ∧
    (oneLineDecoder "\x7b\"_id\":\"1\"\x7d".toList = .ok [("_id", .str "1")] ∧
      sentEnvelopes (NewFileReadWorker oneLineDecoder true "\x7b\"_id\":\"1\"\x7d".toList) = [] ∧
      sentEnvelopes (NewFileReadWorker oneLineDecoder true "\x7b\"_id\":\"1\"\x7d\n".toList) =
        [[("_id", .str "1")]]) :=
  C26_unterminated_last_line_dropped oneLineDecoder ["\x7b\"_id\":\"1\"\x7d".toList]
    "\x7b\"_id\":\"1\"\x7d".toList (by decide) (by decide)

/-! ## The task timeout of a silent worker -/

theorem silentRun_idle_only (c : Config) (hsleep : c.SleepSecondsAfterEachBulk < 295)
    (choices : List Bool) :
    ∀ (now flushes : Nat),
      silentRun c ⟨now, false, false, flushes⟩ choices =
        .running ⟨now + choices.length *
            (idleDuration +
              (if c.SleepSecondsAfterEachBulk > 0 then c.SleepSecondsAfterEachBulk.toNat else 0)),
          false, false, flushes + choices.length⟩ := by
  induction choices with
  | nil => intro now flushes; simp [silentRun]
  | cons p rest ih =>
    intro now flushes
    have hlt : ¬ taskTimeOutDuration ≤ idleDuration +
        (if c.SleepSecondsAfterEachBulk > 0 then c.SleepSecondsAfterEachBulk.toNat else 0) := by
      simp only [taskTimeOutDuration, idleDuration]
      split <;> omega
    have hstep : silentIteration c p ⟨now, false, false, flushes⟩ =
        .running ⟨now + (idleDuration +
            (if c.SleepSecondsAfterEachBulk > 0 then c.SleepSecondsAfterEachBulk.toNat else 0)),
          false, false, flushes + 1⟩ := by
      have hd : ¬ taskTimeOutDuration < idleDuration := by decide
      simp [silentIteration, hd, hlt]
    simp only [silentRun, hstep, ih, List.length_cons]
    congr 2
    · rw [Nat.add_mul, Nat.one_mul]; omega
    · omega

/-- C27 (code defect): both timers are re-armed at the head of every iteration
of the worker's loop, also after an idle timeout. With a queue that stays open
and delivers nothing, and a sleep after each bulk shorter than 295 seconds (the
default is none), every iteration waits `idleDuration` seconds, takes the idle
branch and flushes; the task timer, re-armed every time, never fires, so however
many iterations pass (60 of them are five minutes) the worker is still in its
loop and has not gone to `WORKER_DONE`. -/
theorem C27_task_timeout_never_fires (c : Config)
    (hsleep : c.SleepSecondsAfterEachBulk < 295) (choices : List Bool) :
    (∃ w, silentRun c ⟨0, false, false, 0⟩ choices = .running w ∧
      w.flushes = choices.length ∧ w.taskTick = false ∧
      w.now = choices.length * (idleDuration +
        (if c.SleepSecondsAfterEachBulk > 0 then c.SleepSecondsAfterEachBulk.toNat else 0))) ∧
    (∀ w, silentRun c ⟨0, false, false, 0⟩ choices ≠ .done w) := by
  have h := silentRun_idle_only c hsleep choices 0 0
  simp only [Nat.zero_add] at h
  refine ⟨⟨_, h, rfl, rfl, rfl⟩, fun w hw => ?_⟩
  rw [h] at hw
  cases hw

theorem C27_task_timeout_never_fires_witness :
    (∃ w, silentRun plainConfig ⟨0, false, false, 0⟩ (List.replicate 60 false) = .running w ∧
      w.flushes = (List.replicate 60 false).length ∧ w.taskTick = false ∧
      w.now = (List.replicate 60 false).length * (idleDuration +
        (if plainConfig.SleepSecondsAfterEachBulk > 0 then
          plainConfig.SleepSecondsAfterEachBulk.toNat else 0))) ∧
    (∀ w, silentRun plainConfig ⟨0, false, false, 0⟩ (List.replicate 60 false) ≠ .done w) :=
  C27_task_timeout_never_fires plainConfig (by decide) (List.replicate 60 false)

end Esm
